import Mathlib

/-!
# Pylon smart-metering framework

A shallow embedding of the modules `queue.c`, `smartmeter.c`, `timer.c`,
`uploader.c`, `io.c`, `fluksometer.c`, `strbuilder.c`, `args.c` and `meter.c` of
`src/pylon`, and of the program `src/smlogger.c`.  Stateful C functions become
functions that take the state they read and return the state they leave behind,
together with the C return value.  Results of calls into the operating system
or into libraries (lock acquisition, allocation, clock readings, parsed SML
messages, transfers, `sscanf`) are explicit arguments.  C integers are modelled
by `Nat` and `Int`; the values that occur (ring indices below the capacity, a
log level of at most five, clock readings, counters of measurements) are taken
to lie within the range of their C types.  Where the source computes in
`size_t` below zero (the length handed to the SML parser) the arithmetic is
taken modulo `2 ^ 64`, and the elapsed time of the timer barrier, a difference
of `uint64_t` stored in an `int`, is reduced to its low 32 bits.  The buffer of the string builder is a list of bytes;
the content of the bytes that `realloc` adds is given by an argument `junk`.
-/

namespace Pylon

/-! ## queue.c -/

/-- Number of entries of `s_capLevels`. -/
def ARRAY_LENGTH_s_capLevels : Nat := 5

/-- The `(size_t)-1` that `queue_count` returns when the lock fails. -/
def SIZE_MAX : Nat := 2 ^ 64 - 1

/-- The capacity thresholds compared against `count`.  In the source they are
the floating point expressions `(int)((s_capLevels[i] + CAP_DEV) * capacity)`
(enqueue) and `(int)((s_capLevels[i] - CAP_DEV) * capacity)` (dequeue); here
their values, for level index `i` and a capacity, are parameters. -/
structure CapThresholds where
  rise : Nat → Nat → Nat
  fall : Nat → Nat → Nat

/-- Thresholds computed in exact arithmetic from the percentages
`1, 25, 50, 75, 99` and the deviation of one percent. -/
def exactThresholds : CapThresholds where
  rise := fun i capacity => ([1, 25, 50, 75, 99].getD i 0 + 1) * capacity / 100
  fall := fun i capacity => ([1, 25, 50, 75, 99].getD i 0 - 1) * capacity / 100

/-- The record `struct Queue_s` without its mutex.  The buffer is a memory of
item slots: `buffer i` is the item stored at `buffer + i * itemSize`. -/
structure Queue (α : Type) where
  buffer : Nat → α
  count : Nat
  capacity : Nat
  itemSize : Nat
  head : Nat
  tail : Nat
  level : Nat

/-- The `memcpy` of one item into slot `i` of the buffer. -/
def storeItem {α : Type} (buffer : Nat → α) (i : Nat) (item : α) : Nat → α :=
  fun j => if j = i then item else buffer j

/-- Function `queue_create`.  `queueMem` tells whether the `malloc` of the
record succeeded, `mutexError` is the result of `pthread_mutex_init` and
`bufferMem` is the freshly allocated (uninitialised) buffer, if any. -/
def queue_create {α : Type} (queueMem : Bool) (mutexError : Nat)
    (bufferMem : Option (Nat → α)) (capacity itemSize : Nat) : Option (Queue α) :=
  if !queueMem then none
  else if mutexError ≠ 0 then none
  else
    match bufferMem with
    | none => none
    | some buffer =>
      some { buffer := buffer, capacity := capacity, itemSize := itemSize,
             count := 0, head := 0, tail := 0, level := 0 }

/-- The threshold loop of `queue_enqueue`:
`for (i = level; i < ARRAY_LENGTH(s_capLevels); i++) if (count == rise i) level = i+1`. -/
def enqueueLevel (th : CapThresholds) (count capacity level : Nat) : Nat :=
  (List.range' level (ARRAY_LENGTH_s_capLevels - level)).foldl
    (fun lv i => if count = th.rise i capacity then i + 1 else lv) level

/-- The threshold loop of `queue_dequeue`:
`for (i = 0; i < queue->level; i++) if (count == fall i) queue->level = i`.
The bound is read again in every round; `fuel` bounds the number of rounds,
and the initial level is always enough. -/
def dequeueLevelLoop (th : CapThresholds) (count capacity : Nat) : Nat → Nat → Nat → Nat
  | 0, _, level => level
  | fuel + 1, i, level =>
    if i < level then
      dequeueLevelLoop th count capacity fuel (i + 1)
        (if count = th.fall i capacity then i else level)
    else level

/-- The level left by the threshold loop of `queue_dequeue`. -/
def dequeueLevel (th : CapThresholds) (count capacity level : Nat) : Nat :=
  dequeueLevelLoop th count capacity level 0 level

/-- Function `queue_enqueue`; `lockError` is the result of `pthread_mutex_lock`.
Returns the queue after the call and the C return value. -/
def queue_enqueue {α : Type} (th : CapThresholds) (lockError : Nat) (queue : Queue α)
    (item : α) : Queue α × Int :=
  if lockError ≠ 0 then (queue, 0)
  else if queue.count ≥ queue.capacity then (queue, 0)
  else
    ({ queue with
        level := enqueueLevel th queue.count queue.capacity queue.level
        buffer := storeItem queue.buffer queue.tail item
        tail := (queue.tail + 1) % queue.capacity
        count := queue.count + 1 }, 1)

/-- Function `queue_dequeue`; `item` is the content of the caller's item
buffer before the call.  Returns the queue after the call, the content of the
item buffer after the call, and the C return value. -/
def queue_dequeue {α : Type} (th : CapThresholds) (lockError : Nat) (queue : Queue α)
    (item : α) : Queue α × α × Int :=
  if lockError ≠ 0 then (queue, item, 0)
  else if queue.count = 0 then (queue, item, 0)
  else
    ({ queue with
        level := dequeueLevel th queue.count queue.capacity queue.level
        head := (queue.head + 1) % queue.capacity
        count := queue.count - 1 }, queue.buffer queue.head, 1)

/-- Function `queue_count`. -/
def queue_count {α : Type} (lockError : Nat) (queue : Queue α) : Nat :=
  if lockError ≠ 0 then SIZE_MAX else queue.count

/-- Function `queue_clear`. -/
def queue_clear {α : Type} (lockError : Nat) (queue : Queue α) : Queue α :=
  if lockError ≠ 0 then queue
  else { queue with count := 0, head := 0, tail := 0 }

/-- One call of the queue interface, with the result of its lock acquisition. -/
inductive QueueOp (α : Type) where
  | enqueue (lockError : Nat) (item : α)
  | dequeue (lockError : Nat) (item : α)
  | count (lockError : Nat)
  | clear (lockError : Nat)

/-- What a call did to the queue content, as seen by the callers. -/
inductive QueueEvent (α : Type) where
  | enqueued (item : α)
  | dequeued (item : α)
  | cleared
  deriving DecidableEq

/-- Performs one call and appends what it did to the event log. -/
def queueStep {α : Type} (th : CapThresholds) (s : Queue α × List (QueueEvent α))
    (op : QueueOp α) : Queue α × List (QueueEvent α) :=
  match op with
  | .enqueue lockError item =>
    let r := queue_enqueue th lockError s.1 item
    (r.1, if r.2 ≠ 0 then s.2 ++ [.enqueued item] else s.2)
  | .dequeue lockError item =>
    let r := queue_dequeue th lockError s.1 item
    (r.1, if r.2.2 ≠ 0 then s.2 ++ [.dequeued r.2.1] else s.2)
  | .count _ => s
  | .clear lockError =>
    (queue_clear lockError s.1, if lockError ≠ 0 then s.2 else s.2 ++ [.cleared])

/-- Performs a sequence of calls on a queue, starting with an empty event log. -/
def queueRun {α : Type} (th : CapThresholds) (queue : Queue α) (ops : List (QueueOp α)) :
    Queue α × List (QueueEvent α) :=
  ops.foldl (queueStep th) (queue, [])

/-- The items accepted by the successful enqueues of a log, in order. -/
def accepted {α : Type} : List (QueueEvent α) → List α
  | [] => []
  | .enqueued item :: rest => item :: accepted rest
  | _ :: rest => accepted rest

/-- The items returned by the successful dequeues of a log, in order. -/
def returned {α : Type} : List (QueueEvent α) → List α
  | [] => []
  | .dequeued item :: rest => item :: returned rest
  | _ :: rest => returned rest

/-- The part of a log that follows its last `cleared` event. -/
def sinceClear {α : Type} (log : List (QueueEvent α)) : List (QueueEvent α) :=
  log.foldl (fun acc e => match e with
    | .cleared => []
    | e => acc ++ [e]) []

/-- The items stored in the ring, oldest first. -/
def Queue.contents {α : Type} (queue : Queue α) : List α :=
  (List.range queue.count).map (fun i => queue.buffer ((queue.head + i) % queue.capacity))

/-- Shape of the ring: the count is bounded, the head is a reduced index and
the tail is `count` slots after the head. -/
structure Queue.WF {α : Type} (queue : Queue α) : Prop where
  count_le : queue.count ≤ queue.capacity
  head_red : queue.head % queue.capacity = queue.head
  tail_eq : queue.tail = (queue.head + queue.count) % queue.capacity

/-- What the calls on a queue preserve: the ring is well shaped, and since the
last clear the accepted items are the returned items followed by the stored
ones. -/
def QueueInv {α : Type} (s : Queue α × List (QueueEvent α)) : Prop :=
  s.1.WF ∧ accepted (sinceClear s.2) = returned (sinceClear s.2) ++ s.1.contents

/-- The capacity warnings of the queue, by the index `i` of the threshold
`s_capLevels[i]`: `exceeds i` is the line
`LOG(1, "Measurement buffer exceeds %.0f%% of its capacity\n", s_capLevels[i]*100)`
of `queue_enqueue`, `fallsBelow i` the line
`LOG(1, "Measurement buffer falls below %.0f%% of its capacity\n", s_capLevels[i]*100)`
of `queue_dequeue`. -/
inductive QueueWarning where
  | exceeds (i : Nat)
  | fallsBelow (i : Nat)
  deriving DecidableEq

/-- The threshold indices for which the loop of `queue_enqueue` logs a
warning: those `i` from `level` to the last index with `count == rise i`. -/
def enqueueWarnings (th : CapThresholds) (count capacity level : Nat) : List Nat :=
  (List.range' level (ARRAY_LENGTH_s_capLevels - level)).filter
    (fun i => decide (count = th.rise i capacity))

/-- The threshold indices for which the loop of `queue_dequeue` logs a
warning, with the arguments of `dequeueLevelLoop`. -/
def dequeueWarningsLoop (th : CapThresholds) (count capacity : Nat) :
    Nat → Nat → Nat → List Nat
  | 0, _, _ => []
  | fuel + 1, i, level =>
    if i < level then
      if count = th.fall i capacity then
        i :: dequeueWarningsLoop th count capacity fuel (i + 1) i
      else dequeueWarningsLoop th count capacity fuel (i + 1) level
    else []

/-- The threshold indices for which `queue_dequeue` logs a warning. -/
def dequeueWarnings (th : CapThresholds) (count capacity level : Nat) : List Nat :=
  dequeueWarningsLoop th count capacity level 0 level

/-- The capacity warnings logged by one call of the queue interface. -/
def queueOpWarnings {α : Type} (th : CapThresholds) (queue : Queue α) :
    QueueOp α → List QueueWarning
  | .enqueue lockError _ =>
    if lockError ≠ 0 then []
    else if queue.count ≥ queue.capacity then []
    else (enqueueWarnings th queue.count queue.capacity queue.level).map .exceeds
  | .dequeue lockError _ =>
    if lockError ≠ 0 then []
    else if queue.count = 0 then []
    else (dequeueWarnings th queue.count queue.capacity queue.level).map .fallsBelow
  | .count _ => []
  | .clear _ => []

/-- The capacity warnings logged by a sequence of calls on a queue, in order. -/
def queueWarnings {α : Type} (th : CapThresholds) :
    Queue α → List (QueueOp α) → List QueueWarning
  | _, [] => []
  | queue, op :: rest =>
    queueOpWarnings th queue op ++ queueWarnings th (queueStep th (queue, []) op).1 rest

/-- Whether a call is `queue_enqueue`. -/
def QueueOp.isEnqueue {α : Type} : QueueOp α → Bool
  | .enqueue _ _ => true
  | _ => false

/-- Whether a call is `queue_dequeue`. -/
def QueueOp.isDequeue {α : Type} : QueueOp α → Bool
  | .dequeue _ _ => true
  | _ => false

/-! ## smartmeter.c -/

/-- The descriptor `INVALID_SOCKET` of `io.h`. -/
abbrev INVALID_SOCKET : Int := -1

/-! The enumeration `SmartMeter_VarID` of `smartmeter.h`, as the indices of
the measurement array. -/

abbrev INVALID_VARIABLE : Int := -1
abbrev TIMESTAMP : Nat := 0
abbrev POWER_ALL_PHASES : Nat := 1
abbrev POWER_L1 : Nat := 2
abbrev POWER_L2 : Nat := 3
abbrev POWER_L3 : Nat := 4
abbrev CURRENT_NEUTRAL : Nat := 5
abbrev CURRENT_L1 : Nat := 6
abbrev CURRENT_L2 : Nat := 7
abbrev CURRENT_L3 : Nat := 8
abbrev VOLTAGE_L1 : Nat := 9
abbrev VOLTAGE_L2 : Nat := 10
abbrev VOLTAGE_L3 : Nat := 11
abbrev PHASE_ANGLE_VOLTAGE_L2_L1 : Nat := 12
abbrev PHASE_ANGLE_VOLTAGE_L3_L1 : Nat := 13
abbrev PHASE_ANGLE_CURRENT_VOLTAGE_L1 : Nat := 14
abbrev PHASE_ANGLE_CURRENT_VOLTAGE_L2 : Nat := 15
abbrev PHASE_ANGLE_CURRENT_VOLTAGE_L3 : Nat := 16
abbrev NUM_VARIABLES : Nat := 17

/-- The record `SmartMeter_Data`: `val i` is `val[i]`.  `V` stands for the C
type `double`. -/
structure SmartMeter_Data (V : Type) where
  val : Nat → V

/-- The assignment `m->val[i] = value`. -/
def SmartMeter_Data.store {V : Type} (m : SmartMeter_Data V) (i : Nat) (value : V) :
    SmartMeter_Data V :=
  { val := fun j => if j = i then value else m.val j }

/-- An `octet_string` of libsml: its octets; `len` is the length of the list. -/
abbrev octet_string := List Nat

/-- The size in bytes of the union `OBIS`. -/
abbrev sizeof_OBIS : Nat := 6

/-- The record `OBIS_Entry`: a slot and the six raw octets of an OBIS tag. -/
structure OBIS_Entry where
  id : Nat
  obis : List Nat
  deriving DecidableEq

/-- The array `obisTable`, with its final `{0}` element: slot 0 and six zero
octets. -/
def obisTable : List OBIS_Entry :=
  [ ⟨POWER_ALL_PHASES, [0x01, 0x00, 0x0f, 0x07, 0x00, 0xff]⟩,
    ⟨POWER_L1, [0x01, 0x00, 0x23, 0x07, 0x00, 0xff]⟩,
    ⟨POWER_L2, [0x01, 0x00, 0x37, 0x07, 0x00, 0xff]⟩,
    ⟨POWER_L3, [0x01, 0x00, 0x4b, 0x07, 0x00, 0xff]⟩,
    ⟨CURRENT_NEUTRAL, [0x01, 0x00, 0x5b, 0x07, 0x00, 0xff]⟩,
    ⟨CURRENT_L1, [0x01, 0x00, 0x1f, 0x07, 0x00, 0xff]⟩,
    ⟨CURRENT_L2, [0x01, 0x00, 0x33, 0x07, 0x00, 0xff]⟩,
    ⟨CURRENT_L3, [0x01, 0x00, 0x47, 0x07, 0x00, 0xff]⟩,
    ⟨VOLTAGE_L1, [0x01, 0x00, 0x20, 0x07, 0x00, 0xff]⟩,
    ⟨VOLTAGE_L2, [0x01, 0x00, 0x34, 0x07, 0x00, 0xff]⟩,
    ⟨VOLTAGE_L3, [0x01, 0x00, 0x48, 0x07, 0x00, 0xff]⟩,
    ⟨PHASE_ANGLE_VOLTAGE_L2_L1, [0x01, 0x00, 0x51, 0x07, 0x01, 0xff]⟩,
    ⟨PHASE_ANGLE_VOLTAGE_L3_L1, [0x01, 0x00, 0x51, 0x07, 0x02, 0xff]⟩,
    ⟨PHASE_ANGLE_CURRENT_VOLTAGE_L1, [0x01, 0x00, 0x51, 0x07, 0x04, 0xff]⟩,
    ⟨PHASE_ANGLE_CURRENT_VOLTAGE_L2, [0x01, 0x00, 0x51, 0x07, 0x0f, 0xff]⟩,
    ⟨PHASE_ANGLE_CURRENT_VOLTAGE_L3, [0x01, 0x00, 0x51, 0x07, 0x1a, 0xff]⟩,
    ⟨0, [0, 0, 0, 0, 0, 0]⟩ ]

/-- The test `memcmp(a, b, n) == 0` on octet sequences that hold at least `n`
octets each. -/
def memcmpEq (a b : List Nat) (n : Nat) : Bool :=
  a.take n == b.take n

/-- What a call of `lookupObis` comes to: a pointer to a table entry, `NULL`,
or a read beyond the last element of `obisTable`, which C leaves undefined. -/
inductive ObisLookup where
  | entry (e : OBIS_Entry)
  | null
  | overrun
  deriving DecidableEq

/-- The loop of `lookupObis` over the elements from `e` on.  Its condition
`e->obis.raw` is an array, hence a non-null address in every round, so the
loop ends only at a match or by leaving the table. -/
def lookupObisFrom (obis : octet_string) : List OBIS_Entry → ObisLookup
  | [] => .overrun
  | e :: rest =>
    if memcmpEq obis e.obis obis.length then .entry e else lookupObisFrom obis rest

/-- Function `lookupObis`; `none` is the `NULL` octet string. -/
def lookupObis (obis : Option octet_string) : ObisLookup :=
  match obis with
  | none => .null
  | some o => if o.length > sizeof_OBIS then .null else lookupObisFrom o obisTable

/-- The fields of `sml_period_entry` that the module reads.  `value` is the
`sml_value`, given by the `double` that `sml_value_to_double` makes of it. -/
structure sml_period_entry (V : Type) where
  obj_name : Option octet_string
  scaler : Option Int
  value : Option V

/-- Tags of `sml_proc_par_value`, from the headers of libsml. -/
abbrev SML_PROC_PAR_VALUE_TAG_VALUE : Nat := 0x01
abbrev SML_PROC_PAR_VALUE_TAG_PERIOD_ENTRY : Nat := 0x02
abbrev SML_PROC_PAR_VALUE_TAG_TUPEL_ENTRY : Nat := 0x03
abbrev SML_PROC_PAR_VALUE_TAG_TIME : Nat := 0x04

/-- Message tag of a GetProcParameter response, from the headers of libsml. -/
abbrev SML_MESSAGE_GET_PROC_PARAMETER_RESPONSE : Nat := 0x00000501

/-- The record `sml_proc_par_value`: the tag and the member `period_entry` of
the union `data`. -/
structure sml_proc_par_value (V : Type) where
  tag : Option Nat
  period_entry : Option (sml_period_entry V)

/-- The record `sml_tree`; `null` is the `NULL` tree. -/
inductive sml_tree (V : Type) where
  | null
  | node (parameter_value : Option (sml_proc_par_value V)) (child_list : List (sml_tree V))

/-- The record `sml_get_proc_parameter_response`. -/
structure sml_get_proc_parameter_response (V : Type) where
  parameter_tree : sml_tree V

/-- The record `sml_message_body`; `data` is read as a GetProcParameter
response. -/
structure sml_message_body (V : Type) where
  tag : Option Nat
  data : Option (sml_get_proc_parameter_response V)

/-- The record `sml_message`. -/
structure sml_message (V : Type) where
  message_body : Option (sml_message_body V)

/-- The record `sml_file`; `messages_len` is the length of the list. -/
structure sml_file (V : Type) where
  messages : List (Option (sml_message V))

/-- Function `handlePeriodEntry`.  `scale value s` is `value * pow(10, s)`.
The result is the C return value and the measurement after the call; it is
`none` where C leaves the call undefined (a `NULL` entry, a lookup that leaves
the table). -/
def handlePeriodEntry {V : Type} (scale : V → Int → V) (entry : Option (sml_period_entry V))
    (m : SmartMeter_Data V) : Option (Int × SmartMeter_Data V) :=
  match entry with
  | none => none
  | some entry =>
    match entry.value with
    | some v =>
      let value := match entry.scaler with
        | some s => scale v s
        | none => v
      match lookupObis entry.obj_name with
      | .null => some (0, m)
      | .entry obis => some (1, m.store obis.id value)
      | .overrun => none
    | none => some (0, m)

/-- Function `handleParameterValue`. -/
def handleParameterValue {V : Type} (scale : V → Int → V) (ppv : Option (sml_proc_par_value V))
    (m : SmartMeter_Data V) : Option (Int × SmartMeter_Data V) :=
  match ppv with
  | some ppv =>
    match ppv.tag with
    | none => some (0, m)
    | some tag =>
      if tag = SML_PROC_PAR_VALUE_TAG_PERIOD_ENTRY then
        handlePeriodEntry scale ppv.period_entry m
      else some (0, m)
  | none => some (0, m)

mutual
/-- Function `handleTree`. -/
def handleTree {V : Type} (scale : V → Int → V) :
    sml_tree V → SmartMeter_Data V → Option (Int × SmartMeter_Data V)
  | .null, m => some (0, m)
  | .node parameter_value child_list, m =>
    match handleParameterValue scale parameter_value m with
    | none => none
    | some (ret, m₁) => handleChildren scale child_list ret m₁
/-- The loop of `handleTree` over the children from the current one on, with
the sum so far. -/
def handleChildren {V : Type} (scale : V → Int → V) :
    List (sml_tree V) → Int → SmartMeter_Data V → Option (Int × SmartMeter_Data V)
  | [], ret, m => some (ret, m)
  | child :: rest, ret, m =>
    match handleTree scale child m with
    | none => none
    | some (r, m₁) => handleChildren scale rest (ret + r) m₁
end

/-- Function `handleProcParamResponse`; a `NULL` argument is dereferenced. -/
def handleProcParamResponse {V : Type} (scale : V → Int → V)
    (data : Option (sml_get_proc_parameter_response V)) (m : SmartMeter_Data V) :
    Option (Int × SmartMeter_Data V) :=
  match data with
  | none => none
  | some data => handleTree scale data.parameter_tree m

/-- The loop of `handleSmlFile` over the messages from the current one on. -/
def handleMessages {V : Type} (scale : V → Int → V) :
    List (Option (sml_message V)) → SmartMeter_Data V → Option (Int × SmartMeter_Data V)
  | [], m => some (0, m)
  | none :: rest, m => handleMessages scale rest m
  | some message :: rest, m =>
    match message.message_body with
    | none => handleMessages scale rest m
    | some body =>
      let tag : Nat := (match body.tag with
        | some t => t
        | none => 0) % 2 ^ 16
      if tag = SML_MESSAGE_GET_PROC_PARAMETER_RESPONSE then
        handleProcParamResponse scale body.data m
      else handleMessages scale rest m

/-- Function `handleSmlFile`. -/
def handleSmlFile {V : Type} (scale : V → Int → V) (file : sml_file V)
    (m : SmartMeter_Data V) : Option (Int × SmartMeter_Data V) :=
  handleMessages scale file.messages m

/-- Function `io_closeSocket` of `io.c`, on the descriptor it is given. -/
def io_closeSocket (sfd : Int) : Int :=
  if sfd ≠ INVALID_SOCKET then INVALID_SOCKET else sfd

/-- Function `smartmeter_disconnect`, on `m_socket`. -/
def smartmeter_disconnect (m_socket : Int) : Int :=
  io_closeSocket m_socket

/-- Function `smartmeter_connect`; `clientSocket` is what `io_createClientSocket`
returns if it is called.  Returns the C return value and `m_socket`. -/
def smartmeter_connect (clientSocket : Int) (m_socket : Int) : Int × Int :=
  if m_socket ≠ INVALID_SOCKET then (1, m_socket)
  else (if clientSocket ≠ INVALID_SOCKET then 1 else 0, clientSocket)

/-- Function `sendRequest`; `written` is the result of `sml_transport_write`
as a `size_t`. -/
def sendRequest (written : Nat) : Int :=
  if written > 0 then 1 else 0

/-- What the surroundings supply to one call of `smartmeter_measure`. -/
structure MeasureEnv (V : Type) where
  /-- Result of `io_createClientSocket`. -/
  clientSocket : Int
  /-- Result of `sml_transport_write`. -/
  written : Nat
  /-- Result of `recv`. -/
  received : Int
  /-- Result of `time(NULL)`, as a `double`. -/
  time : V
  /-- Result of `sml_file_parse` on the received bytes. -/
  file : Option (sml_file V)

/-- What one call of `smartmeter_measure` leaves behind. -/
structure MeasureResult (V : Type) where
  ret : Int
  m_socket : Int
  m : SmartMeter_Data V

/-- Function `smartmeter_measure`, on the module variable `m_socket` and the
measurement `m`.  The result is `none` where the extraction is undefined. -/
def smartmeter_measure {V : Type} (scale : V → Int → V) (env : MeasureEnv V) (m_socket : Int)
    (m : SmartMeter_Data V) : Option (MeasureResult V) :=
  let c := smartmeter_connect env.clientSocket m_socket
  if c.1 = 0 then some ⟨0, c.2, m⟩
  else if sendRequest env.written = 0 then some ⟨0, c.2, m⟩
  else
    let m₁ := m.store TIMESTAMP env.time
    if env.received = -1 then some ⟨0, smartmeter_disconnect c.2, m₁⟩
    else if env.received = 0 then some ⟨0, smartmeter_disconnect c.2, m₁⟩
    else
      match env.file with
      | none => some ⟨0, smartmeter_disconnect c.2, m₁⟩
      | some file =>
        match handleSmlFile scale file m₁ with
        | none => none
        | some (n, m₂) =>
          let numVariables := n + 1
          if numVariables < NUM_VARIABLES then some ⟨0, c.2, m₂⟩
          else some ⟨1, smartmeter_disconnect c.2, m₂⟩

/-- A tree node without children whose parameter value is a period entry with
the given object name and value and no scaler. -/
def periodNode {V : Type} (obj_name : octet_string) (value : V) : sml_tree V :=
  .node (some ⟨some SML_PROC_PAR_VALUE_TAG_PERIOD_ENTRY, some ⟨some obj_name, none, some value⟩⟩)
    []

/-- A parsed file whose only message is a GetProcParameter response with the
given parameter tree. -/
def responseFile {V : Type} (tree : sml_tree V) : sml_file V :=
  ⟨[some ⟨some ⟨some SML_MESSAGE_GET_PROC_PARAMETER_RESPONSE, some ⟨tree⟩⟩⟩]⟩

/-- A tick on which connecting (descriptor 5), sending and receiving succeed
at local time 1000 and the response parses to the given tree. -/
def okTick (tree : sml_tree Int) : MeasureEnv Int :=
  { clientSocket := 5, written := 100, received := 400, time := 1000,
    file := some (responseFile tree) }

/-- A response tree with sixteen period entries that all carry the OBIS tag of
`POWER_L1`. -/
def repeatedTree : sml_tree Int :=
  .node none (List.replicate 16 (periodNode [0x01, 0x00, 0x23, 0x07, 0x00, 0xff] 230))

/-- A response tree with one period entry for each of the sixteen tags of the
table, the entry of slot `i` carrying the value `100 + i`, followed by a period
entry named by six zero octets with value 7. -/
def zeroTagTree : sml_tree Int :=
  .node none
    ((obisTable.take 16).map (fun e => periodNode e.obis (100 + (e.id : Int)))
      ++ [periodNode [0, 0, 0, 0, 0, 0] 7])

/-! ## timer.c -/

/-- The fields of `struct timespec`. -/
structure timespec where
  tv_sec : Nat
  tv_nsec : Nat

/-- Function `timer_now`; `clock` is what `clock_gettime(CLOCK_MONOTONIC, _)`
delivers, `none` when it fails. -/
def timer_now (clock : Option timespec) : Nat :=
  match clock with
  | none => 0
  | some ts => ts.tv_sec * 1000 + ts.tv_nsec / 1000000

/-- The largest value of the type `int`. -/
def INT_MAX : Int := 2 ^ 31 - 1

/-- The smallest value of the type `int`. -/
def INT_MIN : Int := -(2 ^ 31)

/-- The difference `a - b` of two values of the type `uint64_t`. -/
def u64Sub (a b : Nat) : Nat :=
  (((a : Int) - (b : Int)) % 2 ^ 64).toNat

/-- The conversion of a value of the type `uint64_t` to `int`, as in the
assignment `*elapsed = timer_now() - *barrier`: the low 32 bits, read in two's
complement. -/
def toInt (x : Nat) : Int :=
  ((x : Int) + 2 ^ 31) % 2 ^ 32 - 2 ^ 31

/-- What one call of `timer_barrier` leaves behind: the variables `*barrier`
and `*elapsed`, the C return value, and the argument of the call of
`timer_sleep`, if one was made. -/
structure BarrierResult where
  barrier : Nat
  elapsed : Int
  ret : Int
  slept : Option Int
  deriving DecidableEq

/-- Function `timer_barrier`.  `clock₁` is the clock at the call of `timer_now`
that computes the elapsed time, `sleepRet` the value that `timer_sleep` returns
if it is called, and `clock₂` the clock at the final call of `timer_now`.  The
elapsed time is the difference of two values of `uint64_t`, stored in an `int`.
The argument `interval - *elapsed` of `timer_sleep` is a difference of two
values of `int`; it is given as the integer that it denotes, which is its value
in C whenever that integer is at most `INT_MAX`. -/
def timer_barrier (clock₁ clock₂ : Option timespec) (sleepRet : Int) (barrier : Nat)
    (interval : Int) : BarrierResult :=
  if barrier > 0 then
    let elapsed : Int := toInt (u64Sub (timer_now clock₁) barrier)
    if elapsed < interval then
      { barrier := timer_now clock₂, elapsed := elapsed, ret := sleepRet,
        slept := some (interval - elapsed) }
    else
      { barrier := timer_now clock₂, elapsed := elapsed, ret := 0, slept := none }
  else
    { barrier := timer_now clock₂, elapsed := 0, ret := 1, slept := none }

/-- What the surroundings supply to one call of `timer_barrier`: the clock at
its two calls of `timer_now` and the value returned by `timer_sleep`. -/
structure BarrierCall where
  clock₁ : Option timespec
  clock₂ : Option timespec
  sleepRet : Int

/-- One call of `timer_barrier` on the state `barrier`. -/
def barrierStep (interval : Int) (barrier : Nat) (c : BarrierCall) : BarrierResult :=
  timer_barrier c.clock₁ c.clock₂ c.sleepRet barrier interval

/-- The values stored in the state by successive calls of `timer_barrier` with
one interval, as `threadproc` makes them, from the state `barrier` on. -/
def barrierStates (interval : Int) : Nat → List BarrierCall → List Nat
  | _, [] => []
  | barrier, c :: rest =>
    (barrierStep interval barrier c).barrier ::
      barrierStates interval (barrierStep interval barrier c).barrier rest

/-- The clock model of the pacing property, for successive calls from the
state `barrier` on: every reading is positive, the readings do not decrease
(the state holds the previous reading), and a call of `timer_sleep d` moves the
clock on by at least `d`.  On a first call (state 0) the first reading is not
taken. -/
def clockModel (interval : Int) : Nat → List BarrierCall → Bool
  | _, [] => true
  | barrier, c :: rest =>
    decide (0 < timer_now c.clock₂) &&
    (barrier == 0 ||
      (decide (barrier ≤ timer_now c.clock₁) &&
        decide (timer_now c.clock₁ ≤ timer_now c.clock₂))) &&
    (match (barrierStep interval barrier c).slept with
      | some d => decide ((timer_now c.clock₁ : Int) + d ≤ (timer_now c.clock₂ : Int))
      | none => true) &&
    clockModel interval (barrierStep interval barrier c).barrier rest

/-! ## uploader.c -/

/-- The code `CURLE_OK` of libcurl. -/
abbrev CURLE_OK : Int := 0

/-- The lines that `performPOST` passes to `LOG`, each with the level it is
logged at.  The macro `LOG` prints a line when its level is at most
`log_level`. -/
inductive UploadLog where
  /-- Line `LOG(1, "Failed to perform POST request: %s\n", ...)`. -/
  | postFailed (res : Int)
  /-- Line `LOG(0, "Failed to get response code: %s\n", ...)`. -/
  | responseCodeFailed (res : Int)
  /-- Line `LOG(1, "Failed to upload measurement: HTTP response is %ld\n", code)`. -/
  | httpFailed (code : Int)
  /-- Line `LOG(4, "Measurement sent successfully\n")`. -/
  | sentOk
  /-- Line `LOG(1, "Measurement finally sent\n")`. -/
  | finallySent
  deriving DecidableEq

/-- What libcurl delivers to one call of `performPOST`: the result of
`curl_easy_perform`, the result of `curl_easy_getinfo` and the response code
that it stores. -/
structure PostOutcome where
  res : Int
  infoRes : Int
  code : Int
  deriving DecidableEq

/-- What one call of `performPOST` leaves behind: the C return value, the
static variable `lastError` and the lines logged. -/
structure PostResult where
  ret : Int
  lastError : Int
  log : List UploadLog
  deriving DecidableEq

/-- Function `performPOST`, on the static variable `lastError`. -/
def performPOST (lastError : Int) (o : PostOutcome) : PostResult :=
  if o.res ≠ CURLE_OK then
    { ret := 0, lastError := o.res,
      log := if lastError ≠ o.res then [.postFailed o.res] else [] }
  else if o.infoRes ≠ CURLE_OK then
    { ret := 0, lastError := lastError, log := [.responseCodeFailed o.infoRes] }
  else if o.code ≠ 201 ∧ o.code ≠ 204 then
    { ret := 0, lastError := o.code,
      log := if lastError ≠ o.code then [.httpFailed o.code] else [] }
  else
    { ret := 1, lastError := 0,
      log := .sentOk :: (if lastError ≠ 0 then [.finallySent] else []) }

/-- Successive calls of `performPOST`, from the given `lastError` on: the lines
logged by all of them, in order. -/
def postLog : Int → List PostOutcome → List UploadLog
  | _, [] => []
  | lastError, o :: rest =>
    (performPOST lastError o).log ++ postLog (performPOST lastError o).lastError rest

/-- An upload attempt as the de-duplication rule sees it: a failure, with its
fingerprint if it has one, or a success. -/
inductive Attempt where
  | failure (fingerprint : Option Int)
  | success
  deriving DecidableEq

/-- The attempt that an outcome amounts to: a transport failure has the
transport code as fingerprint, a rejected HTTP status has the status, and a
response code that cannot be read is a failure without fingerprint. -/
def PostOutcome.attempt (o : PostOutcome) : Attempt :=
  if o.res ≠ CURLE_OK then .failure (some o.res)
  else if o.infoRes ≠ CURLE_OK then .failure none
  else if o.code ≠ 201 ∧ o.code ≠ 204 then .failure (some o.code)
  else .success

/-- The two kinds of line of the de-duplication rule. -/
inductive RuleLine where
  | error
  | finallySent
  deriving DecidableEq

/-- The lines that the de-duplication rule of the specification prescribes,
given the stored fingerprint (`none`: no previous error) and whether a failure
occurred since the last success: an error line exactly for a failure whose
fingerprint differs from the stored one, and one "finally sent" line for a
success that follows one or more failures. -/
def ruleLines : Option Int → Bool → List Attempt → List RuleLine
  | _, _, [] => []
  | stored, _, .failure (some f) :: rest =>
    (if stored ≠ some f then [.error] else []) ++ ruleLines (some f) true rest
  | stored, _, .failure none :: rest => ruleLines stored true rest
  | _, failed, .success :: rest =>
    (if failed then [.finallySent] else []) ++ ruleLines none false rest

/-- The error and "finally sent" lines among the logged lines. -/
def UploadLog.ruleLine : UploadLog → Option RuleLine
  | .postFailed _ => some .error
  | .responseCodeFailed _ => some .error
  | .httpFailed _ => some .error
  | .sentOk => none
  | .finallySent => some .finallySent

/-- An outcome with a readable response code and, if the transport succeeded,
an HTTP status other than 0. -/
def PostOutcome.fingerprinted (o : PostOutcome) : Bool :=
  decide (o.res ≠ CURLE_OK) || (decide (o.infoRes = CURLE_OK) && decide (o.code ≠ 0))

/-- The outcome "HTTP status `code`". -/
def httpStatus (code : Int) : PostOutcome :=
  { res := CURLE_OK, infoRes := CURLE_OK, code := code }

/-- What the surroundings supply to an upload worker.  Time is counted in
rounds, one for each evaluation of a loop condition of `uploadProc`:
`running t` is the value of `m_running` in round `t`, `dequeue t` is the payload
that `queue_dequeue` delivers in round `t` (`none` when it returns 0 or
delivers `NULL`), and `post t` is what libcurl delivers to the POST of round
`t`. -/
structure WorkerEnv where
  running : Nat → Bool
  dequeue : Nat → Option (List Char)
  post : Nat → PostOutcome

/-- What an upload worker does, with the round in which it does it. -/
inductive WorkerEvent where
  /-- A call of `timer_sleep`. -/
  | sleep (round : Nat) (interval : Int)
  /-- A call of `performPOST` and its return value. -/
  | post (round : Nat) (data : List Char) (ret : Int)
  /-- The call `free(data)` after a successful POST. -/
  | free (round : Nat) (data : List Char)
  /-- The worker leaves its loop. -/
  | exit (round : Nat)
  deriving DecidableEq

/-- The loops of `uploadProc`, from round `t` on, for at most `fuel` loop
rounds.  With `none` the worker is at the head of the outer loop
`while (m_running)`; with `some data` it is at the head of the inner loop
`while (!performPOST(curl, data))`, which does not read `m_running`.  The
trace ends without an `exit` when the rounds are used up in a loop. -/
def workerLoop (env : WorkerEnv) (m_interval : Int) :
    Nat → Nat → Option (List Char) → Int → List WorkerEvent
  | 0, _, _, _ => []
  | fuel + 1, t, none, lastError =>
    if env.running t then
      match env.dequeue t with
      | none => .sleep t m_interval :: workerLoop env m_interval fuel (t + 1) none lastError
      | some data => workerLoop env m_interval fuel t (some data) lastError
    else [.exit t]
  | fuel + 1, t, some data, lastError =>
    if (performPOST lastError (env.post t)).ret = 0 then
      .post t data 0 :: .sleep t m_interval ::
        workerLoop env m_interval fuel (t + 1) (some data)
          (performPOST lastError (env.post t)).lastError
    else
      .post t data (performPOST lastError (env.post t)).ret :: .free t data ::
        workerLoop env m_interval fuel (t + 1) none
          (performPOST lastError (env.post t)).lastError

/-- Function `uploadProc` for the worker `threadNum`; `curl` tells whether
`curl_easy_init` delivers a handle. -/
def uploadProc (env : WorkerEnv) (curl : Bool) (m_interval threadNum m_numThreads : Int)
    (lastError : Int) (fuel : Nat) : List WorkerEvent :=
  .sleep 0 (Int.tdiv (m_interval * threadNum) m_numThreads) ::
    (if curl then workerLoop env m_interval fuel 0 none lastError else [.exit 0])

/-- Whether an event is a POST attempt made in round `t₀` or later. -/
def WorkerEvent.isPostFrom (t₀ : Nat) : WorkerEvent → Bool
  | .post round _ _ => decide (t₀ ≤ round)
  | _ => false

/-- Whether an event is the worker leaving its loop. -/
def WorkerEvent.isExit : WorkerEvent → Bool
  | .exit _ => true
  | _ => false

/-- Surroundings in which `m_running` is set in round 0 only, the queue
delivers the payload `p`, and every POST is answered with HTTP status 500. -/
def outageEnv : WorkerEnv where
  running := fun t => decide (t = 0)
  dequeue := fun _ => some ['p']
  post := fun _ => httpStatus 500

/-! ## io.c -/

/-- What the system calls deliver for one address candidate of `getaddrinfo`,
each if it is called: the result of `socket` (a descriptor, or -1), of
`setsockopt` and of `connect` (0, or -1). -/
structure AddrCandidate where
  socket : Int
  setsockopt : Int
  connect : Int

/-- The loop of `io_createClientSocket` over the address candidates from the
current one on; the result is the variable `sfd` after the loop. -/
def clientSocketLoop (timeout : Int) : List AddrCandidate → Int
  | [] => INVALID_SOCKET
  | c :: rest =>
    if c.socket = INVALID_SOCKET then
      (if rest.isEmpty then c.socket else clientSocketLoop timeout rest)
    else if timeout ≥ 0 ∧ c.setsockopt = -1 then c.socket
    else if c.connect = -1 then
      (if rest.isEmpty then INVALID_SOCKET else clientSocketLoop timeout rest)
    else c.socket

/-- Function `io_createClientSocket`.  `gaiError` is the result of
`getaddrinfo` and `candidates` the list that it delivers. -/
def io_createClientSocket (host service : Option String) (timeout : Int) (gaiError : Int)
    (candidates : List AddrCandidate) : Int :=
  match host with
  | none => 0
  | some _ =>
    match service with
    | none => 0
    | some _ =>
      if gaiError ≠ 0 then INVALID_SOCKET else clientSocketLoop timeout candidates

/-! ## fluksometer.c -/

/-- The C library test `isspace` in the C locale. -/
def isspace (c : Char) : Bool :=
  c = ' ' || (9 ≤ c.toNat && c.toNat ≤ 13)

/-- The value of a decimal digit. -/
def digitValue (c : Char) : Option Nat :=
  if 48 ≤ c.toNat ∧ c.toNat ≤ 57 then some (c.toNat - 48) else none

/-- An optional sign: whether it is a minus, and the input left. -/
def scanSign : List Char → Bool × List Char
  | '-' :: rest => (true, rest)
  | '+' :: rest => (false, rest)
  | cs => (false, cs)

/-- The constant `INITIAL_CAPACITY`. -/
abbrev INITIAL_CAPACITY : Nat := 32

/-- The character `'\0'` that ends a C string. -/
def NUL : Char := Char.ofNat 0

/-- The record `struct StringBuilder_s`: `str` holds the bytes of the buffer
that the pointer `str` points to, `capacity` of them, and is `none` for
`NULL`. -/
structure StringBuilder where
  str : Option (List Char)
  len : Nat
  capacity : Nat
  deriving DecidableEq

/-- The string under construction: the first `len` bytes of the buffer. -/
def StringBuilder.text (sb : StringBuilder) : List Char :=
  match sb.str with
  | some buf => buf.take sb.len
  | none => []

/-- Whether `str` is not `NULL`. -/
def StringBuilder.allocated (sb : StringBuilder) : Bool :=
  sb.str.isSome

/-- Function `strbuilder_create`. -/
def strbuilder_create : StringBuilder :=
  { str := none, len := 0, capacity := 0 }

/-- Function `strbuilder_reset`. -/
def strbuilder_reset (sb : StringBuilder) : StringBuilder :=
  { sb with len := 0 }

/-- Function `strbuilder_length`. -/
def strbuilder_length (sb : StringBuilder) : Nat :=
  sb.len

/-- The loop `while (newCapacity < minCapacity)` of `strbuilder_printf`, for at
most `fuel` rounds. -/
def growCapacity : Nat → Nat → Nat → Nat
  | 0, newCapacity, _ => newCapacity
  | fuel + 1, newCapacity, minCapacity =>
    if newCapacity < minCapacity then
      growCapacity fuel (if newCapacity ≠ 0 then newCapacity * 2 else INITIAL_CAPACITY)
        minCapacity
    else newCapacity

/-- The buffer that a successful `realloc(str, newCapacity)` delivers: the
bytes of the old buffer as far as they fit, then bytes of indeterminate
content, `junk i` standing for the byte with index `i`. -/
def reallocBuffer (junk : Nat → Char) (str : Option (List Char)) (newCapacity : Nat) :
    List Char :=
  match str with
  | some buf =>
    buf.take newCapacity ++ (List.range' buf.length (newCapacity - buf.length)).map junk
  | none => (List.range' 0 newCapacity).map junk

/-- The block `if (sb->capacity < minCapacity)` of `strbuilder_printf`, which
grows the buffer; `realloc` tells whether `realloc` succeeds, and the result is
`none` when it fails. -/
def growBuffer (realloc : Bool) (junk : Nat → Char) (sb : StringBuilder) (minCapacity : Nat) :
    Option StringBuilder :=
  if sb.capacity < minCapacity then
    if realloc then
      some { sb with
        str := some (reallocBuffer junk sb.str
          (growCapacity minCapacity sb.capacity minCapacity))
        capacity := growCapacity minCapacity sb.capacity minCapacity }
    else none
  else some sb

/-- The bytes of the buffer after `vsnprintf(str + len, size, format, args)`:
for `size > 0`, at most `size - 1` characters of the formatted text and a
`'\0'` are written from the offset `len` on. -/
def vsnprintfAt (buf : List Char) (len size : Nat) (text : List Char) : List Char :=
  if size = 0 then buf
  else
    buf.take len ++ (text.take (size - 1) ++ [NUL]) ++
      buf.drop (len + (text.take (size - 1)).length + 1)

/-- The loop `while (!done)` of `strbuilder_printf`, for at most `fuel` rounds,
with the current value of `writeSize`.  `text` is the formatted text, whose
length `vsnprintf` returns.  The result is the builder and the C return value,
`none` when the rounds are used up. -/
def printfLoop (realloc : Bool) (junk : Nat → Char) (text : List Char) :
    Nat → StringBuilder → Nat → Option (StringBuilder × Int)
  | 0, _, _ => none
  | fuel + 1, sb, writeSize =>
    match growBuffer realloc junk sb (sb.len + writeSize + 1) with
    | none => some (sb, -1)
    | some sb₁ =>
      if text.length < sb₁.capacity - sb₁.len then
        some ({ sb₁ with
          str := sb₁.str.map (fun buf =>
            vsnprintfAt buf sb₁.len (sb₁.capacity - sb₁.len) text)
          len := sb₁.len + text.length }, (text.length : Int))
      else
        printfLoop realloc junk text fuel
          { sb₁ with
            str := sb₁.str.map (fun buf =>
              vsnprintfAt buf sb₁.len (sb₁.capacity - sb₁.len) text) }
          text.length

/-- Function `strbuilder_printf`: `format` is the format string and `text` the
text that it formats to.  Two rounds of the loop always suffice. -/
def strbuilder_printf (realloc : Bool) (junk : Nat → Char) (sb : StringBuilder)
    (format text : List Char) : StringBuilder × Int :=
  match printfLoop realloc junk text 2 sb format.length with
  | some r => r
  | none => (sb, -1)

/-- Function `strbuilder_copy`: the block of `len + 1` bytes that `memcpy`
fills from the buffer; `malloc` tells whether `malloc` succeeds and `none` is
`NULL`. -/
def strbuilder_copy (malloc : Bool) (sb : StringBuilder) : Option (List Char) :=
  match sb.str with
  | none => none
  | some buf => if !malloc then none else some (buf.take (sb.len + 1))

/-- Function `strbuilder_pack`. -/
def strbuilder_pack (realloc : Bool) (junk : Nat → Char) (sb : StringBuilder) :
    StringBuilder :=
  if sb.len = 0 then { sb with str := none, capacity := 0 }
  else if realloc then
    { sb with str := some (reallocBuffer junk sb.str (sb.len + 1)), capacity := sb.len + 1 }
  else sb

/-- The C string at the start of a block of memory: the characters before the
first `'\0'`, or `none` when the block holds no `'\0'`, so that reading the
string leaves the block. -/
def cstring (block : List Char) : Option (List Char) :=
  if NUL ∈ block then some (block.takeWhile (fun c => c ≠ NUL)) else none

/-- One call of the interface of the string builder that changes it, with the
results of the allocation that it makes: `printf format text` stands for a call
of `strbuilder_printf` whose format string is `format` and whose formatted text
is `text`. -/
inductive BuilderOp where
  | printf (realloc : Bool) (format text : List Char)
  | reset
  | pack (realloc : Bool)

/-- Performs one call. -/
def builderStep (junk : Nat → Char) (sb : StringBuilder) : BuilderOp → StringBuilder
  | .printf realloc format text => (strbuilder_printf realloc junk sb format text).1
  | .reset => strbuilder_reset sb
  | .pack realloc => strbuilder_pack realloc junk sb

/-- Performs a sequence of calls on the builder that `strbuilder_create`
delivers. -/
def builderRun (junk : Nat → Char) (ops : List BuilderOp) : StringBuilder :=
  ops.foldl (builderStep junk) strbuilder_create

/-- The string under construction after a sequence of calls, as the interface
describes it: the texts appended since the last reset, a call of
`strbuilder_printf` whose allocation fails appending nothing. -/
def currentString (junk : Nat → Char) : List BuilderOp → List Char → StringBuilder → List Char
  | [], acc, _ => acc
  | .printf realloc format text :: rest, acc, sb =>
    currentString junk rest
      (if (strbuilder_printf realloc junk sb format text).2 = -1 then acc else acc ++ text)
      (strbuilder_printf realloc junk sb format text).1
  | .reset :: rest, _, sb => currentString junk rest [] (strbuilder_reset sb)
  | .pack realloc :: rest, acc, sb => currentString junk rest acc (strbuilder_pack realloc junk sb)

/-- The shape of a builder: without buffer it is empty, and with a buffer the
buffer has `capacity` bytes, more than `len`. -/
def StringBuilder.WF (sb : StringBuilder) : Prop :=
  (sb.str = none → sb.len = 0 ∧ sb.capacity = 0) ∧
  (∀ buf, sb.str = some buf → buf.length = sb.capacity ∧ sb.len < sb.capacity)

/-- Whether the byte after the string under construction is `'\0'`. -/
def StringBuilder.terminated (sb : StringBuilder) : Bool :=
  match sb.str with
  | none => true
  | some buf => buf.get? sb.len == some NUL

/-- What a call that appends `text` makes of a builder `sb`: the builder `r` is
well shaped, has a buffer, holds the string of `sb` followed by `text` with a
`'\0'` after it, and a copy of it is that string with its `'\0'`. -/
def StringBuilder.appended (sb r : StringBuilder) (text : List Char) : Prop :=
  r.WF ∧ r.allocated = true ∧ r.len = sb.len + text.length ∧ r.text = sb.text ++ text ∧
  r.terminated = true ∧ strbuilder_copy true r = some (sb.text ++ text ++ [NUL])

/-- What a call that fails makes of a builder `sb`: the builder `r` is well
shaped and holds the string of `sb`. -/
def StringBuilder.kept (sb r : StringBuilder) : Prop :=
  r.WF ∧ r.len = sb.len ∧ r.text = sb.text

/-! ## args.c -/

/-- The flag `OPTIONAL` of `args.h`. -/
abbrev OPTIONAL : Nat := 0x80

/-! The enumeration `ArgType` of `args.h`. -/

abbrev ARG_STRING : Nat := 0
abbrev ARG_FLAG : Nat := 1
abbrev ARG_INT : Nat := 2
abbrev ARG_FLOAT : Nat := 3

/-- The record `Argument`; the field `pfx` is the field `prefix` of the source.
A table of arguments is the list of its entries before the closing `{0}`
entry, the first one whose name is `NULL`. -/
structure Argument where
  name : String
  pfx : Option String
  value : Option String
  type : Nat
  description : Option String
  deriving DecidableEq

/-- The expression `type &~ OPTIONAL`, for the 32 bits of an `int`. -/
def clearOptional (type : Nat) : Nat :=
  type &&& 0xFFFFFF7F

/-- Function `lookupByPrefix`: the index of the entry found, `none` for `NULL`. -/
def lookupByPrefix : List Argument → String → Option Nat
  | [], _ => none
  | a :: rest, p =>
    if a.pfx = some p then some 0 else (lookupByPrefix rest p).map (fun k => k + 1)

/-- The assignment `arg->value = v` for the entry with index `k`. -/
def setValue : List Argument → Nat → String → List Argument
  | [], _, _ => []
  | a :: rest, 0, v => { a with value := some v } :: rest
  | a :: rest, k + 1, v => a :: setValue rest k v

/-- The type of the entry with index `k`. -/
def typeAt (args : List Argument) (k : Nat) : Nat :=
  match args.get? k with
  | some a => a.type
  | none => 0

/-- The loop `while (orderedArg->prefix) ++orderedArg;` on the entries from
the current one on: the number of entries skipped. -/
def skipPrefixed : List Argument → Nat
  | [] => 0
  | a :: rest => if a.pfx.isSome then skipPrefixed rest + 1 else 0

/-- The first loop of `args_parse` over the arguments from `argv[i]` on.  The
state is the table, the variable `ok` and the index of `orderedArg`.  The case
of a last argument (`i + 1 >= argc`) and the case of an argument with a
successor are written apart. -/
def parseArgv : List String → List Argument × Int × Nat → List Argument × Int × Nat
  | [], st => st
  | [a], (args, ok, ord) =>
    match lookupByPrefix args a with
    | some k =>
      if clearOptional (typeAt args k) = ARG_FLAG then (setValue args k a, ok, ord)
      else (args, 0, ord)
    | none =>
      if ord + skipPrefixed (args.drop ord) ≥ args.length then
        (args, 0, ord + skipPrefixed (args.drop ord))
      else
        (setValue args (ord + skipPrefixed (args.drop ord)) a, ok,
          ord + skipPrefixed (args.drop ord) + 1)
  | a :: v :: rest, (args, ok, ord) =>
    match lookupByPrefix args a with
    | some k =>
      if clearOptional (typeAt args k) = ARG_FLAG then
        parseArgv (v :: rest) (setValue args k a, ok, ord)
      else if (lookupByPrefix args v).isSome then parseArgv (v :: rest) (args, 0, ord)
      else parseArgv rest (setValue args k v, ok, ord)
    | none =>
      if ord + skipPrefixed (args.drop ord) ≥ args.length then
        parseArgv (v :: rest) (args, 0, ord + skipPrefixed (args.drop ord))
      else
        parseArgv (v :: rest)
          (setValue args (ord + skipPrefixed (args.drop ord)) a, ok,
            ord + skipPrefixed (args.drop ord) + 1)

/-- Whether `strtol(value, &endptr, 0)` leaves `endptr != value`: after white
space and an optional sign the text starts with a decimal digit. -/
def strtolConverts (value : String) : Bool :=
  match (scanSign (value.toList.dropWhile isspace)).2 with
  | c :: _ => (digitValue c).isSome
  | [] => false

/-- Whether `strtod(value, &endptr)` leaves `endptr != value`, for decimal
numerals: after white space and an optional sign the text starts with a digit,
or with a point and a digit. -/
def strtodConverts (value : String) : Bool :=
  match (scanSign (value.toList.dropWhile isspace)).2 with
  | '.' :: c :: _ => (digitValue c).isSome
  | c :: _ => (digitValue c).isSome
  | [] => false

/-- Function `isValid`. -/
def isValid (arg : Argument) : Bool :=
  match arg.value with
  | none => arg.type &&& OPTIONAL ≠ 0
  | some value =>
    if clearOptional arg.type = ARG_STRING then true
    else if clearOptional arg.type = ARG_INT then strtolConverts value
    else if clearOptional arg.type = ARG_FLOAT then strtodConverts value
    else if clearOptional arg.type = ARG_FLAG then true
    else false

/-- The second loop of `args_parse`, which checks every entry of the table. -/
def validateArgs : List Argument → Int → Int
  | [], ok => ok
  | it :: rest, ok =>
    if it.value.isNone ∧ it.type &&& OPTIONAL = 0 then validateArgs rest 0
    else if !isValid it then validateArgs rest 0
    else validateArgs rest ok

/-- Function `args_parse`, without the messages it prints: the C return value
and the table after the call.  `argv` starts with the program name. -/
def args_parse (args : List Argument) (argv : List String) : Int × List Argument :=
  let st := parseArgv (argv.drop 1) (args, 1, 0)
  (validateArgs st.1 st.2.1, st.1)

/-- Function `args_value`; `none` is `NULL`. -/
def args_value : List Argument → String → Option String
  | [], _ => none
  | it :: rest, name => if it.name = name then it.value else args_value rest name

/-! ## smlogger.c -/

/-- The table `args` of `smlogger.c`. -/
def smloggerArgs : List Argument :=
  [ ⟨"count", some "-c", some "-1", ARG_INT ||| OPTIONAL,
      some "Number of measurements, -1 for infinite"⟩,
    ⟨"interval", some "-i", some "1000", ARG_INT ||| OPTIONAL,
      some "Interval between two measurements in milliseconds"⟩,
    ⟨"onboard", some "-o", none, ARG_FLAG ||| OPTIONAL,
      some "Use Flukso onboard sensors instead of Smart Meter"⟩,
    ⟨"address", some "-a", none, ARG_STRING ||| OPTIONAL,
      some "Hostname/IP of the Smart Meter or path of the sensor FIFO"⟩,
    ⟨"port", some "-p", some "7259", ARG_STRING ||| OPTIONAL, some "Port of the Smart Meter"⟩,
    ⟨"url", some "-u", none, ARG_STRING ||| OPTIONAL,
      some "URL of the energy server to receive the measurements"⟩,
    ⟨"token", some "-t", none, ARG_STRING ||| OPTIONAL,
      some "Token to identify the measurements"⟩,
    ⟨"upload_threads", some "-n", some "1", ARG_INT ||| OPTIONAL,
      some "Number of threads used to upload measurements"⟩,
    ⟨"buffer_size", some "-b", some "36000", ARG_INT ||| OPTIONAL,
      some "Size of the upload queue to buffer measurements"⟩,
    ⟨"smart", some "-s", none, ARG_FLAG ||| OPTIONAL,
      some "Output values only when differing from defaults"⟩,
    ⟨"help", some "-h", none, ARG_FLAG ||| OPTIONAL, some "Display program usage and help"⟩,
    ⟨"verbose", some "-v", some "1", ARG_INT ||| OPTIONAL, some "Verbose level"⟩,
    ⟨"quiet", some "-q", none, ARG_FLAG ||| OPTIONAL,
      some "Do not output measurements on stdout"⟩ ]

/-- An item of a command line: a flag given by its prefix, or a prefix
followed by a value. -/
inductive CliItem where
  | flag (p : String)
  | option (p : String) (v : String)
  deriving DecidableEq

/-- The words of `argv` that an item consists of. -/
def CliItem.words : CliItem → List String
  | .flag p => [p]
  | .option p v => [p, v]

/-- Whether an item is admissible for a table: a flag names the prefix of a
flag entry; a prefix with a value names the prefix of an entry that is not a
flag, the value is not itself a prefix of the table, and for an entry of type
`ARG_INT` it is numeric (converted by `strtol`). -/
def CliItem.admissible (args : List Argument) : CliItem → Bool
  | .flag p =>
    match lookupByPrefix args p with
    | some k => clearOptional (typeAt args k) = ARG_FLAG
    | none => false
  | .option p v =>
    match lookupByPrefix args p with
    | some k =>
      clearOptional (typeAt args k) ≠ ARG_FLAG && (lookupByPrefix args v).isNone &&
        (clearOptional (typeAt args k) ≠ ARG_INT || strtolConverts v)
    | none => false

/-- The prefix that an item starts with. -/
def CliItem.pfx : CliItem → String
  | .flag p => p
  | .option p _ => p

/-- The text that `args_parse` stores for an item: the prefix itself for a
flag, the value otherwise. -/
def CliItem.given : CliItem → String
  | .flag p => p
  | .option _ v => v

/-- The value that the last item for the prefix `p` supplies, if there is such
an item: the value after the prefix, or the prefix itself for a flag. -/
def lastGiven (p : String) : List CliItem → Option String
  | [] => none
  | it :: rest =>
    match lastGiven p rest with
    | some v => some v
    | none => if it.pfx = p then some it.given else none

/-- The table after the assignment that an item causes. -/
def applyItem (args : List Argument) (it : CliItem) : List Argument :=
  match lookupByPrefix args it.pfx with
  | some k => setValue args k it.given
  | none => args

/-- An entry that passes the checks of the second loop of `args_parse` and
whose type is `ARG_STRING`, `ARG_FLAG` or `ARG_INT`, optional. -/
def validEntry (e : Argument) : Bool :=
  decide (e.type &&& OPTIONAL ≠ 0) && isValid e && decide (clearOptional e.type ≤ ARG_INT)

/-- The value of the entry with index `k`. -/
def valueAt (args : List Argument) (k : Nat) : Option String :=
  match args.get? k with
  | some a => a.value
  | none => none

/-! ## meter.c -/

/-- The record `struct MeterHandle_s` without its thread handle and its
callback. -/
structure MeterHandle where
  interval : Int
  running : Bool
  deriving DecidableEq

/-- Function `meter_stop`; `none` is the `NULL` handle.  Returns the handle
after the call and the C return value. -/
def meter_stop (handle : Option MeterHandle) : Option MeterHandle × Int :=
  match handle with
  | none => (none, 0)
  | some h =>
    if !h.running then (some h, 1)
    else (some { h with running := false }, 1)

/-! ## smlogger.c: processing of measurements -/

/-- Lines that `processMeasurement` and `uploader_send` write to the log. -/
inductive SmloggerLog where
  /-- Line `LOG(0, "Upload queue full\n")` of `uploader_send`. -/
  | uploadQueueFull
  /-- Line `LOG(1, "Unable to upload data\n")`. -/
  | unableToUpload
  /-- Line `LOG(2, "numMeasurements: %d, buffered: %d\n", ...)`. -/
  | numMeasurements (n : Int) (buffered : Nat)
  deriving DecidableEq

/-- Function `uploader_send` of `uploader.c` on the queue `m_queue`, whose items
are the `char*` payloads (`none` is `NULL`).  Returns the queue after the call,
the C return value and the lines logged. -/
def uploader_send (th : CapThresholds) (lockError : Nat)
    (m_queue : Queue (Option (List Char))) (payload : Option (List Char)) :
    Queue (Option (List Char)) × Int × List SmloggerLog :=
  if (queue_enqueue th lockError m_queue payload).2 = 0 then
    ((queue_enqueue th lockError m_queue payload).1, 0, [.uploadQueueFull])
  else ((queue_enqueue th lockError m_queue payload).1, 1, [])

/-- Function `uploader_queueSize` of `uploader.c`. -/
def uploader_queueSize (lockError : Nat) (m_queue : Queue (Option (List Char))) : Nat :=
  queue_count lockError m_queue

/-- The program arguments that `processMeasurement` reads from the static
variables `m_url`, `m_token` and `m_count`; `none` is `NULL`.  The variables
`m_quiet` and `m_smart` only select what is printed on the standard output,
which is left out. -/
structure SmloggerConfig where
  m_url : Option String
  m_token : Option String
  m_count : Int

/-- The state that `processMeasurement` reads and writes: the string builder
`m_sb` and the counter `m_numMeasurements` of `smlogger.c`, the queue `m_queue`
of `uploader.c`, the handle `m_handle` of the sampler module (the record that
the sampler thread runs on, once the start function has stored it), and the
lines logged so far. -/
structure Smlogger where
  m_sb : StringBuilder
  m_numMeasurements : Int
  m_queue : Queue (Option (List Char))
  m_handle : Option MeterHandle
  log : List SmloggerLog

/-- What the surroundings supply to one call of `processMeasurement`: whether
`realloc` and `malloc` succeed, the results of the lock acquisitions of
`queue_enqueue` and `queue_count`, and the content `junk i` of a byte with
index `i` that `realloc` adds to the buffer of the string builder. -/
structure ProcessEnv where
  realloc : Bool
  malloc : Bool
  lockSend : Nat
  lockCount : Nat
  junk : Nat → Char

/-- The text that `vsnprintf` produces for a format with at most one conversion
directive, one of `%.4f`, `%llu` and `%s`, given the text of the converted
argument. -/
def expandFormat : List Char → List Char → List Char
  | [], _ => []
  | '%' :: '.' :: '4' :: 'f' :: rest, arg => arg ++ rest
  | '%' :: 'l' :: 'l' :: 'u' :: rest, arg => arg ++ rest
  | '%' :: 's' :: rest, arg => arg ++ rest
  | c :: rest, arg => c :: expandFormat rest arg

/-- The calls of `strbuilder_printf` that serialise a measurement, in the order
of the source: the format string and the text of its argument.  `fmt4` is the
conversion `%.4f` of a `double`, `fmtU64` the conversion `%llu` of its cast to
`uint64_t`.  For the token `NULL` the conversion `%s` gives `(null)`, as the GNU
C library prints it. -/
def payloadCalls {V : Type} (fmt4 fmtU64 : V → List Char) (m_token : Option String)
    (m : SmartMeter_Data V) : List (String × List Char) :=
  [("\x7b\"measurement\":\x7b", []),
   ("\"powerAllPhases\": %.4f,\t", fmt4 (m.val POWER_ALL_PHASES)),
   ("\"powerL1\": %.4f,", fmt4 (m.val POWER_L1)),
   ("\"powerL2\": %.4f,", fmt4 (m.val POWER_L2)),
   ("\"powerL3\": %.4f,", fmt4 (m.val POWER_L3)),
   ("\"currentNeutral\": %.4f,", fmt4 (m.val CURRENT_NEUTRAL)),
   ("\"currentL1\": %.4f,", fmt4 (m.val CURRENT_L1)),
   ("\"currentL2\": %.4f,", fmt4 (m.val CURRENT_L2)),
   ("\"currentL3\": %.4f,", fmt4 (m.val CURRENT_L3)),
   ("\"voltageL1\": %.4f,\t", fmt4 (m.val VOLTAGE_L1)),
   ("\"voltageL2\": %.4f,", fmt4 (m.val VOLTAGE_L2)),
   ("\"voltageL3\": %.4f,", fmt4 (m.val VOLTAGE_L3)),
   ("\"phaseAngleVoltageL2L1\": %.4f,", fmt4 (m.val PHASE_ANGLE_VOLTAGE_L2_L1)),
   ("\"phaseAngleVoltageL3L1\": %.4f,", fmt4 (m.val PHASE_ANGLE_VOLTAGE_L3_L1)),
   ("\"phaseAngleCurrentVoltageL1\": %.4f,", fmt4 (m.val PHASE_ANGLE_CURRENT_VOLTAGE_L1)),
   ("\"phaseAngleCurrentVoltageL2\": %.4f,", fmt4 (m.val PHASE_ANGLE_CURRENT_VOLTAGE_L2)),
   ("\"phaseAngleCurrentVoltageL3\": %.4f,\t", fmt4 (m.val PHASE_ANGLE_CURRENT_VOLTAGE_L3)),
   ("\"createdOn\": %llu,\t", fmtU64 (m.val TIMESTAMP)),
   ("\"smartMeterId\": 1,", []),
   ("\"smartMeterToken\": \"%s\"\t",
     match m_token with
     | some token => token.toList
     | none => "(null)".toList),
   ("\x7d\x7d", [])]

/-- A sequence of calls of `strbuilder_printf` whose return values are not
looked at. -/
def printfAll (realloc : Bool) (junk : Nat → Char) :
    StringBuilder → List (String × List Char) → StringBuilder
  | sb, [] => sb
  | sb, call :: rest =>
    printfAll realloc junk
      (strbuilder_printf realloc junk sb call.1.toList
        (expandFormat call.1.toList call.2)).1 rest

/-- The block `if (m_url)` of `processMeasurement`: the measurement is
serialised and handed to the uploader. -/
def uploadMeasurement {V : Type} (fmt4 fmtU64 : V → List Char) (th : CapThresholds)
    (cfg : SmloggerConfig) (env : ProcessEnv) (s : Smlogger) (m : SmartMeter_Data V) :
    Smlogger :=
  match cfg.m_url with
  | none => s
  | some _ =>
    let sb := printfAll env.realloc env.junk (strbuilder_reset s.m_sb)
      (payloadCalls fmt4 fmtU64 cfg.m_token m)
    let str := strbuilder_copy env.malloc sb
    let sent := uploader_send th env.lockSend s.m_queue str
    { s with
      m_sb := sb
      m_queue := sent.1
      log := s.log ++ sent.2.2 ++ (if sent.2.1 = 0 then [.unableToUpload] else []) }

/-- The counting of `processMeasurement`: `++m_numMeasurements` and the status
line for every 60th measurement.  The status line reads the queue of the state
also when no URL is configured; in the source `uploader_init` has not run then
and `m_queue` is `NULL`. -/
def countMeasurement (env : ProcessEnv) (s : Smlogger) : Smlogger :=
  { s with
    m_numMeasurements := s.m_numMeasurements + 1
    log := s.log ++
      (if (s.m_numMeasurements + 1) % 60 = 0 then
        [.numMeasurements (s.m_numMeasurements + 1)
          (uploader_queueSize env.lockCount s.m_queue)]
      else []) }

/-- The end of `processMeasurement`: the sampler is asked to stop, by
`smartmeter_stop` or `fluksometer_stop`, which both are `meter_stop(m_handle)`,
when the configured count is positive and reached. -/
def checkDone (cfg : SmloggerConfig) (s : Smlogger) : Smlogger :=
  if cfg.m_count > 0 ∧ s.m_numMeasurements ≥ cfg.m_count then
    { s with m_handle := (meter_stop s.m_handle).1 }
  else s

/-- Function `processMeasurement`, without the printing on the standard
output. -/
def processMeasurement {V : Type} (fmt4 fmtU64 : V → List Char) (th : CapThresholds)
    (cfg : SmloggerConfig) (env : ProcessEnv) (s : Smlogger) (m : SmartMeter_Data V) :
    Smlogger :=
  checkDone cfg (countMeasurement env (uploadMeasurement fmt4 fmtU64 th cfg env s m))

/-- One round of the loop of `threadproc`: what the measurement function
(`smartmeter_measure` or `fluksometer_measure`) delivers for the measurement
`{{0}}`, `none` when it returns 0, and what the surroundings supply to the
callback. -/
structure Tick (V : Type) where
  measured : Option (SmartMeter_Data V)
  env : ProcessEnv

/-- Function `performMeasurement` of the sampler modules, with
`processMeasurement` as the callback `m_callback`. -/
def performMeasurement {V : Type} (fmt4 fmtU64 : V → List Char) (th : CapThresholds)
    (cfg : SmloggerConfig) (s : Smlogger) (t : Tick V) : Smlogger :=
  match t.measured with
  | none => s
  | some m => processMeasurement fmt4 fmtU64 th cfg t.env s m

/-- Function `threadproc` of `meter.c` over the rounds given: the loop
`while (handle->running)` that invokes the callback.  The waiting in
`timer_barrier` does not change the state and is left out. -/
def threadproc {V : Type} (fmt4 fmtU64 : V → List Char) (th : CapThresholds)
    (cfg : SmloggerConfig) : List (Tick V) → Smlogger → Smlogger
  | [], s => s
  | t :: rest, s =>
    match s.m_handle with
    | none => s
    | some handle =>
      if handle.running then
        threadproc fmt4 fmtU64 th cfg rest (performMeasurement fmt4 fmtU64 th cfg s t)
      else s

/-- The successful measurements among the rounds, each with what the
surroundings supply to the callback. -/
def successes {V : Type} (ticks : List (Tick V)) : List (ProcessEnv × SmartMeter_Data V) :=
  ticks.filterMap (fun t => t.measured.map (fun m => (t.env, m)))

/-- The text of the payload of a measurement: the texts of the calls of
`strbuilder_printf` one after the other. -/
def payloadText {V : Type} (fmt4 fmtU64 : V → List Char) (m_token : Option String)
    (m : SmartMeter_Data V) : List Char :=
  ((payloadCalls fmt4 fmtU64 m_token m).map
    (fun call => expandFormat call.1.toList call.2)).flatten

/-- The conversion `%.4f` of a `double` whose value is an integer. -/
def fmt4Int (x : Int) : List Char :=
  (if x < 0 then ['-'] else []) ++ Nat.toDigits 10 x.natAbs ++ ".0000".toList

/-- The conversion `%llu` of a `double` whose value is a natural number. -/
def fmtU64Int (x : Int) : List Char :=
  Nat.toDigits 10 x.toNat

/-- The state in which the sampler thread starts: the string builder and the
queue fresh, no measurement counted, the sampler running. -/
def startState (m_queue : Queue (Option (List Char))) (interval : Int) : Smlogger :=
  { m_sb := strbuilder_create, m_numMeasurements := 0, m_queue := m_queue,
    m_handle := some { interval := interval, running := true }, log := [] }

/-- The measurement that the pipe sampler delivers for the line
`t 0 0 (9 + t) 1 0 (19 + t) 2 0 (29 + t)`: for `t = 1` the powers are 10, 20 and
30 and their total is 60. -/
def pipeData (t : Int) : SmartMeter_Data Int :=
  ⟨fun i =>
    if i = TIMESTAMP then t
    else if i = POWER_L1 then 9 + t
    else if i = POWER_L2 then 19 + t
    else if i = POWER_L3 then 29 + t
    else if i = POWER_ALL_PHASES then 57 + 3 * t
    else 0⟩

/-- A round in which the measurement succeeds and all allocations and lock
acquisitions of the callback succeed. -/
def goodTick (t : Int) : Tick Int :=
  ⟨some (pipeData t), ⟨true, true, 0, 0, fun _ => '?'⟩⟩

/-- A round in which the measurement fails. -/
def failedTick : Tick Int :=
  ⟨none, ⟨true, true, 0, 0, fun _ => '?'⟩⟩

/-- The configuration with the URL `http://test/`, a token and a count. -/
def sampleConfig (token : String) (count : Int) : SmloggerConfig :=
  ⟨some "http://test/", some token, count⟩

/-- The queue that `queue_create` delivers for capacity `b` and items of 8
bytes, its buffer holding `NULL` everywhere. -/
def freshQueue (b : Nat) : Queue (Option (List Char)) :=
  { buffer := fun _ => none, capacity := b, itemSize := 8, count := 0, head := 0, tail := 0,
    level := 0 }

/-- Seven rounds: six measurements with the timestamps 1 to 6 that succeed,
and one failed measurement after the first. -/
def sampleTicks : List (Tick Int) :=
  [goodTick 1, failedTick, goodTick 2, goodTick 3, goodTick 4, goodTick 5, goodTick 6]

/-! ## JSON texts

The grammar of JSON (RFC 8259), against which the payload is checked.  This
part is not taken from the source. -/

/-- A JSON value; a number is kept as its literal text. -/
inductive Json where
  | null
  | bool (b : Bool)
  | number (text : String)
  | string (s : String)
  | array (elems : List Json)
  | object (members : List (String × Json))

/-- Outcome of reading a construct from the front of a text: the construct and
the text left, or the verdict that the text does not start with such a
construct, or the notice that the rounds allowed were used up. -/
inductive Parsed (α : Type) where
  | ok (value : α) (rest : List Char)
  | malformed
  | exhausted

/-- Whether the text was found not to be of the grammar. -/
def Parsed.isMalformed {α : Type} : Parsed α → Bool
  | .malformed => true
  | _ => false

/-- White space of JSON: space, tab, line feed, carriage return. -/
def isJsonSpace (c : Char) : Bool :=
  c = ' ' || c = '\t' || c = '\n' || c = '\r'

/-- The text without its leading white space. -/
def skipSpace (cs : List Char) : List Char :=
  cs.dropWhile isJsonSpace

/-- The value of a hexadecimal digit. -/
def hexValue (c : Char) : Option Nat :=
  if 48 ≤ c.toNat ∧ c.toNat ≤ 57 then some (c.toNat - 48)
  else if 97 ≤ c.toNat ∧ c.toNat ≤ 102 then some (c.toNat - 87)
  else if 65 ≤ c.toNat ∧ c.toNat ≤ 70 then some (c.toNat - 55)
  else none

/-- The character that a two-character escape denotes, by its second
character. -/
def escapeChar (e : Char) : Option Char :=
  if e = '"' then some '"'
  else if e = '\\' then some '\\'
  else if e = '/' then some '/'
  else if e = 'b' then some (Char.ofNat 8)
  else if e = 'f' then some (Char.ofNat 12)
  else if e = 'n' then some '\n'
  else if e = 'r' then some '\r'
  else if e = 't' then some '\t'
  else none

/-- The characters of a string after its opening quotation mark, up to the
closing one; `acc` holds the characters read so far, last first.  Control
characters must be escaped; an escape `\uXXXX` denotes the character with that
code. -/
def parseChars : List Char → List Char → Parsed String
  | [], _ => .malformed
  | c :: rest, acc =>
    if c = '"' then .ok (String.mk acc.reverse) rest
    else if c = '\\' then
      match rest with
      | [] => .malformed
      | e :: rest₁ =>
        if e = 'u' then
          match rest₁ with
          | h₁ :: h₂ :: h₃ :: h₄ :: rest₂ =>
            match hexValue h₁, hexValue h₂, hexValue h₃, hexValue h₄ with
            | some d₁, some d₂, some d₃, some d₄ =>
              parseChars rest₂ (Char.ofNat (((d₁ * 16 + d₂) * 16 + d₃) * 16 + d₄) :: acc)
            | _, _, _, _ => .malformed
          | _ => .malformed
        else
          match escapeChar e with
          | some x => parseChars rest₁ (x :: acc)
          | none => .malformed
    else if c.toNat < 32 then .malformed
    else parseChars rest (c :: acc)

/-- A number: an optional minus, an integer part without superfluous leading
zero, an optional fraction and an optional exponent.  An integer part with a
leading zero is refused at once, since no JSON text continues with a digit after
the number `0`. -/
def parseNumber (cs : List Char) : Parsed String :=
  let sign : List Char × List Char :=
    match cs with
    | '-' :: r => (['-'], r)
    | _ => ([], cs)
  let ip := sign.2.span Char.isDigit
  if ip.1.isEmpty then .malformed
  else if 1 < ip.1.length ∧ ip.1.head? = some '0' then .malformed
  else
    let fraction : Option (List Char × List Char) :=
      match ip.2 with
      | '.' :: r =>
        if (r.span Char.isDigit).1.isEmpty then none
        else some ('.' :: (r.span Char.isDigit).1, (r.span Char.isDigit).2)
      | r => some ([], r)
    match fraction with
    | none => .malformed
    | some (ftext, r₁) =>
      match r₁ with
      | [] => .ok (String.mk (sign.1 ++ ip.1 ++ ftext)) []
      | e :: r₂ =>
        if e = 'e' ∨ e = 'E' then
          let esign : List Char × List Char :=
            match r₂ with
            | '+' :: r₃ => (['+'], r₃)
            | '-' :: r₃ => (['-'], r₃)
            | _ => ([], r₂)
          if (esign.2.span Char.isDigit).1.isEmpty then .malformed
          else
            .ok (String.mk (sign.1 ++ ip.1 ++ ftext ++ e :: esign.1 ++
              (esign.2.span Char.isDigit).1)) (esign.2.span Char.isDigit).2
        else .ok (String.mk (sign.1 ++ ip.1 ++ ftext)) (e :: r₂)

mutual

/-- A value at the front of the text, after white space, in at most `fuel`
nested rounds. -/
def parseValue : Nat → List Char → Parsed Json
  | 0, _ => .exhausted
  | fuel + 1, cs =>
    match skipSpace cs with
    | [] => .malformed
    | c :: rest =>
      if c = '\x7b' then
        match skipSpace rest with
        | '\x7d' :: rest₁ => .ok (.object []) rest₁
        | _ =>
          match parseMembers fuel rest with
          | .ok ms r => .ok (.object ms) r
          | .malformed => .malformed
          | .exhausted => .exhausted
      else if c = '[' then
        match skipSpace rest with
        | ']' :: rest₁ => .ok (.array []) rest₁
        | _ =>
          match parseElements fuel rest with
          | .ok vs r => .ok (.array vs) r
          | .malformed => .malformed
          | .exhausted => .exhausted
      else if c = '"' then
        match parseChars rest [] with
        | .ok s r => .ok (.string s) r
        | .malformed => .malformed
        | .exhausted => .exhausted
      else if c = 't' then
        match rest with
        | 'r' :: 'u' :: 'e' :: r => .ok (.bool true) r
        | _ => .malformed
      else if c = 'f' then
        match rest with
        | 'a' :: 'l' :: 's' :: 'e' :: r => .ok (.bool false) r
        | _ => .malformed
      else if c = 'n' then
        match rest with
        | 'u' :: 'l' :: 'l' :: r => .ok .null r
        | _ => .malformed
      else
        match parseNumber (c :: rest) with
        | .ok text r => .ok (.number text) r
        | .malformed => .malformed
        | .exhausted => .exhausted

/-- The members of an object after its opening brace, up to the closing one:
one or more pairs of a string, a colon and a value, separated by commas. -/
def parseMembers : Nat → List Char → Parsed (List (String × Json))
  | 0, _ => .exhausted
  | fuel + 1, cs =>
    match skipSpace cs with
    | '"' :: rest =>
      match parseChars rest [] with
      | .ok k r₁ =>
        match skipSpace r₁ with
        | ':' :: r₂ =>
          match parseValue fuel r₂ with
          | .ok v r₃ =>
            match skipSpace r₃ with
            | ',' :: r₄ =>
              match parseMembers fuel r₄ with
              | .ok ms r₅ => .ok ((k, v) :: ms) r₅
              | .malformed => .malformed
              | .exhausted => .exhausted
            | '\x7d' :: r₄ => .ok [(k, v)] r₄
            | _ => .malformed
          | .malformed => .malformed
          | .exhausted => .exhausted
        | _ => .malformed
      | .malformed => .malformed
      | .exhausted => .exhausted
    | _ => .malformed

/-- The elements of an array after its opening bracket, up to the closing
one: one or more values, separated by commas. -/
def parseElements : Nat → List Char → Parsed (List Json)
  | 0, _ => .exhausted
  | fuel + 1, cs =>
    match parseValue fuel cs with
    | .ok v r₁ =>
      match skipSpace r₁ with
      | ',' :: r₂ =>
        match parseElements fuel r₂ with
        | .ok vs r₃ => .ok (v :: vs) r₃
        | .malformed => .malformed
        | .exhausted => .exhausted
      | ']' :: r₂ => .ok [v] r₂
      | _ => .malformed
    | .malformed => .malformed
    | .exhausted => .exhausted

end

/-- A JSON text: one value, surrounded by white space only.  Every round of the
reading consumes a character, so that the length of the text bounds the
rounds. -/
def parseJson (cs : List Char) : Parsed Json :=
  match parseValue (cs.length + 1) cs with
  | .ok v rest => if (skipSpace rest).isEmpty then .ok v [] else .malformed
  | .malformed => .malformed
  | .exhausted => .exhausted

/-- What is looked at of a member value: the text of a number, the content of
a string, or that it is of another kind. -/
inductive Scalar where
  | number (text : String)
  | string (s : String)
  | other
  deriving DecidableEq

/-- The view of a value as a scalar. -/
def Json.scalar : Json → Scalar
  | .number text => .number text
  | .string s => .string s
  | _ => .other

/-- The members of the object under the single key `measurement` of a text
that was read as such an object, each with its key and its value as a scalar;
`none` when the text was not read or is of another shape. -/
def measurementMembers : Parsed Json → Option (List (String × Scalar))
  | .ok (.object [(k, .object ms)]) _ =>
    if k = "measurement" then some (ms.map (fun kv => (kv.1, kv.2.scalar))) else none
  | _ => none

/-- The payload that one call of `processMeasurement` puts into a fresh queue,
for a token and a measurement, all allocations and lock acquisitions
succeeding: the C string in the block that was put in, `none` when nothing or
`NULL` was put in or the block holds no `'\0'`. -/
def builtPayload (token : String) (m : SmartMeter_Data Int) : Option (List Char) :=
  match (processMeasurement fmt4Int fmtU64Int exactThresholds (sampleConfig token (-1))
      ⟨true, true, 0, 0, fun _ => '?'⟩ (startState (freshQueue 1) 1000) m).m_queue.contents with
  | [some payload] => cstring payload
  | _ => none

/-- The value that a payload, read as JSON, has under the key
`smartMeterToken` of its object `measurement`. -/
def tokenRead (payload : List Char) : Option Scalar :=
  (measurementMembers (parseJson payload)).bind (fun ms => ms.lookup "smartMeterToken")

/-- What holds of the state after the callback has processed the measurements
`pre`, for a queue of capacity `b` and a configured count `c`: they are counted,
the sampler runs as long as fewer than `c` are counted, the queue holds the
payloads of the first `b` of them, and each of the others was refused once. -/
def SamplerInv {V : Type} (fmt4 fmtU64 : V → List Char) (cfg : SmloggerConfig) (b c : Nat)
    (interval : Int) (pre : List (ProcessEnv × SmartMeter_Data V)) (s : Smlogger) : Prop :=
  s.m_numMeasurements = (pre.length : Int) ∧
  s.m_handle = some ⟨interval, decide (pre.length < c)⟩ ∧
  s.m_queue.WF ∧ s.m_queue.capacity = b ∧
  s.m_queue.contents =
    (pre.take b).map (fun p => some (payloadText fmt4 fmtU64 cfg.m_token p.2 ++ [NUL])) ∧
  s.log.count .unableToUpload = pre.length - b ∧
  s.log.count .uploadQueueFull = pre.length - b ∧
  s.m_sb.WF

/-! ## smartmeter.c: what the extraction is to deliver

The definitions of this part follow the description of the extraction, not the
source. -/

/-- The tag of a message body as `handleSmlFile` reads it into its variable of
type `u16`: 0 for a `NULL` tag. -/
def bodyTag {V : Type} (body : sml_message_body V) : Nat :=
  (match body.tag with
    | some t => t
    | none => 0) % 2 ^ 16

/-- Whether an element of the message array is present and has a body tagged
as a GetProcParameter response. -/
def isProcParamResponse {V : Type} : Option (sml_message V) → Bool
  | some message =>
    match message.message_body with
    | some body => decide (bodyTag body = SML_MESSAGE_GET_PROC_PARAMETER_RESPONSE)
    | none => false
  | none => false

/-- The slot that the sixteen entries of the table give for a tag of six
octets, if it is listed. -/
def slotOfTag (tag : octet_string) : Option Nat :=
  ((obisTable.take 16).find? (fun e => e.obis = tag)).map (fun e => e.id)

/-- The slot and the scaled value that a parameter value designates, if it is
a period entry with a value and a listed object name. -/
def designatedEntry {V : Type} (scale : V → Int → V) (ppv : Option (sml_proc_par_value V)) :
    Option (Nat × V) :=
  match ppv with
  | none => none
  | some ppv =>
    if ppv.tag = some SML_PROC_PAR_VALUE_TAG_PERIOD_ENTRY then
      match ppv.period_entry with
      | none => none
      | some entry =>
        match entry.value, entry.obj_name with
        | some v, some name =>
          (slotOfTag name).map (fun slot =>
            (slot, match entry.scaler with
              | some s => scale v s
              | none => v))
        | _, _ => none
    else none

/-- Whether a parameter value is one on which the lookup of the object name is
defined and exact: if it is a period entry, the entry is present, and if the
entry has a value, its object name is `NULL`, longer than six octets, or one of
the sixteen listed tags. -/
def entryListed {V : Type} (ppv : Option (sml_proc_par_value V)) : Bool :=
  match ppv with
  | none => true
  | some ppv =>
    if ppv.tag = some SML_PROC_PAR_VALUE_TAG_PERIOD_ENTRY then
      match ppv.period_entry with
      | none => false
      | some entry =>
        match entry.value, entry.obj_name with
        | some _, some name => decide (sizeof_OBIS < name.length) || (slotOfTag name).isSome
        | _, _ => true
    else true

mutual
/-- The slots and scaled values designated by the nodes of a tree, in
pre-order. -/
def designated {V : Type} (scale : V → Int → V) : sml_tree V → List (Nat × V)
  | .null => []
  | .node parameter_value child_list =>
    (designatedEntry scale parameter_value).toList ++ designatedChildren scale child_list
/-- The slots and scaled values designated by the nodes of a list of trees. -/
def designatedChildren {V : Type} (scale : V → Int → V) : List (sml_tree V) → List (Nat × V)
  | [] => []
  | child :: rest => designated scale child ++ designatedChildren scale rest
end

mutual
/-- Whether every node of a tree has a parameter value that is `entryListed`. -/
def treeListed {V : Type} : sml_tree V → Bool
  | .null => true
  | .node parameter_value child_list => entryListed parameter_value && childrenListed child_list
/-- Whether every tree of a list is `treeListed`. -/
def childrenListed {V : Type} : List (sml_tree V) → Bool
  | [] => true
  | child :: rest => treeListed child && childrenListed rest
end

/-- The value `value * 10^scaler` for integers and a scaler that is not
negative. -/
def scaleInt (value : Int) (scaler : Int) : Int :=
  value * 10 ^ scaler.toNat

/-- The measurement after the stores of a list of slots and values, in order. -/
def applyStores {V : Type} (stores : List (Nat × V)) (m : SmartMeter_Data V) :
    SmartMeter_Data V :=
  stores.foldl (fun m p => m.store p.1 p.2) m

/-- A tree with three period entries with listed names in two levels:
`POWER_L1` with value 230 and scaler 1, then `POWER_L2` with value 5 below it,
then `POWER_L1` again with value 7; then a period entry whose object name is
longer than six octets, and a node whose parameter value is no period
entry. -/
def nestedTree : sml_tree Int :=
  .node (some ⟨some SML_PROC_PAR_VALUE_TAG_PERIOD_ENTRY,
      some ⟨some [0x01, 0x00, 0x23, 0x07, 0x00, 0xff], some 1, some 230⟩⟩)
    [.node none [periodNode [0x01, 0x00, 0x37, 0x07, 0x00, 0xff] 5, .null],
     periodNode [0x01, 0x00, 0x23, 0x07, 0x00, 0xff] 7,
     periodNode [1, 2, 3, 4, 5, 6, 7] 9,
     .node (some ⟨some SML_PROC_PAR_VALUE_TAG_VALUE, none⟩) []]

/-! ## smartmeter.c: the call of the parser -/

/-- The constant `MTU` of `io.h`, the size of the receive buffer. -/
abbrev MTU : Nat := 1500

/-- The value of the variable `size_t size` after `size = recv(...)`, for the
result of `recv` (a `ssize_t`) and a `size_t` of 64 bits. -/
def recvSize (received : Int) : Nat :=
  (received % ((SIZE_MAX : Int) + 1)).toNat

/-- The arguments of the call `sml_file_parse(buffer + 8, size - 16)`: the
offset of the slice within `buffer` and its length, the subtraction being that
of `size_t`. -/
def parseSlice (size : Nat) : Nat × Nat :=
  (8, (size + (SIZE_MAX + 1) - 16) % (SIZE_MAX + 1))

/-- The part of `smartmeter_measure` before the call of `sml_file_parse`: the
arguments of that call, `none` when the function returns before it. -/
def measureParseCall {V : Type} (env : MeasureEnv V) (m_socket : Int) : Option (Nat × Nat) :=
  let c := smartmeter_connect env.clientSocket m_socket
  if c.1 = 0 then none
  else if sendRequest env.written = 0 then none
  else if env.received = -1 then none
  else if env.received = 0 then none
  else some (parseSlice (recvSize env.received))

/-! ## io.c: the socket table -/

/-- The constant `SOCKETTABLE_SIZE`. -/
abbrev SOCKETTABLE_SIZE : Nat := 16

/-- The record `SocketEntry`; the callback is given by a number that stands
for the function, `none` being `NULL`. -/
structure SocketEntry where
  sfd : Int
  name : Option String
  callback : Option Nat
  deriving DecidableEq

/-- The variables `socketTable`, `readfds` (the descriptors in the set) and
`max_sfd` of `io.c`. -/
structure IoState where
  socketTable : List SocketEntry
  readfds : List Int
  max_sfd : Int
  deriving DecidableEq

/-- The variables as the program starts: static storage is zero. -/
def ioStatic : IoState :=
  { socketTable := List.replicate SOCKETTABLE_SIZE ⟨0, none, none⟩, readfds := [], max_sfd := 0 }

/-- Function `io_init`. -/
def io_init (st : IoState) : IoState :=
  { socketTable := st.socketTable.map (fun e => { e with sfd := INVALID_SOCKET })
    readfds := []
    max_sfd := 0 }

/-- Function `lookupSocketEntry`: the index of the entry it returns, `none` for
`NULL`. -/
def lookupSocketEntry : List SocketEntry → Int → Option Nat
  | [], _ => none
  | e :: rest, sfd =>
    if e.sfd = sfd then some 0 else (lookupSocketEntry rest sfd).map (fun k => k + 1)

/-- The assignment `entry->sfd = sfd` for the entry with index `k`. -/
def setSfd : List SocketEntry → Nat → Int → List SocketEntry
  | [], _, _ => []
  | e :: rest, 0, sfd => { e with sfd := sfd } :: rest
  | e :: rest, k + 1, sfd => e :: setSfd rest k sfd

/-- The assignments `entry->name = name; entry->callback = callback` for the
entry with index `k`. -/
def setData : List SocketEntry → Nat → Option String → Option Nat → List SocketEntry
  | [], _, _, _ => []
  | e :: rest, 0, name, callback => { e with name := name, callback := callback } :: rest
  | e :: rest, k + 1, name, callback => e :: setData rest k name callback

/-- Function `createSocketEntry`: the table after the call and the index of
the entry returned. -/
def createSocketEntry (table : List SocketEntry) (sfd : Int) :
    List SocketEntry × Option Nat :=
  match lookupSocketEntry table INVALID_SOCKET with
  | some k => (setSfd table k sfd, some k)
  | none => (table, none)

/-- Function `removeSocketEntry`: it looks up `INVALID_SOCKET`, not `sfd`. -/
def removeSocketEntry (table : List SocketEntry) (_sfd : Int) : List SocketEntry :=
  match lookupSocketEntry table INVALID_SOCKET with
  | some k => setSfd table k INVALID_SOCKET
  | none => table

/-- Function `io_closeSocket` with its effect on the socket table, for a
pointer that is not `NULL`: the variables and `*sfd` after the call. -/
def io_closeSocket_table (st : IoState) (sfd : Int) : IoState × Int :=
  if sfd ≠ INVALID_SOCKET then
    ({ st with socketTable := removeSocketEntry st.socketTable sfd }, INVALID_SOCKET)
  else (st, sfd)

/-- Function `io_multiplexRead`: the variables after the call and the C return
value. -/
def io_multiplexRead (st : IoState) (sfd : Int) (name : Option String)
    (callback : Option Nat) : IoState × Int :=
  match callback with
  | none => (st, 0)
  | some cb =>
    match createSocketEntry st.socketTable sfd with
    | (_, none) => (st, 0)
    | (table, some k) =>
      ({ socketTable := setData table k name (some cb)
         readfds := if sfd ∈ st.readfds then st.readfds else sfd :: st.readfds
         max_sfd := if st.max_sfd < sfd then sfd else st.max_sfd }, 1)

/-- A registration or a closing of a descriptor. -/
inductive IoOp where
  | multiplexRead (sfd : Int) (name : Option String) (callback : Option Nat)
  | closeSocket (sfd : Int)

/-- Performs a sequence of registrations and closings. -/
def ioRun (st : IoState) (ops : List IoOp) : IoState :=
  ops.foldl (fun st op =>
    match op with
    | .multiplexRead sfd name callback => (io_multiplexRead st sfd name callback).1
    | .closeSocket sfd => (io_closeSocket_table st sfd).1) st

/-- The descriptors of the entries of the table, in order. -/
def descriptors (st : IoState) : List Int :=
  st.socketTable.map (fun e => e.sfd)

/-! ## args.c: arguments without their value

The definitions of this part describe argument vectors; they are not taken
from the source. -/

/-- Whether an argument is the prefix of a table entry that is not a flag. -/
def isValuedPrefix (args : List Argument) (a : String) : Bool :=
  match lookupByPrefix args a with
  | some k => decide (clearOptional (typeAt args k) ≠ ARG_FLAG)
  | none => false

/-- Whether somewhere in the arguments the prefix of an entry that is not a
flag is the last argument or is directly followed by a known prefix. -/
def missingValue (args : List Argument) : List String → Bool
  | [] => false
  | [a] => isValuedPrefix args a
  | a :: v :: rest =>
    (isValuedPrefix args a && (lookupByPrefix args v).isSome) || missingValue args (v :: rest)

/-! ### Queue: auxiliary facts -/

theorem ring_slot_ne {cap head i j : Nat} (hi : i < j) (hj : j < cap) :
    (head + i) % cap ≠ (head + j) % cap := by
  intro h
  have h2 : i % cap = j % cap := Nat.ModEq.add_left_cancel' head h
  rw [Nat.mod_eq_of_lt (by omega), Nat.mod_eq_of_lt hj] at h2
  omega

theorem accepted_append {α : Type} (l₁ l₂ : List (QueueEvent α)) :
    accepted (l₁ ++ l₂) = accepted l₁ ++ accepted l₂ := by
  induction l₁ with
  | nil => rfl
  | cons e rest ih => cases e <;> simp [accepted, ih]

theorem returned_append {α : Type} (l₁ l₂ : List (QueueEvent α)) :
    returned (l₁ ++ l₂) = returned l₁ ++ returned l₂ := by
  induction l₁ with
  | nil => rfl
  | cons e rest ih => cases e <;> simp [returned, ih]

theorem sinceClear_enqueued {α : Type} (log : List (QueueEvent α)) (x : α) :
    sinceClear (log ++ [.enqueued x]) = sinceClear log ++ [.enqueued x] := by
  simp [sinceClear, List.foldl_append]

theorem sinceClear_dequeued {α : Type} (log : List (QueueEvent α)) (x : α) :
    sinceClear (log ++ [.dequeued x]) = sinceClear log ++ [.dequeued x] := by
  simp [sinceClear, List.foldl_append]

theorem sinceClear_cleared {α : Type} (log : List (QueueEvent α)) :
    sinceClear (log ++ [.cleared]) = [] := by
  simp [sinceClear, List.foldl_append]

theorem enqueue_success {α : Type} (th : CapThresholds) (q : Queue α) (x : α)
    (hlt : q.count < q.capacity) :
    queue_enqueue th 0 q x =
      ({ q with
          level := enqueueLevel th q.count q.capacity q.level
          buffer := storeItem q.buffer q.tail x
          tail := (q.tail + 1) % q.capacity
          count := q.count + 1 }, 1) := by
  unfold queue_enqueue
  rw [if_neg (by simp), if_neg (by omega)]

theorem dequeue_success {α : Type} (th : CapThresholds) (q : Queue α) (x : α)
    (hpos : q.count ≠ 0) :
    queue_dequeue th 0 q x =
      ({ q with
          level := dequeueLevel th q.count q.capacity q.level
          head := (q.head + 1) % q.capacity
          count := q.count - 1 }, q.buffer q.head, 1) := by
  unfold queue_dequeue
  rw [if_neg (by simp), if_neg hpos]

theorem enqueue_contents {α : Type} (th : CapThresholds) (q : Queue α) (x : α)
    (hwf : q.WF) (hlt : q.count < q.capacity) :
    (queue_enqueue th 0 q x).1.WF ∧
      (queue_enqueue th 0 q x).1.contents = q.contents ++ [x] := by
  rw [enqueue_success th q x hlt]
  refine ⟨⟨by simp only; omega, by simpa using hwf.head_red, ?_⟩, ?_⟩
  · simp only
    rw [hwf.tail_eq, Nat.add_mod, Nat.mod_mod, ← Nat.add_mod, Nat.add_assoc]
  · simp only [Queue.contents, List.range_succ, List.map_append, List.map_cons, List.map_nil]
    congr 1
    · apply List.map_congr_left
      intro i hi
      rw [List.mem_range] at hi
      simp only [storeItem]
      rw [if_neg]
      rw [hwf.tail_eq]
      exact ring_slot_ne hi hlt
    · simp [storeItem, hwf.tail_eq]

theorem dequeue_contents {α : Type} (th : CapThresholds) (q : Queue α) (x : α)
    (hwf : q.WF) (hpos : q.count ≠ 0) :
    (queue_dequeue th 0 q x).1.WF ∧
      q.contents = (queue_dequeue th 0 q x).2.1 :: (queue_dequeue th 0 q x).1.contents := by
  rw [dequeue_success th q x hpos]
  have hle := hwf.count_le
  have hcap : 0 < q.capacity := by omega
  refine ⟨⟨by simp only; omega, by simp, ?_⟩, ?_⟩
  · simp only
    rw [hwf.tail_eq, Nat.mod_add_mod]
    congr 1
    omega
  · obtain ⟨n, hn⟩ := Nat.exists_eq_succ_of_ne_zero hpos
    simp only [Queue.contents, hn, List.range_succ_eq_map, List.map_cons, List.map_map,
      Nat.succ_sub_one, Nat.add_zero, hwf.head_red]
    congr 1
    apply List.map_congr_left
    intro i _
    simp only [Function.comp, Nat.mod_add_mod]
    congr 2
    omega

theorem enqueue_fail_iff {α : Type} (th : CapThresholds) (q : Queue α) (x : α) :
    (queue_enqueue th 0 q x).2 = 0 ↔ q.capacity ≤ q.count := by
  unfold queue_enqueue
  by_cases h : q.count ≥ q.capacity <;> simp [h]

theorem dequeue_fail_iff {α : Type} (th : CapThresholds) (q : Queue α) (x : α) :
    (queue_dequeue th 0 q x).2.2 = 0 ↔ q.count = 0 := by
  unfold queue_dequeue
  by_cases h : q.count = 0 <;> simp [h]

theorem enqueue_fail_unchanged {α : Type} (th : CapThresholds) (e : Nat) (q : Queue α) (x : α)
    (h : (queue_enqueue th e q x).2 = 0) : (queue_enqueue th e q x).1 = q := by
  unfold queue_enqueue at h ⊢
  split_ifs at h ⊢ <;> first | rfl | simp at h

theorem dequeue_fail_unchanged {α : Type} (th : CapThresholds) (e : Nat) (q : Queue α) (x : α)
    (h : (queue_dequeue th e q x).2.2 = 0) :
    (queue_dequeue th e q x).1 = q ∧ (queue_dequeue th e q x).2.1 = x := by
  unfold queue_dequeue at h ⊢
  split_ifs at h ⊢ <;> first | exact ⟨rfl, rfl⟩ | simp at h

theorem enqueue_lock_failed {α : Type} (th : CapThresholds) (e : Nat) (q : Queue α) (x : α)
    (he : e ≠ 0) : queue_enqueue th e q x = (q, 0) := by
  unfold queue_enqueue
  rw [if_pos he]

theorem dequeue_lock_failed {α : Type} (th : CapThresholds) (e : Nat) (q : Queue α) (x : α)
    (he : e ≠ 0) : queue_dequeue th e q x = (q, x, 0) := by
  unfold queue_dequeue
  rw [if_pos he]

theorem queueStep_inv {α : Type} (th : CapThresholds) (s : Queue α × List (QueueEvent α))
    (op : QueueOp α) (hs : QueueInv s) : QueueInv (queueStep th s op) := by
  obtain ⟨hwf, hlog⟩ := hs
  cases op with
  | enqueue e x =>
    by_cases he : e = 0
    · subst he
      by_cases hfull : s.1.capacity ≤ s.1.count
      · have hr := (enqueue_fail_iff th s.1 x).2 hfull
        have hq := enqueue_fail_unchanged th 0 s.1 x hr
        simp only [queueStep, hr, hq, ne_eq, not_true_eq_false, if_false]
        exact ⟨hwf, hlog⟩
      · have hlt : s.1.count < s.1.capacity := by omega
        have hc := enqueue_contents th s.1 x hwf hlt
        have hr : (queue_enqueue th 0 s.1 x).2 = 1 := by rw [enqueue_success th s.1 x hlt]
        simp only [queueStep, hr]
        refine ⟨hc.1, ?_⟩
        simp only [ne_eq, one_ne_zero, not_false_eq_true, if_true]
        rw [sinceClear_enqueued, accepted_append, returned_append, hlog, hc.2]
        simp [accepted, returned]
    · simp only [queueStep, enqueue_lock_failed th e s.1 x he, ne_eq, not_true_eq_false, if_false]
      exact ⟨hwf, hlog⟩
  | dequeue e x =>
    by_cases he : e = 0
    · subst he
      by_cases hempty : s.1.count = 0
      · have hr := (dequeue_fail_iff th s.1 x).2 hempty
        have hq := dequeue_fail_unchanged th 0 s.1 x hr
        simp only [queueStep, hr, hq.1, ne_eq, not_true_eq_false, if_false]
        exact ⟨hwf, hlog⟩
      · have hc := dequeue_contents th s.1 x hwf hempty
        have hr : (queue_dequeue th 0 s.1 x).2.2 = 1 := by rw [dequeue_success th s.1 x hempty]
        simp only [queueStep, hr]
        refine ⟨hc.1, ?_⟩
        simp only [ne_eq, one_ne_zero, not_false_eq_true, if_true]
        rw [sinceClear_dequeued, accepted_append, returned_append, hlog, hc.2]
        simp [accepted, returned]
    · simp only [queueStep, dequeue_lock_failed th e s.1 x he, ne_eq, not_true_eq_false, if_false]
      exact ⟨hwf, hlog⟩
  | count e => exact ⟨hwf, hlog⟩
  | clear e =>
    by_cases he : e = 0
    · subst he
      simp only [queueStep, queue_clear, ne_eq, not_true_eq_false, if_false]
      refine ⟨⟨by simp, by simp, by simp⟩, ?_⟩
      rw [sinceClear_cleared]
      simp [accepted, returned, Queue.contents]
    · simp only [queueStep, queue_clear, ne_eq, he, not_false_eq_true, if_true]
      exact ⟨hwf, hlog⟩

theorem foldl_queueStep_inv {α : Type} (th : CapThresholds) (ops : List (QueueOp α))
    (s : Queue α × List (QueueEvent α)) (hs : QueueInv s) :
    QueueInv (ops.foldl (queueStep th) s) := by
  induction ops generalizing s with
  | nil => exact hs
  | cons op rest ih => exact ih _ (queueStep_inv th s op hs)

theorem queue_create_some {α : Type} {queueMem : Bool} {mutexError : Nat}
    {bufferMem : Option (Nat → α)} {capacity itemSize : Nat} {q : Queue α}
    (hq : queue_create queueMem mutexError bufferMem capacity itemSize = some q) :
    q.count = 0 ∧ q.head = 0 ∧ q.tail = 0 ∧ q.level = 0 ∧ q.capacity = capacity := by
  unfold queue_create at hq
  split_ifs at hq
  cases bufferMem with
  | none => simp at hq
  | some buffer =>
    simp only [Option.some.injEq] at hq
    subst hq
    exact ⟨rfl, rfl, rfl, rfl, rfl⟩

theorem queueRun_inv {α : Type} (th : CapThresholds) {queueMem : Bool} {mutexError : Nat}
    {bufferMem : Option (Nat → α)} {capacity itemSize : Nat} {q : Queue α}
    (hq : queue_create queueMem mutexError bufferMem capacity itemSize = some q)
    (ops : List (QueueOp α)) : QueueInv (queueRun th q ops) := by
  obtain ⟨h1, h2, h3, -, -⟩ := queue_create_some hq
  apply foldl_queueStep_inv
  refine ⟨⟨by simp [h1], by simp [h2], by simp [h1, h2, h3]⟩, ?_⟩
  simp [sinceClear, accepted, returned, Queue.contents, h1]

theorem queueStep_capacity {α : Type} (th : CapThresholds) (s : Queue α × List (QueueEvent α))
    (op : QueueOp α) : (queueStep th s op).1.capacity = s.1.capacity := by
  cases op with
  | enqueue e x =>
    simp only [queueStep, queue_enqueue]
    split_ifs <;> rfl
  | dequeue e x =>
    simp only [queueStep, queue_dequeue]
    split_ifs <;> rfl
  | count e => rfl
  | clear e =>
    simp only [queueStep, queue_clear]
    split_ifs <;> rfl

theorem foldl_queueStep_capacity {α : Type} (th : CapThresholds) (ops : List (QueueOp α))
    (s : Queue α × List (QueueEvent α)) :
    (ops.foldl (queueStep th) s).1.capacity = s.1.capacity := by
  induction ops generalizing s with
  | nil => rfl
  | cons op rest ih => rw [List.foldl_cons, ih, queueStep_capacity]

theorem queueRun_capacity {α : Type} (th : CapThresholds) (q : Queue α) (ops : List (QueueOp α)) :
    (queueRun th q ops).1.capacity = q.capacity :=
  foldl_queueStep_capacity th ops (q, [])

theorem dequeueLevelLoop_fuel (th : CapThresholds) (count capacity : Nat) (fuel extra : Nat) :
    ∀ i level, level ≤ i + fuel →
      dequeueLevelLoop th count capacity (fuel + extra) i level =
        dequeueLevelLoop th count capacity fuel i level := by
  induction fuel with
  | zero =>
    intro i level h
    cases extra with
    | zero => rfl
    | succ k =>
      rw [Nat.zero_add]
      simp only [dequeueLevelLoop]
      rw [if_neg (by omega)]
  | succ n ih =>
    intro i level h
    rw [Nat.add_right_comm]
    simp only [dequeueLevelLoop]
    by_cases hlt : i < level
    · rw [if_pos hlt, if_pos hlt]
      apply ih
      split_ifs <;> omega
    · rw [if_neg hlt, if_neg hlt]

theorem dequeueLevelLoop_le (th : CapThresholds) (count capacity : Nat) (fuel : Nat) :
    ∀ i level, dequeueLevelLoop th count capacity fuel i level ≤ level := by
  induction fuel with
  | zero => intro i level; exact Nat.le_refl _
  | succ n ih =>
    intro i level
    simp only [dequeueLevelLoop]
    by_cases hlt : i < level
    · rw [if_pos hlt]
      refine Nat.le_trans (ih _ _) ?_
      split_ifs <;> omega
    · rw [if_neg hlt]

theorem enqueueLevel_le (th : CapThresholds) (count capacity level : Nat)
    (h : level ≤ ARRAY_LENGTH_s_capLevels) :
    enqueueLevel th count capacity level ≤ ARRAY_LENGTH_s_capLevels := by
  unfold enqueueLevel
  have key : ∀ (l : List Nat) (lv : Nat), (∀ i ∈ l, i < ARRAY_LENGTH_s_capLevels) →
      lv ≤ ARRAY_LENGTH_s_capLevels →
      l.foldl (fun lv i => if count = th.rise i capacity then i + 1 else lv) lv
        ≤ ARRAY_LENGTH_s_capLevels := by
    intro l
    induction l with
    | nil => intro lv _ hlv; exact hlv
    | cons a rest ih =>
      intro lv hl hlv
      rw [List.foldl_cons]
      apply ih
      · exact fun i hi => hl i (List.mem_cons_of_mem _ hi)
      · have ha := hl a (List.mem_cons_self _ _)
        split_ifs <;> omega
  apply key _ _ _ h
  intro i hi
  rw [List.mem_range'_1] at hi
  omega

theorem queueRun_index_bounds {α : Type} (th : CapThresholds) {queueMem : Bool}
    {mutexError : Nat} {bufferMem : Option (Nat → α)} {capacity itemSize : Nat} {q : Queue α}
    (hq : queue_create queueMem mutexError bufferMem capacity itemSize = some q)
    (hcap : 0 < capacity) (ops : List (QueueOp α)) :
    (queueRun th q ops).1.head < capacity ∧ (queueRun th q ops).1.tail < capacity := by
  have hwf := (queueRun_inv th hq ops).1
  have hc := queueRun_capacity th q ops
  rw [(queue_create_some hq).2.2.2.2] at hc
  have h1 := hwf.head_red
  have h2 := hwf.tail_eq
  rw [hc] at h1 h2
  exact ⟨h1 ▸ Nat.mod_lt _ hcap, h2 ▸ Nat.mod_lt _ hcap⟩

theorem contents_length {α : Type} (q : Queue α) : q.contents.length = q.count := by
  simp [Queue.contents]

/-! ### Queue: the properties of the specification -/

/-- C2 (non-blocking back-pressure): in every state reached from a freshly
created queue, `queue_enqueue` with the lock acquired returns 0 exactly when
`count = capacity`, `queue_dequeue` with the lock acquired returns 0 exactly when
`count = 0`, and a call that returns 0 (for any lock result) leaves the queue
record, hence count, head, tail, level and the stored items, as it was; the
caller's item buffer of a refused dequeue is untouched as well. -/
theorem queue_back_pressure {α : Type} (th : CapThresholds) (queueMem : Bool)
    (mutexError : Nat) (bufferMem : Option (Nat → α)) (capacity itemSize : Nat) (q : Queue α)
    (ops : List (QueueOp α)) (item : α) (lockError : Nat)
    (hq : queue_create queueMem mutexError bufferMem capacity itemSize = some q) :
    ((queue_enqueue th 0 (queueRun th q ops).1 item).2 = 0 ↔
        (queueRun th q ops).1.count = (queueRun th q ops).1.capacity) ∧
    ((queue_dequeue th 0 (queueRun th q ops).1 item).2.2 = 0 ↔
        (queueRun th q ops).1.count = 0) ∧
    ((queue_enqueue th lockError (queueRun th q ops).1 item).2 = 0 →
        (queue_enqueue th lockError (queueRun th q ops).1 item).1 = (queueRun th q ops).1) ∧
    ((queue_dequeue th lockError (queueRun th q ops).1 item).2.2 = 0 →
        (queue_dequeue th lockError (queueRun th q ops).1 item).1 = (queueRun th q ops).1 ∧
        (queue_dequeue th lockError (queueRun th q ops).1 item).2.1 = item) := by
  have hle := (queueRun_inv th hq ops).1.count_le
  refine ⟨?_, dequeue_fail_iff th _ item, enqueue_fail_unchanged th lockError _ item,
    dequeue_fail_unchanged th lockError _ item⟩
  rw [enqueue_fail_iff]
  omega

/-- Witness for C2: a queue of capacity two after two accepted items. -/
theorem queue_back_pressure_witness :
    ((queue_enqueue exactThresholds 0 (queueRun exactThresholds
        { buffer := fun _ => 0, count := 0, capacity := 2, itemSize := 8, head := 0, tail := 0,
          level := 0 } [.enqueue 0 5, .enqueue 0 6]).1 7).2 = 0 ↔
      (queueRun exactThresholds
        { buffer := fun _ => 0, count := 0, capacity := 2, itemSize := 8, head := 0, tail := 0,
          level := 0 } [.enqueue 0 5, .enqueue 0 6]).1.count =
      (queueRun exactThresholds
        { buffer := fun _ => 0, count := 0, capacity := 2, itemSize := 8, head := 0, tail := 0,
          level := 0 } [.enqueue 0 5, .enqueue 0 6]).1.capacity) :=
  (queue_back_pressure exactThresholds true 0 (some fun _ => (0 : Nat)) 2 8 _
    [.enqueue 0 5, .enqueue 0 6] 7 0 rfl).1

/-- C3 (queue boundedness): after any sequence of enqueue, dequeue, count and
clear calls on a freshly created queue, whatever their lock results,
`0 ≤ count ≤ capacity`, the capacity being the one given at creation. -/
theorem queue_bounded {α : Type} (th : CapThresholds) (queueMem : Bool) (mutexError : Nat)
    (bufferMem : Option (Nat → α)) (capacity itemSize : Nat) (q : Queue α)
    (ops : List (QueueOp α))
    (hq : queue_create queueMem mutexError bufferMem capacity itemSize = some q) :
    0 ≤ (queueRun th q ops).1.count ∧ (queueRun th q ops).1.count ≤ capacity ∧
      (queueRun th q ops).1.capacity = capacity := by
  have hle := (queueRun_inv th hq ops).1.count_le
  have hcap := queueRun_capacity th q ops
  rw [(queue_create_some hq).2.2.2.2] at hcap
  exact ⟨Nat.zero_le _, hcap ▸ hle, hcap⟩

/-- Witness for C3: a queue of capacity two offered three items, then
cleared and refilled. -/
theorem queue_bounded_witness :
    0 ≤ (queueRun exactThresholds
        { buffer := fun _ => 0, count := 0, capacity := 2, itemSize := 8, head := 0, tail := 0,
          level := 0 }
        [.enqueue 0 5, .enqueue 0 6, .enqueue 0 7, .count 0, .clear 0, .enqueue 0 8]).1.count ∧
    (queueRun exactThresholds
        { buffer := fun _ => 0, count := 0, capacity := 2, itemSize := 8, head := 0, tail := 0,
          level := 0 }
        [.enqueue 0 5, .enqueue 0 6, .enqueue 0 7, .count 0, .clear 0, .enqueue 0 8]).1.count
      ≤ 2 ∧
    (queueRun exactThresholds
        { buffer := fun _ => 0, count := 0, capacity := 2, itemSize := 8, head := 0, tail := 0,
          level := 0 }
        [.enqueue 0 5, .enqueue 0 6, .enqueue 0 7, .count 0, .clear 0, .enqueue 0 8]).1.capacity
      = 2 :=
  queue_bounded exactThresholds true 0 (some fun _ => (0 : Nat)) 2 8 _ _ rfl

theorem lookupObisFrom_ne_null (obis : octet_string) (table : List OBIS_Entry) :
    lookupObisFrom obis table ≠ .null := by
  induction table with
  | nil => simp [lookupObisFrom]
  | cons e rest ih =>
    simp only [lookupObisFrom]
    split_ifs
    · simp
    · exact ih

theorem sample_lookups :
    lookupObis (some [0x01, 0x00, 0x23, 0x07, 0x00, 0xff])
        = .entry ⟨POWER_L1, [0x01, 0x00, 0x23, 0x07, 0x00, 0xff]⟩ ∧
      lookupObis (some [1, 2, 3, 4, 5, 6, 7]) = .null ∧
      lookupObis none = .null ∧
      lookupObis (some [0x01, 0x00, 0x23, 0x07, 0x00, 0xfe]) = .overrun := by
  decide

/-- C5 (complete measurement) fails on the code: for a response whose tree
holds sixteen period entries that all name `POWER_L1`, the accumulated count is
16, `smartmeter_measure` returns 1, and for every measurement passed in the
only slots written are `TIMESTAMP` and `POWER_L1`; the other fifteen slots keep
what they held before the call. -/
theorem measure_succeeds_with_unwritten_slots (scale : Int → Int → Int)
    (m : SmartMeter_Data Int) :
    (handleTree scale repeatedTree (m.store TIMESTAMP 1000)).map Prod.fst = some 16 ∧
    ∃ r, smartmeter_measure scale (okTick repeatedTree) INVALID_SOCKET m = some r ∧
      r.ret = 1 ∧ r.m.val POWER_L1 = 230 ∧
      ∀ i, i ≠ TIMESTAMP → i ≠ POWER_L1 → r.m.val i = m.val i := by
  refine ⟨rfl, _, rfl, rfl, rfl, ?_⟩
  intro i h0 h1
  simp [SmartMeter_Data.store, h0, h1]

/-- C6 (unknown tags are ignored) fails on the code: `lookupObis` returns the
entry of `POWER_ALL_PHASES` for the empty octet string, the entry of `POWER_L1`
for the three octets `01 00 23`, and the final `{0}` element of the table for
six zero octets; for no octet string of at most six octets does it return
`NULL`; and `handlePeriodEntry` on an entry named by the three octets `01 00 23`
writes its value to the slot `POWER_L1` and returns 1. -/
theorem lookupObis_accepts_unlisted_tags (scale : Int → Int → Int) (m : SmartMeter_Data Int) :
    lookupObis (some []) = .entry ⟨POWER_ALL_PHASES, [0x01, 0x00, 0x0f, 0x07, 0x00, 0xff]⟩ ∧
    lookupObis (some [0x01, 0x00, 0x23]) = .entry ⟨POWER_L1, [0x01, 0x00, 0x23, 0x07, 0x00, 0xff]⟩ ∧
    lookupObis (some [0, 0, 0, 0, 0, 0]) = .entry ⟨TIMESTAMP, [0, 0, 0, 0, 0, 0]⟩ ∧
    (∀ obis : octet_string, obis.length ≤ sizeof_OBIS → lookupObis (some obis) ≠ .null) ∧
    handlePeriodEntry scale (some ⟨some [0x01, 0x00, 0x23], none, some 42⟩) m
      = some (1, m.store POWER_L1 42) := by
  refine ⟨by decide, by decide, by decide, ?_, rfl⟩
  intro obis hlen
  simp only [lookupObis]
  rw [if_neg (by omega)]
  exact lookupObisFrom_ne_null obis obisTable

/-- C7 (OBIS table totality): `obisTable` consists of sixteen entries followed
by the closing `{0}` element; the sixteen tags are pairwise distinct, each is
six octets long, and the sixteen slots are `POWER_ALL_PHASES` to
`PHASE_ANGLE_CURRENT_VOLTAGE_L3` (1 to 16), each once, so none is `TIMESTAMP`. -/
theorem obisTable_total :
    obisTable.length = 16 + 1 ∧
    obisTable.drop 16 = [⟨0, [0, 0, 0, 0, 0, 0]⟩] ∧
    ((obisTable.take 16).map (fun e => e.obis)).Nodup ∧
    (∀ e ∈ obisTable.take 16, e.obis.length = 6 ∧ ∀ octet ∈ e.obis, octet < 256) ∧
    (obisTable.take 16).map (fun e => e.id) =
      [POWER_ALL_PHASES, POWER_L1, POWER_L2, POWER_L3, CURRENT_NEUTRAL, CURRENT_L1, CURRENT_L2,
       CURRENT_L3, VOLTAGE_L1, VOLTAGE_L2, VOLTAGE_L3, PHASE_ANGLE_VOLTAGE_L2_L1,
       PHASE_ANGLE_VOLTAGE_L3_L1, PHASE_ANGLE_CURRENT_VOLTAGE_L1,
       PHASE_ANGLE_CURRENT_VOLTAGE_L2, PHASE_ANGLE_CURRENT_VOLTAGE_L3] ∧
    (obisTable.take 16).map (fun e => e.id) = List.range' 1 (NUM_VARIABLES - 1) := by
  refine ⟨by decide, by decide, by decide, by decide, by decide, by decide⟩

/-- C8 (connection closed after every tick) fails on the code: when the
response yields fewer than sixteen values (here a tree with the single period
entry of `POWER_L1`), and when sending the request fails, `smartmeter_measure`
returns 0 and leaves `m_socket` at the descriptor 5 it connected, not at
`INVALID_SOCKET`; the `smartmeter_connect` of the next tick then keeps that
descriptor instead of opening a connection. -/
theorem measure_leaves_socket_open (scale : Int → Int → Int) (m : SmartMeter_Data Int) :
    (smartmeter_measure scale
        (okTick (periodNode [0x01, 0x00, 0x23, 0x07, 0x00, 0xff] 230)) INVALID_SOCKET m).map
        (fun r => (r.ret, r.m_socket)) = some (0, 5) ∧
    (smartmeter_measure scale { okTick repeatedTree with written := 0 } INVALID_SOCKET m).map
        (fun r => (r.ret, r.m_socket)) = some (0, 5) ∧
    smartmeter_connect 9 5 = (1, 5) := by
  refine ⟨rfl, rfl, rfl⟩

/-- C9 (TIMESTAMP is never taken from the meter) fails on the code: for a
response with one period entry for each of the sixteen table tags and one more
named by six zero octets with value 7, `smartmeter_measure`, stamping the local
time 1000, returns 1 with `TIMESTAMP` equal to 7, the value sent by the meter. -/
theorem measure_takes_timestamp_from_meter (scale : Int → Int → Int)
    (m : SmartMeter_Data Int) :
    (smartmeter_measure scale (okTick zeroTagTree) INVALID_SOCKET m).map
        (fun r => (r.ret, r.m.val TIMESTAMP)) = some (1, 7) ∧
    (handleTree scale (periodNode [0, 0, 0, 0, 0, 0] 7) (m.store TIMESTAMP 1000)).map
        (fun r => (r.1, r.2.val TIMESTAMP)) = some (1, 7) := by
  refine ⟨rfl, rfl⟩

/-! ### Timer: the properties of the specification -/

theorem elapsed_wrap (a b : Nat) :
    toInt (u64Sub a b) = ((a : Int) - (b : Int) + 2 ^ 31) % 2 ^ 32 - 2 ^ 31 := by
  unfold toInt u64Sub
  rw [Int.toNat_of_nonneg (Int.emod_nonneg _ (by norm_num))]
  omega

theorem elapsed_in_range (a b : Nat) (hlo : INT_MIN ≤ (a : Int) - (b : Int))
    (hhi : (a : Int) - (b : Int) ≤ INT_MAX) : toInt (u64Sub a b) = (a : Int) - (b : Int) := by
  rw [elapsed_wrap]
  unfold INT_MIN at hlo
  unfold INT_MAX at hhi
  omega

theorem elapsed_le (a b : Nat) (h : b ≤ a) : toInt (u64Sub a b) ≤ (a : Int) - (b : Int) := by
  rw [elapsed_wrap]
  omega

theorem timer_barrier_pos (clock₁ clock₂ : Option timespec) (sleepRet : Int)
    (barrier : Nat) (interval : Int) (h : 0 < barrier) :
    timer_barrier clock₁ clock₂ sleepRet barrier interval =
      if toInt (u64Sub (timer_now clock₁) barrier) < interval then
        { barrier := timer_now clock₂, elapsed := toInt (u64Sub (timer_now clock₁) barrier),
          ret := sleepRet,
          slept := some (interval - toInt (u64Sub (timer_now clock₁) barrier)) }
      else
        { barrier := timer_now clock₂, elapsed := toInt (u64Sub (timer_now clock₁) barrier),
          ret := 0, slept := none } := by
  unfold timer_barrier
  rw [if_pos h]

/-- C10 (barrier semantics), refuted for gaps of `2^31` ms and more.  Called
with state 0 (the first call), `timer_barrier` makes no call of `timer_sleep`,
sets `elapsed = 0`, stores the current time in the state and returns 1.  Every
call stores the time read at its end in the state.  Called with a positive
state, when the difference `now - state` lies within the range of `int` (and
so does `interval - elapsed`), it sets `elapsed = now - state`, calls
`timer_sleep` with `interval - elapsed` exactly when that is positive, and
returns 0 if and only if `elapsed ≥ interval` provided the sleep returns 1.
But `elapsed` is an `int` that receives a difference of `uint64_t`: when
`2^31 ≤ now - state < 2^32`, it is `now - state - 2^32`, which is negative, and
for an interval that is not negative the call sleeps `interval - elapsed` ms
and returns what the sleep returns, although `now - state ≥ interval`.  With
the state 1, the clock at 3000000000 ms and an interval of 1000 ms, `elapsed`
is -1294967297 and the call sleeps 1294968297 ms and returns 1. -/
theorem timer_barrier_elapsed_wraps (clock₁ clock₂ : Option timespec) (sleepRet : Int)
    (barrier : Nat) (interval : Int) :
    (barrier = 0 →
      timer_barrier clock₁ clock₂ sleepRet barrier interval =
        { barrier := timer_now clock₂, elapsed := 0, ret := 1, slept := none }) ∧
    (timer_barrier clock₁ clock₂ sleepRet barrier interval).barrier = timer_now clock₂ ∧
    (0 < barrier →
      INT_MIN ≤ (timer_now clock₁ : Int) - (barrier : Int) →
      (timer_now clock₁ : Int) - (barrier : Int) ≤ INT_MAX →
      interval - ((timer_now clock₁ : Int) - (barrier : Int)) ≤ INT_MAX →
      (timer_barrier clock₁ clock₂ sleepRet barrier interval).elapsed
        = (timer_now clock₁ : Int) - (barrier : Int) ∧
      ((timer_barrier clock₁ clock₂ sleepRet barrier interval).slept
          = some (interval - ((timer_now clock₁ : Int) - (barrier : Int))) ↔
        0 < interval - ((timer_now clock₁ : Int) - (barrier : Int))) ∧
      ((timer_barrier clock₁ clock₂ sleepRet barrier interval).slept = none ↔
        ¬ 0 < interval - ((timer_now clock₁ : Int) - (barrier : Int))) ∧
      (sleepRet = 1 →
        ((timer_barrier clock₁ clock₂ sleepRet barrier interval).ret = 0 ↔
          interval ≤ (timer_barrier clock₁ clock₂ sleepRet barrier interval).elapsed))) ∧
    (0 < barrier →
      2 ^ 31 ≤ (timer_now clock₁ : Int) - (barrier : Int) →
      (timer_now clock₁ : Int) - (barrier : Int) < 2 ^ 32 →
      0 ≤ interval →
      interval - ((timer_now clock₁ : Int) - (barrier : Int) - 2 ^ 32) ≤ INT_MAX →
      interval ≤ (timer_now clock₁ : Int) - (barrier : Int) ∧
      (timer_barrier clock₁ clock₂ sleepRet barrier interval).elapsed
        = (timer_now clock₁ : Int) - (barrier : Int) - 2 ^ 32 ∧
      (timer_barrier clock₁ clock₂ sleepRet barrier interval).elapsed < 0 ∧
      (timer_barrier clock₁ clock₂ sleepRet barrier interval).slept
        = some (interval - ((timer_now clock₁ : Int) - (barrier : Int) - 2 ^ 32)) ∧
      (timer_barrier clock₁ clock₂ sleepRet barrier interval).ret = sleepRet) ∧
    timer_barrier (some ⟨3000000, 0⟩) (some ⟨4294968, 297000000⟩) 1 1 1000 =
      { barrier := 4294968297, elapsed := -1294967297, ret := 1,
        slept := some 1294968297 } ∧
    (timer_now (some ⟨3000000, 0⟩) : Int) - ((1 : Nat) : Int) = 2999999999 := by
  refine ⟨fun h => by simp [timer_barrier, h], ?_, ?_, ?_, by decide, by decide⟩
  · simp only [timer_barrier]
    split_ifs <;> rfl
  · intro h hlo hhi _
    rw [timer_barrier_pos _ _ _ _ _ h, elapsed_in_range _ _ hlo hhi]
    by_cases hlt : (timer_now clock₁ : Int) - (barrier : Int) < interval
    · rw [if_pos hlt]
      refine ⟨rfl, ⟨fun _ => by omega, fun _ => rfl⟩, ⟨fun h => by simp at h, fun h => by omega⟩,
        fun hs => ?_⟩
      subst hs
      exact ⟨fun h1 => by simp at h1, fun h1 => absurd hlt (not_lt.2 h1)⟩
    · rw [if_neg hlt]
      refine ⟨rfl, ⟨fun h => by simp at h, fun h => by omega⟩, ⟨fun _ => by omega, fun _ => rfl⟩,
        fun _ => ⟨fun _ => not_lt.1 hlt, fun _ => rfl⟩⟩
  · intro h hlo hhi hint hsub
    have he : toInt (u64Sub (timer_now clock₁) barrier) =
        (timer_now clock₁ : Int) - (barrier : Int) - 2 ^ 32 := by
      rw [elapsed_wrap]
      omega
    have hlt : (timer_now clock₁ : Int) - (barrier : Int) - 2 ^ 32 < interval := by omega
    rw [timer_barrier_pos _ _ _ _ _ h, he, if_pos hlt]
    unfold INT_MAX at hsub
    exact ⟨by omega, rfl, by show _ - _ - _ < (0 : Int); omega, rfl, rfl⟩

/-- Witness for C10: a first call at 5000 ms; a later call 300 ms after a
release at 5000 ms with an interval of 1000 ms, which sleeps 700 ms; and a call
2147484648 ms after a release at 5000 ms with an interval of 0 ms, for which
`elapsed` is -2147482648 and which sleeps. -/
theorem timer_barrier_elapsed_wraps_witness :
    timer_barrier none (some ⟨5, 0⟩) 1 0 1000 =
        { barrier := 5000, elapsed := 0, ret := 1, slept := none } ∧
    timer_barrier (some ⟨5, 300000000⟩) (some ⟨6, 0⟩) 1 5000 1000 =
        { barrier := 6000, elapsed := 300, ret := 1, slept := some 700 } ∧
    (timer_barrier (some ⟨5, 300000000⟩) (some ⟨6, 0⟩) 1 5000 1000).elapsed
        = (timer_now (some ⟨5, 300000000⟩) : Int) - ((5000 : Nat) : Int) ∧
    (timer_barrier (some ⟨2147489, 648000000⟩) (some ⟨2147489, 648000000⟩) 1 5000 0).elapsed
        = (timer_now (some ⟨2147489, 648000000⟩) : Int) - ((5000 : Nat) : Int) - 2 ^ 32 ∧
    (timer_barrier (some ⟨2147489, 648000000⟩) (some ⟨2147489, 648000000⟩) 1 5000 0).ret = 1 :=
  ⟨(timer_barrier_elapsed_wraps none (some ⟨5, 0⟩) 1 0 1000).1 rfl, by decide,
    ((timer_barrier_elapsed_wraps (some ⟨5, 300000000⟩) (some ⟨6, 0⟩) 1 5000 1000).2.2.1
      (by decide) (by decide) (by decide) (by decide)).1,
    ((timer_barrier_elapsed_wraps (some ⟨2147489, 648000000⟩) (some ⟨2147489, 648000000⟩)
      1 5000 0).2.2.2.1 (by decide) (by decide) (by decide) (by decide) (by decide)).2.1,
    ((timer_barrier_elapsed_wraps (some ⟨2147489, 648000000⟩) (some ⟨2147489, 648000000⟩)
      1 5000 0).2.2.2.1 (by decide) (by decide) (by decide) (by decide) (by decide)).2.2.2.2⟩

theorem barrierStep_paced (T : Int) (b : Nat) (c : BarrierCall) (rest : List BarrierCall)
    (hb : 0 < b) (h : clockModel T b (c :: rest) = true) :
    (b : Int) + T ≤ ((barrierStep T b c).barrier : Int) ∧ 0 < (barrierStep T b c).barrier ∧
      clockModel T (barrierStep T b c).barrier rest = true := by
  simp only [clockModel, Bool.and_eq_true, Bool.or_eq_true, decide_eq_true_eq, beq_iff_eq] at h
  obtain ⟨⟨⟨hpos, hmono⟩, hsleep⟩, hrest⟩ := h
  have hmono : b ≤ timer_now c.clock₁ ∧ timer_now c.clock₁ ≤ timer_now c.clock₂ := by
    rcases hmono with h0 | h1
    · omega
    · exact h1
  have hle := elapsed_le (timer_now c.clock₁) b hmono.1
  refine ⟨?_, ?_, hrest⟩
  · simp only [barrierStep, timer_barrier_pos _ _ _ _ _ hb] at hsleep ⊢
    by_cases hlt : toInt (u64Sub (timer_now c.clock₁) b) < T
    · simp only [hlt, if_true, decide_eq_true_eq] at hsleep ⊢
      omega
    · simp only [hlt, if_false]
      omega
  · simp only [barrierStep, timer_barrier]
    split_ifs <;> exact hpos

theorem barrierStates_length (T : Int) (calls : List BarrierCall) :
    ∀ b, (barrierStates T b calls).length = calls.length := by
  induction calls with
  | nil => intro b; rfl
  | cons c rest ih => intro b; simp [barrierStates, ih]

theorem barrierStates_from (T : Int) (calls : List BarrierCall) :
    ∀ b, 0 < b → clockModel T b calls = true →
      ∀ n, n < (barrierStates T b calls).length →
        (b : Int) + (n + 1) * T ≤ ((barrierStates T b calls).getD n 0 : Int) := by
  induction calls with
  | nil => intro b _ _ n hn; simp [barrierStates] at hn
  | cons c rest ih =>
    intro b hb h n hn
    obtain ⟨h1, h2, h3⟩ := barrierStep_paced T b c rest hb h
    cases n with
    | zero =>
      simp only [barrierStates, List.getD_cons_zero]
      push_cast
      linarith
    | succ k =>
      simp only [barrierStates, List.getD_cons_succ]
      have hk : k < (barrierStates T (barrierStep T b c).barrier rest).length := by
        simp only [barrierStates, List.length_cons] at hn
        omega
      have := ih _ h2 h3 k hk
      push_cast at this ⊢
      linarith

theorem barrierStates_consecutive (T : Int) (calls : List BarrierCall) :
    ∀ b, clockModel T b calls = true →
      ∀ n, n + 1 < (barrierStates T b calls).length →
        ((barrierStates T b calls).getD n 0 : Int) + T
          ≤ ((barrierStates T b calls).getD (n + 1) 0 : Int) := by
  induction calls with
  | nil => intro b _ n hn; simp [barrierStates] at hn
  | cons c rest ih =>
    intro b h n hn
    have hrest : clockModel T (barrierStep T b c).barrier rest = true := by
      simp only [clockModel, Bool.and_eq_true] at h
      exact h.2
    have hpos : 0 < (barrierStep T b c).barrier := by
      simp only [clockModel, Bool.and_eq_true, decide_eq_true_eq] at h
      simp only [barrierStep, timer_barrier]
      split_ifs <;> exact h.1.1.1
    simp only [barrierStates, List.length_cons] at hn
    cases n with
    | zero =>
      simp only [barrierStates, List.getD_cons_zero, List.getD_cons_succ]
      have := barrierStates_from T rest _ hpos hrest 0 (by omega)
      simpa using this
    | succ k =>
      simp only [barrierStates, List.getD_cons_succ]
      exact ih _ hrest k (by omega)

/-- C11 (barrier pacing): let `timer_barrier` be called repeatedly with one
interval `T` on a state that starts at 0, under a clock whose readings are
positive and do not decrease and on which `timer_sleep d` lasts at least `d`.
Then the time stored by the `N`-th call (`N = n + 1`) is at least `(N - 1) * T`
later than the time stored by the first call, and the times stored by
consecutive calls differ by at least `T`. -/
theorem barrier_pacing (T : Int) (calls : List BarrierCall)
    (h : clockModel T 0 calls = true) (n : Nat) (hn : n < calls.length) :
    ((barrierStates T 0 calls).getD 0 0 : Int) + n * T
        ≤ ((barrierStates T 0 calls).getD n 0 : Int) ∧
      (n + 1 < calls.length →
        ((barrierStates T 0 calls).getD n 0 : Int) + T
          ≤ ((barrierStates T 0 calls).getD (n + 1) 0 : Int)) := by
  refine ⟨?_, fun h1 =>
    barrierStates_consecutive T calls 0 h n (by rw [barrierStates_length]; exact h1)⟩
  cases calls with
  | nil => simp at hn
  | cons c rest =>
    have hrest : clockModel T (barrierStep T 0 c).barrier rest = true := by
      simp only [clockModel, Bool.and_eq_true] at h
      exact h.2
    have hpos : 0 < (barrierStep T 0 c).barrier := by
      simp only [clockModel, Bool.and_eq_true, decide_eq_true_eq] at h
      simp only [barrierStep, timer_barrier]
      split_ifs <;> exact h.1.1.1
    cases n with
    | zero => simp [barrierStates]
    | succ k =>
      simp only [barrierStates, List.getD_cons_zero, List.getD_cons_succ]
      have hk : k < (barrierStates T (barrierStep T 0 c).barrier rest).length := by
        rw [barrierStates_length]
        simp only [List.length_cons] at hn
        omega
      have := barrierStates_from T rest _ hpos hrest k hk
      push_cast at this ⊢
      linarith

/-- Witness for C11: three calls with an interval of 1000 ms, released at
5000 ms, 6000 ms (after a sleep of 700 ms) and 7500 ms (late, no sleep). -/
theorem barrier_pacing_witness :
    ((barrierStates 1000 0
        [⟨none, some ⟨5, 0⟩, 1⟩, ⟨some ⟨5, 300000000⟩, some ⟨6, 0⟩, 1⟩,
         ⟨some ⟨7, 400000000⟩, some ⟨7, 500000000⟩, 1⟩]).getD 0 0 : Int) + (2 : Nat) * 1000
      ≤ ((barrierStates 1000 0
        [⟨none, some ⟨5, 0⟩, 1⟩, ⟨some ⟨5, 300000000⟩, some ⟨6, 0⟩, 1⟩,
         ⟨some ⟨7, 400000000⟩, some ⟨7, 500000000⟩, 1⟩]).getD 2 0 : Int) :=
  (barrier_pacing 1000 _ (by decide) 2 (by decide)).1

/-! ### Uploader: the properties of the specification -/

/-- C12 (upload acceptance): `performPOST` returns 1 if and only if the
transport result is `CURLE_OK`, the response code can be read and the HTTP
status is 201 or 204; in every other case, transport failure or other status,
it returns 0. -/
theorem performPOST_accepts (lastError : Int) (o : PostOutcome) :
    ((performPOST lastError o).ret = 1 ↔
      o.res = CURLE_OK ∧ o.infoRes = CURLE_OK ∧ (o.code = 201 ∨ o.code = 204)) ∧
    ((performPOST lastError o).ret = 0 ↔
      ¬ (o.res = CURLE_OK ∧ o.infoRes = CURLE_OK ∧ (o.code = 201 ∨ o.code = 204))) := by
  unfold performPOST
  by_cases h1 : o.res = CURLE_OK
  · by_cases h2 : o.infoRes = CURLE_OK
    · by_cases h3 : o.code = 201
      · simp [h1, h2, h3]
      · by_cases h4 : o.code = 204
        · simp [h1, h2, h4]
        · simp [h1, h2, h3, h4]
    · simp [h1, h2]
  · simp [h1]

theorem postLog_rule (outcomes : List PostOutcome) :
    ∀ (lastError : Int) (stored : Option Int) (failed : Bool),
      ((lastError = 0 ∧ stored = none ∧ failed = false) ∨
        (lastError ≠ 0 ∧ stored = some lastError ∧ failed = true)) →
      (∀ o ∈ outcomes, o.fingerprinted = true) →
      (postLog lastError outcomes).filterMap UploadLog.ruleLine =
        ruleLines stored failed (outcomes.map PostOutcome.attempt) := by
  induction outcomes with
  | nil => intro _ _ _ _ _; rfl
  | cons o rest ih =>
    intro lastError stored failed hrel hall
    have ho := hall o (List.mem_cons_self _ _)
    have hrest : ∀ o ∈ rest, o.fingerprinted = true :=
      fun x hx => hall x (List.mem_cons_of_mem _ hx)
    simp only [PostOutcome.fingerprinted, Bool.or_eq_true, Bool.and_eq_true,
      decide_eq_true_eq] at ho
    simp only [postLog, List.map_cons, List.filterMap_append]
    by_cases h1 : o.res = CURLE_OK
    · have h2 : o.infoRes = CURLE_OK := by
        rcases ho with h | h
        · exact absurd h1 h
        · exact h.1
      have h0 : o.code ≠ 0 := by
        rcases ho with h | h
        · exact absurd h1 h
        · exact h.2
      by_cases h3 : o.code ≠ 201 ∧ o.code ≠ 204
      · have hp : performPOST lastError o =
            ⟨0, o.code, if lastError ≠ o.code then [.httpFailed o.code] else []⟩ := by
          simp only [performPOST, h1, h2, ne_eq, not_true_eq_false, if_false]
          rw [if_pos h3]
        have ha : o.attempt = .failure (some o.code) := by
          simp only [PostOutcome.attempt, h1, h2, ne_eq, not_true_eq_false, if_false]
          rw [if_pos h3]
        rw [hp, ha]
        simp only [ruleLines]
        rw [ih o.code (some o.code) true (Or.inr ⟨h0, rfl, rfl⟩) hrest]
        congr 1
        rcases hrel with ⟨hl, hs, -⟩ | ⟨hl, hs, -⟩
        · subst hl hs
          simp [Ne.symm h0, UploadLog.ruleLine]
        · subst hs
          by_cases he : lastError = o.code
          · simp [he]
          · simp [he, UploadLog.ruleLine]
      · have h3' : o.code = 201 ∨ o.code = 204 := by
          by_contra hc
          exact h3 ⟨fun h => hc (Or.inl h), fun h => hc (Or.inr h)⟩
        have hp : performPOST lastError o =
            ⟨1, 0, .sentOk :: (if lastError ≠ 0 then [.finallySent] else [])⟩ := by
          simp only [performPOST, h1, h2, ne_eq, not_true_eq_false, if_false]
          rw [if_neg h3]
        have ha : o.attempt = .success := by
          simp only [PostOutcome.attempt, h1, h2, ne_eq, not_true_eq_false, if_false]
          rw [if_neg h3]
        rw [hp, ha]
        simp only [ruleLines]
        rw [ih 0 none false (Or.inl ⟨rfl, rfl, rfl⟩) hrest]
        congr 1
        rcases hrel with ⟨hl, -, hf⟩ | ⟨hl, -, hf⟩
        · subst hl hf
          simp [UploadLog.ruleLine]
        · subst hf
          simp [hl, UploadLog.ruleLine]
    · have hp : performPOST lastError o =
          ⟨0, o.res, if lastError ≠ o.res then [.postFailed o.res] else []⟩ := by
        simp only [performPOST]
        rw [if_pos h1]
      have ha : o.attempt = .failure (some o.res) := by
        simp only [PostOutcome.attempt]
        rw [if_pos h1]
      rw [hp, ha]
      simp only [ruleLines]
      rw [ih o.res (some o.res) true (Or.inr ⟨h1, rfl, rfl⟩) hrest]
      congr 1
      rcases hrel with ⟨hl, hs, -⟩ | ⟨hl, hs, -⟩
      · subst hl hs
        simp [Ne.symm h1, UploadLog.ruleLine]
      · subst hs
        by_cases he : lastError = o.res
        · simp [he]
        · simp [he, UploadLog.ruleLine]

/-- C14, as stated, fails: when the response code of a POST cannot be read
(`curl_easy_getinfo` fails) and the next POST is answered with 204,
`performPOST` logs an error line for a failure that has no fingerprint and no
"finally sent" line for the success that follows the failure, whereas the rule
prescribes no error line and one "finally sent" line.  Likewise an HTTP status
0 followed by 204 logs nothing although the rule prescribes both lines. -/
theorem post_dedup_counterexample :
    (performPOST 0 ⟨CURLE_OK, 43, 0⟩).ret = 0 ∧
    (postLog 0 [⟨CURLE_OK, 43, 0⟩, httpStatus 204]).filterMap UploadLog.ruleLine = [.error] ∧
    ruleLines none false ([⟨CURLE_OK, 43, 0⟩, httpStatus 204].map PostOutcome.attempt)
      = [.finallySent] ∧
    (postLog 0 [httpStatus 0, httpStatus 204]).filterMap UploadLog.ruleLine = [] ∧
    ruleLines none false ([httpStatus 0, httpStatus 204].map PostOutcome.attempt)
      = [.error, .finallySent] := by
  decide

/-- C14, amended (error de-duplication): over any sequence of POST outcomes
handled by `performPOST`, starting with no previous error, in which the
response code can always be read and no HTTP status is 0, an error line is
logged exactly for those failures whose fingerprint (transport code or HTTP
status) differs from the stored last-error fingerprint, and the "finally sent"
line is logged exactly once for each success that follows one or more
failures. -/
theorem post_dedup (outcomes : List PostOutcome)
    (h : ∀ o ∈ outcomes, o.fingerprinted = true) :
    (postLog 0 outcomes).filterMap UploadLog.ruleLine =
      ruleLines none false (outcomes.map PostOutcome.attempt) :=
  postLog_rule outcomes 0 none false (Or.inl ⟨rfl, rfl, rfl⟩) h

/-- Witness for C14, amended: the outcomes 500, 500, 500, 500, 500, 204 give
one error line and one "finally sent" line. -/
theorem post_dedup_witness :
    (postLog 0 [httpStatus 500, httpStatus 500, httpStatus 500, httpStatus 500,
        httpStatus 500, httpStatus 204]).filterMap UploadLog.ruleLine =
      ruleLines none false ([httpStatus 500, httpStatus 500, httpStatus 500, httpStatus 500,
        httpStatus 500, httpStatus 204].map PostOutcome.attempt) ∧
    (postLog 0 [httpStatus 500, httpStatus 500, httpStatus 500, httpStatus 500,
        httpStatus 500, httpStatus 204]).filterMap UploadLog.ruleLine
      = [.error, .finallySent] :=
  ⟨post_dedup _ (by decide), by decide⟩

theorem workerLoop_outage (n : Nat) :
    ∀ (t : Nat) (lastError : Int),
      workerLoop outageEnv 1000 n t (some ['p']) lastError =
        (List.range' t n).flatMap (fun r => [.post r ['p'] 0, .sleep r 1000]) := by
  induction n with
  | zero => intro t lastError; rfl
  | succ k ih =>
    intro t lastError
    have hret : (performPOST lastError (outageEnv.post t)).ret = 0 := by
      simp [performPOST, outageEnv, httpStatus]
    simp only [workerLoop, hret, if_true, ih, List.range'_succ, List.flatMap_cons,
      List.cons_append, List.nil_append]

theorem outage_posts_from (k : Nat) :
    ∀ t, 1 ≤ t →
      (((List.range' t k).flatMap
          (fun r => [WorkerEvent.post r ['p'] 0, WorkerEvent.sleep r 1000])).filter
        (WorkerEvent.isPostFrom 1)).length = k := by
  induction k with
  | zero => intro t _; rfl
  | succ k ih =>
    intro t ht
    simp only [List.range'_succ, List.flatMap_cons, List.cons_append, List.nil_append,
      List.filter_cons, WorkerEvent.isPostFrom, ht, decide_True, if_true, List.length_cons]
    have := ih (t + 1) (by omega)
    simpa using this

theorem outage_no_exit (k : Nat) :
    ∀ t, ((List.range' t k).flatMap
        (fun r => [WorkerEvent.post r ['p'] 0, WorkerEvent.sleep r 1000])).all
          (fun e => !e.isExit) = true := by
  induction k with
  | zero => intro t; rfl
  | succ k ih =>
    intro t
    simp only [List.range'_succ, List.flatMap_cons, List.cons_append, List.nil_append,
      List.all_cons, WorkerEvent.isExit, Bool.not_false, Bool.true_and]
    exact ih (t + 1)

/-- C13 (bounded worker shutdown) fails on the code: a worker that has taken
a payload in round 0, after which `m_running` is cleared, and whose POSTs are
all answered with HTTP status 500, makes a POST attempt in every round: within
`n + 1` rounds it makes `n` attempts in round 1 or later, for every `n`, and it
does not leave its loop. -/
theorem worker_retries_after_shutdown (n : Nat) :
    uploadProc outageEnv true 1000 0 1 0 (n + 2) =
      .sleep 0 0 :: (List.range' 0 (n + 1)).flatMap (fun r => [.post r ['p'] 0, .sleep r 1000]) ∧
    ((uploadProc outageEnv true 1000 0 1 0 (n + 2)).filter (WorkerEvent.isPostFrom 1)).length
      = n ∧
    (uploadProc outageEnv true 1000 0 1 0 (n + 2)).all (fun e => !e.isExit) = true := by
  have h : uploadProc outageEnv true 1000 0 1 0 (n + 2) =
      .sleep 0 0 ::
        (List.range' 0 (n + 1)).flatMap (fun r => [.post r ['p'] 0, .sleep r 1000]) := by
    simp only [uploadProc, if_true, workerLoop]
    have h0 : outageEnv.running 0 = true := rfl
    have h1 : outageEnv.dequeue 0 = some ['p'] := rfl
    simp only [h0, h1, if_true, workerLoop_outage]
    rfl
  refine ⟨h, ?_, ?_⟩
  · rw [h, List.range'_succ]
    simp only [List.flatMap_cons, List.filter_cons, WorkerEvent.isPostFrom, List.cons_append,
      List.nil_append]
    simpa using outage_posts_from n 1 (Nat.le_refl 1)
  · rw [h]
    simp only [List.all_cons, WorkerEvent.isExit, Bool.not_false, Bool.true_and]
    exact outage_no_exit (n + 1) 0

/-! ### Socket helpers: the properties of the specification -/

theorem clientSocket_sample :
    io_createClientSocket (some "meter") (some "7259") 1000 0
        [⟨-1, 0, 0⟩, ⟨4, 0, -1⟩, ⟨5, 0, 0⟩, ⟨6, 0, 0⟩] = 5 ∧
    io_createClientSocket (some "meter") (some "7259") 1000 0 [⟨4, 0, -1⟩, ⟨5, 0, -1⟩]
      = INVALID_SOCKET ∧
    io_createClientSocket (some "meter") (some "7259") 1000 (-2) [] = INVALID_SOCKET := by
  decide

/-- C19 (TCP client result) fails on the code: with the host or the service
missing `io_createClientSocket` returns 0, and when `setsockopt` fails on a
candidate it returns the descriptor of that candidate (4), for which `connect`
was not called, although a later candidate could be connected; in neither case
does it return `INVALID_SOCKET`.  `smartmeter_connect` takes both results for a
connection. -/
theorem clientSocket_not_invalid :
    io_createClientSocket none (some "7259") 1000 0 [⟨5, 0, 0⟩] = 0 ∧
    io_createClientSocket (some "meter") none 1000 0 [⟨5, 0, 0⟩] = 0 ∧
    io_createClientSocket (some "meter") (some "7259") 1000 0 [⟨4, -1, 0⟩, ⟨5, 0, 0⟩] = 4 ∧
    smartmeter_connect 0 INVALID_SOCKET = (1, 0) ∧
    smartmeter_connect 4 INVALID_SOCKET = (1, 4) := by
  decide

/-! ### Queue thresholds: the properties of the specification -/

theorem dequeueWarningsLoop_spec (th : CapThresholds) (count capacity : Nat) (fuel : Nat) :
    ∀ i level,
      (dequeueWarningsLoop th count capacity fuel i level).Nodup ∧
      ∀ k ∈ dequeueWarningsLoop th count capacity fuel i level,
        i ≤ k ∧ count = th.fall k capacity := by
  induction fuel with
  | zero => intro i level; simp [dequeueWarningsLoop]
  | succ n ih =>
    intro i level
    simp only [dequeueWarningsLoop]
    by_cases hlt : i < level
    · rw [if_pos hlt]
      by_cases hc : count = th.fall i capacity
      · rw [if_pos hc]
        obtain ⟨hnd, hall⟩ := ih (i + 1) i
        refine ⟨List.nodup_cons.2 ⟨fun hmem => ?_, hnd⟩, ?_⟩
        · have := (hall i hmem).1
          omega
        · intro k hk
          rcases List.mem_cons.1 hk with h | h
          · subst h
            exact ⟨Nat.le_refl _, hc⟩
          · exact ⟨by have := (hall k h).1; omega, (hall k h).2⟩
      · rw [if_neg hc]
        obtain ⟨hnd, hall⟩ := ih (i + 1) level
        exact ⟨hnd, fun k hk => ⟨by have := (hall k hk).1; omega, (hall k hk).2⟩⟩
    · rw [if_neg hlt]
      simp

theorem enqueueWarnings_spec (th : CapThresholds) (count capacity level : Nat) :
    (enqueueWarnings th count capacity level).Nodup ∧
    ∀ k ∈ enqueueWarnings th count capacity level, count = th.rise k capacity := by
  unfold enqueueWarnings
  refine ⟨List.Nodup.filter _ (List.nodup_range' _ _), ?_⟩
  intro k hk
  simpa using (List.mem_filter.1 hk).2

theorem queueStep_fst_log {α : Type} (th : CapThresholds) (q : Queue α)
    (log : List (QueueEvent α)) (op : QueueOp α) :
    (queueStep th (q, log) op).1 = (queueStep th (q, []) op).1 := by
  cases op <;> rfl

theorem fill_warnings {α : Type} (th : CapThresholds) (ops : List (QueueOp α)) :
    ∀ q : Queue α, (∀ op ∈ ops, op.isEnqueue = true) →
      (queueWarnings th q ops).Nodup ∧
      ∀ w ∈ queueWarnings th q ops,
        ∃ i, w = .exceeds i ∧ q.count ≤ th.rise i q.capacity := by
  induction ops with
  | nil => intro q _; simp [queueWarnings]
  | cons op rest ih =>
    intro q hops
    have hrest : ∀ o ∈ rest, o.isEnqueue = true :=
      fun o ho => hops o (List.mem_cons_of_mem _ ho)
    have hop := hops op (List.mem_cons_self _ _)
    cases op with
    | enqueue e x =>
      simp only [queueWarnings, queueOpWarnings, queueStep]
      by_cases he : e ≠ 0
      · rw [if_pos he, enqueue_lock_failed th e q x he]
        simpa using ih q hrest
      · have he0 : e = 0 := not_not.1 he
        subst he0
        rw [if_neg he]
        by_cases hfull : q.count ≥ q.capacity
        · rw [if_pos hfull]
          have hq := enqueue_fail_unchanged th 0 q x ((enqueue_fail_iff th q x).2 hfull)
          rw [hq]
          simpa using ih q hrest
        · rw [if_neg hfull, enqueue_success th q x (by omega)]
          obtain ⟨hnd₁, hall₁⟩ := enqueueWarnings_spec th q.count q.capacity q.level
          obtain ⟨hnd₂, hall₂⟩ := ih
            { q with
              level := enqueueLevel th q.count q.capacity q.level
              buffer := storeItem q.buffer q.tail x
              tail := (q.tail + 1) % q.capacity
              count := q.count + 1 } hrest
          simp only at hall₂
          refine ⟨List.Nodup.append (hnd₁.map (fun a b h => by injection h)) hnd₂ ?_, ?_⟩
          · intro w hw₁ hw₂
            obtain ⟨k, hk, rfl⟩ := List.mem_map.1 hw₁
            obtain ⟨i, hi, hle⟩ := hall₂ _ hw₂
            injection hi with hi
            subst hi
            have := hall₁ k hk
            omega
          · intro w hw
            rcases List.mem_append.1 hw with h | h
            · obtain ⟨k, hk, rfl⟩ := List.mem_map.1 h
              exact ⟨k, rfl, by have := hall₁ k hk; omega⟩
            · obtain ⟨i, hi, hle⟩ := hall₂ _ h
              exact ⟨i, hi, by omega⟩
    | dequeue e x => simp [QueueOp.isEnqueue] at hop
    | count e => simp [QueueOp.isEnqueue] at hop
    | clear e => simp [QueueOp.isEnqueue] at hop

theorem drain_warnings {α : Type} (th : CapThresholds) (ops : List (QueueOp α)) :
    ∀ q : Queue α, (∀ op ∈ ops, op.isDequeue = true) →
      (queueWarnings th q ops).Nodup ∧
      ∀ w ∈ queueWarnings th q ops,
        ∃ i, w = .fallsBelow i ∧ th.fall i q.capacity ≤ q.count := by
  induction ops with
  | nil => intro q _; simp [queueWarnings]
  | cons op rest ih =>
    intro q hops
    have hrest : ∀ o ∈ rest, o.isDequeue = true :=
      fun o ho => hops o (List.mem_cons_of_mem _ ho)
    have hop := hops op (List.mem_cons_self _ _)
    cases op with
    | dequeue e x =>
      simp only [queueWarnings, queueOpWarnings, queueStep]
      by_cases he : e ≠ 0
      · rw [if_pos he, dequeue_lock_failed th e q x he]
        simpa using ih q hrest
      · have he0 : e = 0 := not_not.1 he
        subst he0
        rw [if_neg he]
        by_cases hempty : q.count = 0
        · rw [if_pos hempty]
          have hq := dequeue_fail_unchanged th 0 q x ((dequeue_fail_iff th q x).2 hempty)
          rw [hq.1]
          simpa using ih q hrest
        · rw [if_neg hempty, dequeue_success th q x hempty]
          obtain ⟨hnd₁, hall₁⟩ :=
            dequeueWarningsLoop_spec th q.count q.capacity q.level 0 q.level
          obtain ⟨hnd₂, hall₂⟩ := ih
            { q with
              level := dequeueLevel th q.count q.capacity q.level
              head := (q.head + 1) % q.capacity
              count := q.count - 1 } hrest
          simp only at hall₂
          refine ⟨List.Nodup.append (hnd₁.map (fun a b h => by injection h)) hnd₂ ?_, ?_⟩
          · intro w hw₁ hw₂
            obtain ⟨k, hk, rfl⟩ := List.mem_map.1 hw₁
            obtain ⟨i, hi, hle⟩ := hall₂ _ hw₂
            injection hi with hi
            subst hi
            have := (hall₁ k hk).2
            omega
          · intro w hw
            rcases List.mem_append.1 hw with h | h
            · obtain ⟨k, hk, rfl⟩ := List.mem_map.1 h
              exact ⟨k, rfl, by have := (hall₁ k hk).2; omega⟩
            · obtain ⟨i, hi, hle⟩ := hall₂ _ h
              exact ⟨i, hi, by omega⟩
    | enqueue e x => simp [QueueOp.isDequeue] at hop
    | count e => simp [QueueOp.isDequeue] at hop
    | clear e => simp [QueueOp.isDequeue] at hop

/-- C20 (threshold monotonicity): on any queue, in particular a freshly
created one of any capacity of at least one, any run of consecutive
`queue_enqueue` calls, such as the fill from count 0 to the capacity, logs the
warning "exceeds" at most once for each threshold index `i`; and any run of
consecutive `queue_dequeue` calls, such as the drain down to empty, logs the
warning "falls below" at most once for each threshold index `i`.  This holds
for every value of the thresholds. -/
theorem threshold_warnings_once {α : Type} (th : CapThresholds) (q : Queue α)
    (fill : List (QueueOp α)) (q₁ : Queue α) (drain : List (QueueOp α)) (i : Nat)
    (hfill : ∀ op ∈ fill, op.isEnqueue = true)
    (hdrain : ∀ op ∈ drain, op.isDequeue = true) :
    (queueWarnings th q fill).count (.exceeds i) ≤ 1 ∧
    (queueWarnings th q fill).count (.fallsBelow i) = 0 ∧
    (queueWarnings th q₁ drain).count (.fallsBelow i) ≤ 1 ∧
    (queueWarnings th q₁ drain).count (.exceeds i) = 0 := by
  obtain ⟨hnd₁, hall₁⟩ := fill_warnings th fill q hfill
  obtain ⟨hnd₂, hall₂⟩ := drain_warnings th drain q₁ hdrain
  refine ⟨List.nodup_iff_count_le_one.1 hnd₁ _, ?_, List.nodup_iff_count_le_one.1 hnd₂ _, ?_⟩
  · rw [List.count_eq_zero]
    intro hmem
    obtain ⟨k, hk, -⟩ := hall₁ _ hmem
    cases hk
  · rw [List.count_eq_zero]
    intro hmem
    obtain ⟨k, hk, -⟩ := hall₂ _ hmem
    cases hk

/-- Witness for C20: a fresh queue of capacity four is filled by four enqueues,
which log "exceeds" for the thresholds 0 to 3 once each, and the full queue is
drained by four dequeues, which log "falls below" for the thresholds 3 and 2
once each. -/
theorem threshold_warnings_once_witness :
    queueWarnings exactThresholds
        { buffer := fun _ => 0, count := 0, capacity := 4, itemSize := 8, head := 0, tail := 0,
          level := 0 }
        [.enqueue 0 5, .enqueue 0 6, .enqueue 0 7, .enqueue 0 8]
      = [.exceeds 0, .exceeds 1, .exceeds 2, .exceeds 3] ∧
    queueWarnings exactThresholds
        (queueRun exactThresholds
          { buffer := fun _ => 0, count := 0, capacity := 4, itemSize := 8, head := 0,
            tail := 0, level := 0 }
          [.enqueue 0 5, .enqueue 0 6, .enqueue 0 7, .enqueue 0 8]).1
        [.dequeue 0 0, .dequeue 0 0, .dequeue 0 0, .dequeue 0 0]
      = [.fallsBelow 3, .fallsBelow 2] ∧
    (queueWarnings exactThresholds
        { buffer := fun _ => 0, count := 0, capacity := 4, itemSize := 8, head := 0, tail := 0,
          level := 0 }
        [.enqueue 0 5, .enqueue 0 6, .enqueue 0 7, .enqueue 0 8]).count (.exceeds 2) ≤ 1 :=
  ⟨by decide, by decide,
    (threshold_warnings_once exactThresholds _
      [.enqueue 0 5, .enqueue 0 6, .enqueue 0 7, .enqueue 0 8]
      (queueRun exactThresholds
          { buffer := fun _ => (0 : Nat), count := 0, capacity := 4, itemSize := 8, head := 0,
            tail := 0, level := 0 }
          [.enqueue 0 5, .enqueue 0 6, .enqueue 0 7, .enqueue 0 8]).1
      [.dequeue 0 0, .dequeue 0 0, .dequeue 0 0, .dequeue 0 0] 2 (by decide) (by decide)).1⟩

/-! ### Pipe sampler: the properties of the specification -/

theorem lookupByPrefix_setValue (args : List Argument) :
    ∀ (k : Nat) (v p : String), lookupByPrefix (setValue args k v) p = lookupByPrefix args p := by
  induction args with
  | nil => intro k v p; rfl
  | cons a rest ih =>
    intro k v p
    cases k with
    | zero => simp [setValue, lookupByPrefix]
    | succ k => simp [setValue, lookupByPrefix, ih]

theorem typeAt_setValue (args : List Argument) :
    ∀ (k : Nat) (v : String) (j : Nat), typeAt (setValue args k v) j = typeAt args j := by
  induction args with
  | nil => intro k v j; rfl
  | cons a rest ih =>
    intro k v j
    cases k with
    | zero => cases j <;> simp [setValue, typeAt]
    | succ k =>
      cases j with
      | zero => simp [setValue, typeAt]
      | succ j =>
        have := ih k v j
        simpa [setValue, typeAt] using this

theorem length_setValue (args : List Argument) :
    ∀ (k : Nat) (v : String), (setValue args k v).length = args.length := by
  induction args with
  | nil => intro k v; rfl
  | cons a rest ih =>
    intro k v
    cases k with
    | zero => simp [setValue]
    | succ k => simp [setValue, ih]

theorem admissible_setValue (args : List Argument) (k : Nat) (v : String) (it : CliItem) :
    it.admissible (setValue args k v) = it.admissible args := by
  cases it <;> simp only [CliItem.admissible, lookupByPrefix_setValue, typeAt_setValue]

theorem admissible_applyItem (args : List Argument) (it₀ it : CliItem) :
    it.admissible (applyItem args it₀) = it.admissible args := by
  unfold applyItem
  cases lookupByPrefix args it₀.pfx with
  | none => rfl
  | some k => exact admissible_setValue args k _ it

theorem parseArgv_item (args : List Argument) (ok : Int) (ord : Nat) (it : CliItem)
    (ws : List String) (h : it.admissible args = true) :
    parseArgv (it.words ++ ws) (args, ok, ord) = parseArgv ws (applyItem args it, ok, ord) := by
  cases it with
  | flag p =>
    simp only [CliItem.admissible] at h
    cases hl : lookupByPrefix args p with
    | none => simp [hl] at h
    | some k =>
      simp only [hl, decide_eq_true_eq] at h
      cases ws with
      | nil => simp [CliItem.words, parseArgv, applyItem, CliItem.pfx, CliItem.given, hl, h]
      | cons v r => simp [CliItem.words, parseArgv, applyItem, CliItem.pfx, CliItem.given, hl, h]
  | option p v =>
    simp only [CliItem.admissible] at h
    cases hl : lookupByPrefix args p with
    | none => simp [hl] at h
    | some k =>
      simp only [hl, Bool.and_eq_true, Bool.or_eq_true, decide_eq_true_eq,
        Option.isNone_iff_eq_none] at h
      obtain ⟨⟨h1, h2⟩, -⟩ := h
      simp [CliItem.words, parseArgv, applyItem, CliItem.pfx, CliItem.given, hl, h1, h2]

theorem parseArgv_items (items : List CliItem) :
    ∀ (args : List Argument) (ok : Int) (ord : Nat),
      (∀ it ∈ items, it.admissible args = true) →
      parseArgv (items.flatMap CliItem.words) (args, ok, ord) =
        (items.foldl applyItem args, ok, ord) := by
  induction items with
  | nil => intro args ok ord _; rfl
  | cons it rest ih =>
    intro args ok ord h
    rw [List.flatMap_cons, parseArgv_item args ok ord it _ (h it (List.mem_cons_self _ _)),
      List.foldl_cons]
    apply ih
    intro it' hit'
    rw [admissible_applyItem]
    exact h it' (List.mem_cons_of_mem _ hit')

theorem validateArgs_valid (args : List Argument) (ok : Int)
    (h : args.all validEntry = true) : validateArgs args ok = ok := by
  induction args with
  | nil => rfl
  | cons e rest ih =>
    simp only [List.all_cons, Bool.and_eq_true] at h
    obtain ⟨he, hrest⟩ := h
    simp only [validEntry, Bool.and_eq_true, decide_eq_true_eq] at he
    obtain ⟨⟨h1, h2⟩, -⟩ := he
    simp only [validateArgs]
    rw [if_neg (fun hc => h1 hc.2), if_neg (by simp [h2])]
    exact ih hrest

theorem valid_setValue (args : List Argument) :
    ∀ (k : Nat) (v : String), args.all validEntry = true →
      (clearOptional (typeAt args k) = ARG_INT → strtolConverts v = true) →
      (setValue args k v).all validEntry = true := by
  induction args with
  | nil => intro k v _ _; rfl
  | cons e rest ih =>
    intro k v h hv
    simp only [List.all_cons, Bool.and_eq_true] at h
    obtain ⟨he, hrest⟩ := h
    cases k with
    | zero =>
      simp only [setValue, List.all_cons, Bool.and_eq_true]
      refine ⟨?_, hrest⟩
      simp only [typeAt, List.get?_cons_zero] at hv
      simp only [validEntry, Bool.and_eq_true, decide_eq_true_eq] at he ⊢
      obtain ⟨⟨h1, -⟩, h3⟩ := he
      refine ⟨⟨h1, ?_⟩, h3⟩
      simp only [isValid]
      have h3' : clearOptional e.type ≤ 2 := h3
      by_cases c0 : clearOptional e.type = ARG_STRING
      · rw [if_pos c0]
      · rw [if_neg c0]
        by_cases c2 : clearOptional e.type = ARG_INT
        · rw [if_pos c2]
          exact hv c2
        · rw [if_neg c2]
          have c2' : ¬ clearOptional e.type = 2 := c2
          have c0' : ¬ clearOptional e.type = 0 := c0
          have c1 : clearOptional e.type = ARG_FLAG := by
            show clearOptional e.type = 1
            omega
          have c3 : ¬ clearOptional e.type = ARG_FLOAT := by
            show ¬ clearOptional e.type = 3
            omega
          rw [if_neg c3, if_pos c1]
    | succ k =>
      simp only [setValue, List.all_cons, Bool.and_eq_true]
      refine ⟨he, ih k v hrest ?_⟩
      simpa [typeAt] using hv

theorem valid_applyItem (args : List Argument) (it : CliItem)
    (h : args.all validEntry = true) (hit : it.admissible args = true) :
    (applyItem args it).all validEntry = true := by
  unfold applyItem
  cases it with
  | flag p =>
    simp only [CliItem.admissible, CliItem.pfx, CliItem.given] at hit ⊢
    cases hl : lookupByPrefix args p with
    | none => exact h
    | some k =>
      simp only [hl, decide_eq_true_eq] at hit
      apply valid_setValue args k p h
      intro hint
      rw [hit] at hint
      exact absurd hint (by decide)
  | option p v =>
    simp only [CliItem.admissible, CliItem.pfx, CliItem.given] at hit ⊢
    cases hl : lookupByPrefix args p with
    | none => exact h
    | some k =>
      simp only [hl, Bool.and_eq_true, Bool.or_eq_true, decide_eq_true_eq] at hit
      apply valid_setValue args k v h
      intro hint
      rcases hit.2 with h3 | h3
      · exact absurd hint h3
      · exact h3

theorem valid_foldl_applyItem (items : List CliItem) :
    ∀ args : List Argument, args.all validEntry = true →
      (∀ it ∈ items, it.admissible args = true) →
      (items.foldl applyItem args).all validEntry = true := by
  induction items with
  | nil => intro args h _; exact h
  | cons it rest ih =>
    intro args h hall
    rw [List.foldl_cons]
    apply ih _ (valid_applyItem args it h (hall it (List.mem_cons_self _ _)))
    intro it' hit'
    rw [admissible_applyItem]
    exact hall it' (List.mem_cons_of_mem _ hit')

theorem lookupByPrefix_get (args : List Argument) :
    ∀ (q : String) (j : Nat), lookupByPrefix args q = some j →
      ∃ e, args.get? j = some e ∧ e.pfx = some q := by
  induction args with
  | nil => intro q j h; simp [lookupByPrefix] at h
  | cons a rest ih =>
    intro q j h
    simp only [lookupByPrefix] at h
    by_cases ha : a.pfx = some q
    · rw [if_pos ha] at h
      injection h with h
      subst h
      exact ⟨a, rfl, ha⟩
    · rw [if_neg ha] at h
      cases hl : lookupByPrefix rest q with
      | none => simp [hl] at h
      | some k =>
        simp only [hl, Option.map_some', Option.some.injEq] at h
        subst h
        obtain ⟨e, he, hp⟩ := ih q k hl
        exact ⟨e, by simpa using he, hp⟩

theorem lookupByPrefix_of_get (args : List Argument) :
    ∀ (q : String) (j : Nat) (e : Argument), (args.map (fun a => a.pfx)).Nodup →
      args.get? j = some e → e.pfx = some q → lookupByPrefix args q = some j := by
  induction args with
  | nil => intro q j e _ h; simp at h
  | cons a rest ih =>
    intro q j e hnd hget hp
    simp only [List.map_cons, List.nodup_cons] at hnd
    cases j with
    | zero =>
      simp only [List.get?_cons_zero, Option.some.injEq] at hget
      subst hget
      simp [lookupByPrefix, hp]
    | succ j =>
      simp only [List.get?_cons_succ] at hget
      have hne : a.pfx ≠ some q := by
        intro hc
        apply hnd.1
        rw [hc, ← hp]
        exact List.mem_map.2 ⟨e, List.get?_mem hget, rfl⟩
      simp only [lookupByPrefix]
      rw [if_neg hne, ih q j e hnd.2 hget hp]
      rfl

theorem get_setValue (args : List Argument) :
    ∀ (k : Nat) (v : String) (j : Nat),
      (setValue args k v).get? j =
        if j = k then (args.get? j).map (fun e => { e with value := some v })
        else args.get? j := by
  induction args with
  | nil => intro k v j; simp [setValue]
  | cons a rest ih =>
    intro k v j
    cases k with
    | zero =>
      cases j with
      | zero => simp [setValue]
      | succ j => simp [setValue]
    | succ k =>
      cases j with
      | zero => simp [setValue]
      | succ j => simpa [setValue] using ih k v j

theorem map_pfx_setValue (args : List Argument) :
    ∀ (k : Nat) (v : String),
      (setValue args k v).map (fun a => a.pfx) = args.map (fun a => a.pfx) := by
  induction args with
  | nil => intro k v; rfl
  | cons a rest ih =>
    intro k v
    cases k with
    | zero => simp [setValue]
    | succ k => simp [setValue, ih]

theorem map_name_setValue (args : List Argument) :
    ∀ (k : Nat) (v : String),
      (setValue args k v).map (fun a => a.name) = args.map (fun a => a.name) := by
  induction args with
  | nil => intro k v; rfl
  | cons a rest ih =>
    intro k v
    cases k with
    | zero => simp [setValue]
    | succ k => simp [setValue, ih]

theorem map_pfx_applyItem (args : List Argument) (it : CliItem) :
    (applyItem args it).map (fun a => a.pfx) = args.map (fun a => a.pfx) := by
  unfold applyItem
  cases lookupByPrefix args it.pfx with
  | none => rfl
  | some k => exact map_pfx_setValue args k _

theorem map_name_applyItem (args : List Argument) (it : CliItem) :
    (applyItem args it).map (fun a => a.name) = args.map (fun a => a.name) := by
  unfold applyItem
  cases lookupByPrefix args it.pfx with
  | none => rfl
  | some k => exact map_name_setValue args k _

theorem map_name_foldl_applyItem (items : List CliItem) :
    ∀ args : List Argument,
      (items.foldl applyItem args).map (fun a => a.name) = args.map (fun a => a.name) := by
  induction items with
  | nil => intro args; rfl
  | cons it rest ih => intro args; rw [List.foldl_cons, ih, map_name_applyItem]

theorem admissible_lookup (args : List Argument) (it : CliItem)
    (h : it.admissible args = true) : ∃ k, lookupByPrefix args it.pfx = some k := by
  cases it with
  | flag p =>
    simp only [CliItem.admissible] at h
    cases hl : lookupByPrefix args p with
    | none => simp [hl] at h
    | some k => exact ⟨k, hl⟩
  | option p v =>
    simp only [CliItem.admissible] at h
    cases hl : lookupByPrefix args p with
    | none => simp [hl] at h
    | some k => exact ⟨k, hl⟩

theorem get_applyItem (args : List Argument) (it : CliItem) (j : Nat) (e : Argument)
    (q : String) (hnd : (args.map (fun a => a.pfx)).Nodup)
    (hit : it.admissible args = true) (hget : args.get? j = some e) (hp : e.pfx = some q) :
    (applyItem args it).get? j =
      some (if it.pfx = q then { e with value := some it.given } else e) := by
  obtain ⟨k, hk⟩ := admissible_lookup args it hit
  simp only [applyItem, hk, get_setValue]
  by_cases hq : it.pfx = q
  · have := lookupByPrefix_of_get args q j e hnd hget hp
    rw [hq] at hk
    rw [hk] at this
    injection this with this
    subst this
    rw [if_pos rfl, hget, Option.map_some', if_pos hq]
  · have hjk : j ≠ k := by
      intro hc
      subst hc
      obtain ⟨e', he', hp'⟩ := lookupByPrefix_get args it.pfx j hk
      rw [hget] at he'
      injection he' with he'
      subst he'
      rw [hp] at hp'
      injection hp' with hp'
      exact hq hp'.symm
    rw [if_neg hjk, hget, if_neg hq]

theorem valueAt_foldl_applyItem (items : List CliItem) :
    ∀ (args : List Argument) (j : Nat) (e : Argument) (q : String),
      (args.map (fun a => a.pfx)).Nodup →
      (∀ it ∈ items, it.admissible args = true) →
      args.get? j = some e → e.pfx = some q →
      valueAt (items.foldl applyItem args) j =
        match lastGiven q items with
        | some v => some v
        | none => e.value := by
  induction items with
  | nil =>
    intro args j e q _ _ hget _
    simp only [List.foldl_nil, valueAt, hget, lastGiven]
  | cons it rest ih =>
    intro args j e q hnd hall hget hp
    have hit := hall it (List.mem_cons_self _ _)
    have hget' := get_applyItem args it j e q hnd hit hget hp
    have hnd' : ((applyItem args it).map (fun a => a.pfx)).Nodup := by
      rw [map_pfx_applyItem]
      exact hnd
    have hall' : ∀ it' ∈ rest, it'.admissible (applyItem args it) = true := by
      intro it' hit'
      rw [admissible_applyItem]
      exact hall it' (List.mem_cons_of_mem _ hit')
    rw [List.foldl_cons]
    rw [ih (applyItem args it) j _ q hnd' hall' hget' (by split_ifs <;> exact hp)]
    simp only [lastGiven]
    cases lastGiven q rest with
    | some v => rfl
    | none =>
      by_cases hq : it.pfx = q
      · simp [hq]
      · simp [hq]

theorem args_value_of_get (args : List Argument) :
    ∀ (j : Nat) (e : Argument), (args.map (fun a => a.name)).Nodup →
      args.get? j = some e → args_value args e.name = e.value := by
  induction args with
  | nil => intro j e _ h; simp at h
  | cons a rest ih =>
    intro j e hnd hget
    simp only [List.map_cons, List.nodup_cons] at hnd
    cases j with
    | zero =>
      simp only [List.get?_cons_zero, Option.some.injEq] at hget
      subst hget
      simp [args_value]
    | succ j =>
      simp only [List.get?_cons_succ] at hget
      have hne : a.name ≠ e.name := by
        intro hc
        apply hnd.1
        rw [hc]
        exact List.mem_map.2 ⟨e, List.get?_mem hget, rfl⟩
      simp only [args_value]
      rw [if_neg hne]
      exact ih j e hnd.2 hget

theorem args_parse_samples :
    (args_parse smloggerArgs ["smlogger"]) = (1, smloggerArgs) ∧
    (args_parse smloggerArgs ["smlogger", "-c", "5", "-o", "-c", "-7", "-u", "http://test/"]).1
      = 1 ∧
    args_value (args_parse smloggerArgs
        ["smlogger", "-c", "5", "-o", "-c", "-7", "-u", "http://test/"]).2 "count"
      = some "-7" ∧
    (args_parse smloggerArgs ["smlogger", "-c"]).1 = 0 ∧
    (args_parse smloggerArgs ["smlogger", "-c", "x"]).1 = 0 ∧
    (args_parse smloggerArgs ["smlogger", "stray"]).1 = 0 := by
  decide

theorem smloggerArgs_wellformed :
    (smloggerArgs.map (fun a => a.pfx)).Nodup ∧ (smloggerArgs.map (fun a => a.name)).Nodup ∧
      smloggerArgs.all validEntry = true := by
  refine ⟨by decide, by decide, by decide⟩

/-- C18 (command line parsing and defaults): for every argument vector that
consists, after the program name, only of known flag prefixes and of pairs of a
prefix of a valued option and a value (no value being itself a known prefix,
and the values of the int options being numeric), `args_parse` on the table
of `smlogger` returns 1, and `args_value` returns for each option that was
given the value of its last occurrence (for a flag, the prefix itself) and for
each option that was not given its default: `-1` for count, `1000` for interval,
`7259` for port, `1` for upload_threads, `36000` for buffer_size, `1` for verbose,
and no value for onboard, address, url, token, smart, help and quiet.  With no
arguments the table is left as it is. -/
theorem args_parse_smlogger (prog : String) (items : List CliItem)
    (h : ∀ it ∈ items, it.admissible smloggerArgs = true) :
    (args_parse smloggerArgs (prog :: items.flatMap CliItem.words)).1 = 1 ∧
    (∀ e ∈ smloggerArgs, ∀ q, e.pfx = some q →
      args_value (args_parse smloggerArgs (prog :: items.flatMap CliItem.words)).2 e.name =
        match lastGiven q items with
        | some v => some v
        | none => e.value) ∧
    smloggerArgs.map (fun e => (e.name, e.pfx, e.value)) =
      [("count", some "-c", some "-1"), ("interval", some "-i", some "1000"),
       ("onboard", some "-o", none), ("address", some "-a", none),
       ("port", some "-p", some "7259"), ("url", some "-u", none), ("token", some "-t", none),
       ("upload_threads", some "-n", some "1"), ("buffer_size", some "-b", some "36000"),
       ("smart", some "-s", none), ("help", some "-h", none), ("verbose", some "-v", some "1"),
       ("quiet", some "-q", none)] ∧
    args_parse smloggerArgs [prog] = (1, smloggerArgs) := by
  obtain ⟨hpfx, hname, hvalid⟩ := smloggerArgs_wellformed
  have hparse : parseArgv (items.flatMap CliItem.words) (smloggerArgs, 1, 0) =
      (items.foldl applyItem smloggerArgs, 1, 0) := parseArgv_items items smloggerArgs 1 0 h
  have hres : args_parse smloggerArgs (prog :: items.flatMap CliItem.words) =
      (1, items.foldl applyItem smloggerArgs) := by
    simp only [args_parse, List.drop_succ_cons, List.drop_zero, hparse]
    rw [validateArgs_valid _ 1 (valid_foldl_applyItem items smloggerArgs hvalid h)]
  refine ⟨by rw [hres], ?_, by decide, ?_⟩
  · intro e he q hq
    rw [hres]
    obtain ⟨j, hj⟩ := List.get?_of_mem he
    have hval := valueAt_foldl_applyItem items smloggerArgs j e q hpfx h hj hq
    have hnames := map_name_foldl_applyItem items smloggerArgs
    have hget : ((items.foldl applyItem smloggerArgs).map (fun a => a.name)).get? j
        = some e.name := by
      rw [hnames, List.get?_map, hj]
      rfl
    rw [List.get?_map] at hget
    cases hr : (items.foldl applyItem smloggerArgs).get? j with
    | none =>
      rw [hr] at hget
      simp at hget
    | some e' =>
      rw [hr] at hget
      simp only [Option.map_some', Option.some.injEq] at hget
      have hv := args_value_of_get (items.foldl applyItem smloggerArgs) j e'
        (by rw [hnames]; exact hname) hr
      rw [hget] at hv
      rw [hv, ← hval]
      simp only [valueAt, hr]
  · simp only [args_parse, List.drop_succ_cons, List.drop_zero, List.drop_nil, parseArgv]
    rw [validateArgs_valid _ 1 hvalid]

/-- Witness for C18: the arguments `-c 5 -o -c -7 -u http://test/`. -/
theorem args_parse_smlogger_witness :
    (args_parse smloggerArgs
        ("smlogger" :: [CliItem.option "-c" "5", .flag "-o", .option "-c" "-7",
          .option "-u" "http://test/"].flatMap CliItem.words)).1 = 1 ∧
    (args_parse smloggerArgs
        ["smlogger", "-c", "5", "-o", "-c", "-7", "-u", "http://test/"]).2.map
          (fun e => (e.name, e.value)) =
      [("count", some "-7"), ("interval", some "1000"), ("onboard", some "-o"),
       ("address", none), ("port", some "7259"), ("url", some "http://test/"),
       ("token", none), ("upload_threads", some "1"), ("buffer_size", some "36000"),
       ("smart", none), ("help", none), ("verbose", some "1"), ("quiet", none)] :=
  ⟨(args_parse_smlogger "smlogger" _ (by decide)).1, by decide⟩

/-! ### String builder: auxiliary facts -/

theorem wf_iff (sb : StringBuilder) :
    sb.WF ↔
      (match sb.str with
       | none => sb.len = 0 ∧ sb.capacity = 0
       | some buf => buf.length = sb.capacity ∧ sb.len < sb.capacity) := by
  obtain ⟨str, len, cap⟩ := sb
  cases str <;> simp [StringBuilder.WF]

theorem growCapacity_ge (fuel : Nat) :
    ∀ newCapacity minCapacity, minCapacity ≤ newCapacity + fuel →
      minCapacity ≤ growCapacity fuel newCapacity minCapacity := by
  induction fuel with
  | zero => intro n m h; simpa [growCapacity] using h
  | succ k ih =>
    intro n m h
    simp only [growCapacity]
    by_cases hlt : n < m
    · rw [if_pos hlt]
      apply ih
      have h32 : INITIAL_CAPACITY = 32 := rfl
      split_ifs <;> omega
    · rw [if_neg hlt]
      omega

theorem reallocBuffer_length (junk : Nat → Char) (buf : List Char) (n : Nat) :
    (reallocBuffer junk (some buf) n).length = n := by
  simp only [reallocBuffer, List.length_append, List.length_take, List.length_map,
    List.length_range']
  omega

theorem reallocBuffer_take (junk : Nat → Char) (buf : List Char) (n k : Nat)
    (hk : k ≤ n) (hb : k ≤ buf.length) :
    (reallocBuffer junk (some buf) n).take k = buf.take k := by
  simp only [reallocBuffer]
  rw [List.take_append_of_le_length (by rw [List.length_take]; omega), List.take_take]
  congr 1
  omega

theorem text_length (sb : StringBuilder) (hwf : sb.WF) : sb.text.length = sb.len := by
  cases hs : sb.str with
  | none =>
    have hw : sb.len = 0 ∧ sb.capacity = 0 := by simpa [wf_iff, hs] using hwf
    simp [StringBuilder.text, hs, hw.1]
  | some buf =>
    have hw : buf.length = sb.capacity ∧ sb.len < sb.capacity := by
      simpa [wf_iff, hs] using hwf
    simp only [StringBuilder.text, hs, List.length_take]
    omega

theorem growBuffer_cases (realloc : Bool) (junk : Nat → Char) (sb : StringBuilder)
    (minCapacity : Nat) (hwf : sb.WF) (hmin : sb.len < minCapacity) :
    (growBuffer realloc junk sb minCapacity = none ∧ realloc = false) ∨
    ∃ sb₁ buf₁, growBuffer realloc junk sb minCapacity = some sb₁ ∧ sb₁.str = some buf₁ ∧
      buf₁.length = sb₁.capacity ∧ minCapacity ≤ sb₁.capacity ∧ sb₁.len = sb.len ∧
      buf₁.take sb₁.len = sb.text := by
  unfold growBuffer
  by_cases hc : sb.capacity < minCapacity
  · rw [if_pos hc]
    cases realloc with
    | false => left; exact ⟨rfl, rfl⟩
    | true =>
      right
      simp only [if_true]
      have hg := growCapacity_ge minCapacity sb.capacity minCapacity (by omega)
      cases hs : sb.str with
      | none =>
        have hw : sb.len = 0 ∧ sb.capacity = 0 := by
          simpa [wf_iff, hs] using hwf
        refine ⟨_, _, rfl, rfl, ?_, hg, rfl, ?_⟩
        · simp [reallocBuffer]
        · simp [hw.1, StringBuilder.text, hs]
      | some buf =>
        have hw : buf.length = sb.capacity ∧ sb.len < sb.capacity := by
          simpa [wf_iff, hs] using hwf
        refine ⟨_, _, rfl, rfl, reallocBuffer_length junk buf _, hg, rfl, ?_⟩
        simp only
        rw [reallocBuffer_take junk buf _ _ (by omega) (by omega)]
        simp [StringBuilder.text, hs]
  · rw [if_neg hc]
    right
    cases hs : sb.str with
    | none =>
      have hw : sb.len = 0 ∧ sb.capacity = 0 := by
        simpa [wf_iff, hs] using hwf
      omega
    | some buf =>
      have hw : buf.length = sb.capacity ∧ sb.len < sb.capacity := by
        simpa [wf_iff, hs] using hwf
      refine ⟨sb, buf, rfl, hs, hw.1, by omega, rfl, ?_⟩
      simp [StringBuilder.text, hs]

theorem vsnprintfAt_length (buf : List Char) (len size : Nat) (text : List Char)
    (h : len + size ≤ buf.length) : (vsnprintfAt buf len size text).length = buf.length := by
  unfold vsnprintfAt
  by_cases hs : size = 0
  · rw [if_pos hs]
  · rw [if_neg hs]
    simp only [List.length_append, List.length_take, List.length_drop, List.length_singleton]
    omega

theorem vsnprintfAt_take (buf : List Char) (len size : Nat) (text : List Char)
    (h : len + size ≤ buf.length) : (vsnprintfAt buf len size text).take len = buf.take len := by
  unfold vsnprintfAt
  by_cases hs : size = 0
  · rw [if_pos hs]
  · rw [if_neg hs, List.append_assoc, List.take_append_of_le_length
      (by rw [List.length_take]; omega), List.take_take]
    congr 1
    omega

theorem vsnprintfAt_fits (buf : List Char) (len size : Nat) (text : List Char)
    (h : len + size ≤ buf.length) (hfit : text.length < size) :
    (vsnprintfAt buf len size text).take (len + text.length + 1) =
      buf.take len ++ text ++ [NUL] := by
  unfold vsnprintfAt
  rw [if_neg (by omega)]
  have ht : text.take (size - 1) = text := List.take_of_length_le (by omega)
  rw [ht, ← List.append_assoc]
  rw [List.take_append_of_le_length (by
    simp only [List.length_append, List.length_take, List.length_singleton]; omega)]
  apply List.take_of_length_le
  simp only [List.length_append, List.length_take, List.length_singleton]
  omega

theorem printf_done (sb : StringBuilder) (text : List Char) (str₁ : Option (List Char))
    (cap₁ : Nat) (buf₁ : List Char) (hs : str₁ = some buf₁) (hl : buf₁.length = cap₁)
    (htake : buf₁.take sb.len = sb.text) (hwf : sb.WF) (hfit : text.length < cap₁ - sb.len) :
    sb.appended
      { str := str₁.map (fun buf => vsnprintfAt buf sb.len (cap₁ - sb.len) text)
        len := sb.len + text.length
        capacity := cap₁ } text := by
  subst hs
  have hb : sb.len + (cap₁ - sb.len) ≤ buf₁.length := by omega
  have hfits := vsnprintfAt_fits buf₁ sb.len (cap₁ - sb.len) text hb hfit
  have hlen' := vsnprintfAt_length buf₁ sb.len (cap₁ - sb.len) text hb
  rw [htake] at hfits
  have hl2 : (sb.text ++ text).length = sb.len + text.length := by
    rw [List.length_append, text_length sb hwf]
  have htext : (vsnprintfAt buf₁ sb.len (cap₁ - sb.len) text).take
      (sb.len + text.length) = sb.text ++ text := by
    have := congrArg (List.take (sb.len + text.length)) hfits
    rw [List.take_take, Nat.min_eq_left (by omega)] at this
    rw [this, List.take_append_of_le_length (by omega)]
    exact List.take_of_length_le (by omega)
  have hget : (vsnprintfAt buf₁ sb.len (cap₁ - sb.len) text).get?
      (sb.len + text.length) = some NUL := by
    have h1 : ((vsnprintfAt buf₁ sb.len (cap₁ - sb.len) text).take
        (sb.len + text.length + 1))[sb.len + text.length]? = some NUL := by
      rw [hfits, List.getElem?_append_right (by omega), hl2]
      simp
    rw [List.getElem?_take] at h1
    rw [List.get?_eq_getElem?]
    simpa using h1
  refine ⟨?_, ?_, rfl, ?_, ?_, ?_⟩
  · simp only [wf_iff, Option.map_some']
    exact ⟨by rw [hlen', hl], by omega⟩
  · simp [StringBuilder.allocated]
  · simp only [StringBuilder.text, Option.map_some']
    exact htext
  · simp only [StringBuilder.terminated, Option.map_some', beq_iff_eq]
    exact hget
  · simp only [strbuilder_copy, Option.map_some', Bool.not_true,
      Bool.false_eq_true, if_false]
    rw [hfits]

/-- What a call of `strbuilder_printf` does to a well-shaped builder: either
an allocation fails, the call returns -1 and the string under construction is
as before, or the call returns the length of the text, which is appended and
terminated.  With allocations that succeed it is the latter. -/
theorem strbuilder_printf_cases (realloc : Bool) (junk : Nat → Char) (sb : StringBuilder)
    (format text : List Char) (hwf : sb.WF) :
    ((strbuilder_printf realloc junk sb format text).2 = -1 ∧ realloc = false ∧
      sb.kept (strbuilder_printf realloc junk sb format text).1) ∨
    ((strbuilder_printf realloc junk sb format text).2 = text.length ∧
      sb.appended (strbuilder_printf realloc junk sb format text).1 text) := by
  rcases growBuffer_cases realloc junk sb (sb.len + format.length + 1) hwf (by omega)
    with hn | ⟨sb₁, buf₁, hg₁, hs₁, hl₁, hmin₁, hlen₁, htake₁⟩
  · left
    have hr : strbuilder_printf realloc junk sb format text = (sb, -1) := by
      simp only [strbuilder_printf, printfLoop, hn.1]
    rw [hr]
    exact ⟨rfl, hn.2, hwf, rfl, rfl⟩
  · obtain ⟨str₁, len₁, cap₁⟩ := sb₁
    simp only at hs₁ hl₁ hmin₁ hlen₁ htake₁
    subst hlen₁
    by_cases hfit : text.length < cap₁ - sb.len
    · right
      have hr : strbuilder_printf realloc junk sb format text =
          ({ str := str₁.map (fun buf => vsnprintfAt buf sb.len (cap₁ - sb.len) text)
             len := sb.len + text.length
             capacity := cap₁ }, (text.length : Int)) := by
        simp only [strbuilder_printf, printfLoop, hg₁]
        rw [if_pos hfit]
      rw [hr]
      exact ⟨rfl, printf_done sb text str₁ cap₁ buf₁ hs₁ hl₁ htake₁ hwf hfit⟩
    · have hb : sb.len + (cap₁ - sb.len) ≤ buf₁.length := by omega
      have hwf₂ : StringBuilder.WF
          { str := str₁.map (fun buf => vsnprintfAt buf sb.len (cap₁ - sb.len) text)
            len := sb.len, capacity := cap₁ } := by
        simp only [wf_iff, hs₁, Option.map_some']
        exact ⟨by rw [vsnprintfAt_length _ _ _ _ hb, hl₁], by omega⟩
      have htext₂ : StringBuilder.text
          { str := str₁.map (fun buf => vsnprintfAt buf sb.len (cap₁ - sb.len) text)
            len := sb.len, capacity := cap₁ } = sb.text := by
        simp only [StringBuilder.text, hs₁, Option.map_some']
        rw [vsnprintfAt_take _ _ _ _ hb]
        exact htake₁
      rcases growBuffer_cases realloc junk _ (sb.len + text.length + 1) hwf₂
        (by simp only; omega) with hn₂ | ⟨sb₂, buf₂, hg₂, hs₂, hl₂, hmin₂, hlen₂, htake₂⟩
      · left
        have hr : strbuilder_printf realloc junk sb format text =
            ({ str := str₁.map (fun buf => vsnprintfAt buf sb.len (cap₁ - sb.len) text)
               len := sb.len, capacity := cap₁ }, -1) := by
          simp only [strbuilder_printf, printfLoop, hg₁]
          rw [if_neg hfit]
          simp only [hn₂.1]
        rw [hr]
        exact ⟨rfl, hn₂.2, hwf₂, rfl, htext₂⟩
      · right
        obtain ⟨str₂, len₂, cap₂⟩ := sb₂
        simp only at hs₂ hl₂ hmin₂ hlen₂ htake₂ hg₂
        subst hlen₂
        rw [htext₂] at htake₂
        have hfit₂ : text.length < cap₂ - sb.len := by omega
        have hr : strbuilder_printf realloc junk sb format text =
            ({ str := str₂.map (fun buf => vsnprintfAt buf sb.len (cap₂ - sb.len) text)
               len := sb.len + text.length
               capacity := cap₂ }, (text.length : Int)) := by
          simp only [strbuilder_printf, printfLoop, hg₁]
          rw [if_neg hfit]
          simp only [hg₂]
          rw [if_pos hfit₂]
        rw [hr]
        exact ⟨rfl, printf_done sb text str₂ cap₂ buf₂ hs₂ hl₂ htake₂ hwf hfit₂⟩

theorem strbuilder_printf_ok (junk : Nat → Char) (sb : StringBuilder)
    (format text : List Char) (hwf : sb.WF) :
    (strbuilder_printf true junk sb format text).2 = text.length ∧
    sb.appended (strbuilder_printf true junk sb format text).1 text := by
  rcases strbuilder_printf_cases true junk sb format text hwf with h | h
  · exact absurd h.2.1 (by simp)
  · exact h

theorem strbuilder_reset_wf (sb : StringBuilder) (hwf : sb.WF) :
    (strbuilder_reset sb).WF ∧ (strbuilder_reset sb).text = [] := by
  unfold strbuilder_reset
  cases hs : sb.str with
  | none =>
    have hw : sb.len = 0 ∧ sb.capacity = 0 := by simpa [wf_iff, hs] using hwf
    simp [wf_iff, StringBuilder.text, hs, hw.2]
  | some buf =>
    have hw : buf.length = sb.capacity ∧ sb.len < sb.capacity := by
      simpa [wf_iff, hs] using hwf
    simp only [wf_iff, StringBuilder.text, hs, List.take_zero, and_true]
    exact ⟨hw.1, by omega⟩

theorem strbuilder_pack_wf (realloc : Bool) (junk : Nat → Char) (sb : StringBuilder)
    (hwf : sb.WF) :
    (strbuilder_pack realloc junk sb).WF ∧ (strbuilder_pack realloc junk sb).text = sb.text ∧
    (sb.terminated = true → (strbuilder_pack realloc junk sb).terminated = true) := by
  unfold strbuilder_pack
  by_cases h0 : sb.len = 0
  · rw [if_pos h0]
    refine ⟨by simp [wf_iff, h0], ?_, fun _ => rfl⟩
    cases hs : sb.str <;> simp [StringBuilder.text, hs, h0]
  · rw [if_neg h0]
    cases realloc with
    | false =>
      rw [if_neg (by decide)]
      exact ⟨hwf, rfl, fun h => h⟩
    | true =>
      simp only [if_true]
      cases hs : sb.str with
      | none =>
        have hw : sb.len = 0 ∧ sb.capacity = 0 := by simpa [wf_iff, hs] using hwf
        exact absurd hw.1 h0
      | some buf =>
        have hw : buf.length = sb.capacity ∧ sb.len < sb.capacity := by
          simpa [wf_iff, hs] using hwf
        refine ⟨?_, ?_, ?_⟩
        · simp only [wf_iff]
          exact ⟨reallocBuffer_length junk buf _, by omega⟩
        · simp only [StringBuilder.text, hs]
          exact reallocBuffer_take junk buf (sb.len + 1) sb.len (by omega) (by omega)
        · intro ht
          simp only [StringBuilder.terminated, hs, beq_iff_eq, List.get?_eq_getElem?] at ht
          simp only [StringBuilder.terminated, beq_iff_eq, List.get?_eq_getElem?]
          have h1 : ((reallocBuffer junk (some buf) (sb.len + 1)).take (sb.len + 1))[sb.len]?
              = some NUL := by
            rw [reallocBuffer_take junk buf _ _ (Nat.le_refl _) (by omega), List.getElem?_take]
            simpa using ht
          rw [List.getElem?_take] at h1
          simpa using h1

theorem builderStep_wf (junk : Nat → Char) (sb : StringBuilder) (op : BuilderOp)
    (hwf : sb.WF) : (builderStep junk sb op).WF := by
  cases op with
  | printf realloc format text =>
    rcases strbuilder_printf_cases realloc junk sb format text hwf with h | h
    · exact h.2.2.1
    · exact h.2.1
  | reset => exact (strbuilder_reset_wf sb hwf).1
  | pack realloc => exact (strbuilder_pack_wf realloc junk sb hwf).1

theorem builder_current (junk : Nat → Char) (ops : List BuilderOp) :
    ∀ (sb : StringBuilder) (acc : List Char), sb.WF → sb.text = acc →
      (ops.foldl (builderStep junk) sb).WF ∧
      (ops.foldl (builderStep junk) sb).text = currentString junk ops acc sb := by
  induction ops with
  | nil => intro sb acc hwf ht; exact ⟨hwf, ht⟩
  | cons op rest ih =>
    intro sb acc hwf ht
    rw [List.foldl_cons]
    cases op with
    | printf realloc format text =>
      simp only [currentString]
      apply ih _ _ (builderStep_wf junk sb _ hwf)
      rcases strbuilder_printf_cases realloc junk sb format text hwf with h | h
      · simp only [builderStep]
        rw [if_pos h.1, h.2.2.2.2, ht]
      · have hne : ¬ (strbuilder_printf realloc junk sb format text).2 = -1 := by
          rw [h.1]
          omega
        simp only [builderStep]
        rw [if_neg hne, h.2.2.2.2.1, ht]
    | reset =>
      simp only [currentString]
      exact ih _ _ (strbuilder_reset_wf sb hwf).1 (strbuilder_reset_wf sb hwf).2
    | pack realloc =>
      simp only [currentString]
      apply ih _ _ (strbuilder_pack_wf realloc junk sb hwf).1
      rw [(strbuilder_pack_wf realloc junk sb hwf).2.1, ht]

theorem copy_terminated (malloc : Bool) (sb : StringBuilder)
    (ht : sb.terminated = true) :
    strbuilder_copy malloc sb = none ∨ strbuilder_copy malloc sb = some (sb.text ++ [NUL]) := by
  unfold strbuilder_copy
  cases hs : sb.str with
  | none => left; rfl
  | some buf =>
    cases malloc with
    | false => left; rfl
    | true =>
      right
      simp only [StringBuilder.terminated, hs, beq_iff_eq, List.get?_eq_getElem?] at ht
      simp only [Bool.not_true, Bool.false_eq_true, if_false, StringBuilder.text, hs,
        Option.some.injEq]
      rw [List.take_succ, ht]
      rfl

theorem printfAll_text (junk : Nat → Char) (calls : List (String × List Char)) :
    ∀ sb : StringBuilder, sb.WF →
      (printfAll true junk sb calls).WF ∧
      (printfAll true junk sb calls).text =
        sb.text ++ (calls.map (fun call => expandFormat call.1.toList call.2)).flatten ∧
      (calls ≠ [] → strbuilder_copy true (printfAll true junk sb calls) =
        some (sb.text ++ (calls.map (fun call => expandFormat call.1.toList call.2)).flatten
          ++ [NUL])) := by
  induction calls with
  | nil =>
    intro sb hwf
    exact ⟨hwf, by simp [printfAll], fun h => absurd rfl h⟩
  | cons call rest ih =>
    intro sb hwf
    obtain ⟨_, hwf₁, _, _, ht₁, _, hc₁⟩ := strbuilder_printf_ok junk sb call.1.toList
      (expandFormat call.1.toList call.2) hwf
    obtain ⟨iwf, iht, ihc⟩ := ih (strbuilder_printf true junk sb call.1.toList
      (expandFormat call.1.toList call.2)).1 hwf₁
    refine ⟨iwf, ?_, fun _ => ?_⟩
    · simp only [printfAll, iht, ht₁, List.map_cons, List.flatten_cons, List.append_assoc]
    · cases rest with
      | nil =>
        simp only [printfAll, hc₁, List.map_cons, List.map_nil, List.flatten_cons,
          List.flatten_nil, List.append_nil]
      | cons c r =>
        simp only [printfAll] at ihc ⊢
        rw [ihc (by simp), ht₁]
        simp only [List.map_cons, List.flatten_cons, List.append_assoc]

theorem payload_copy {V : Type} (fmt4 fmtU64 : V → List Char) (m_token : Option String)
    (m : SmartMeter_Data V) (junk : Nat → Char) (sb : StringBuilder) (h : sb.WF) :
    strbuilder_copy true
        (printfAll true junk (strbuilder_reset sb) (payloadCalls fmt4 fmtU64 m_token m)) =
      some (payloadText fmt4 fmtU64 m_token m ++ [NUL]) ∧
    (printfAll true junk (strbuilder_reset sb) (payloadCalls fmt4 fmtU64 m_token m)).WF := by
  obtain ⟨hwf, ht⟩ := strbuilder_reset_wf sb h
  obtain ⟨hw, _, hc⟩ := printfAll_text junk (payloadCalls fmt4 fmtU64 m_token m)
    (strbuilder_reset sb) hwf
  have hne : payloadCalls fmt4 fmtU64 m_token m ≠ [] := by simp [payloadCalls]
  have h1 := hc hne
  rw [ht, List.nil_append] at h1
  exact ⟨h1, hw⟩

/-! ### Measurement processing: auxiliary facts -/

theorem threadproc_stopped {V : Type} (fmt4 fmtU64 : V → List Char) (th : CapThresholds)
    (cfg : SmloggerConfig) (ticks : List (Tick V)) (s : Smlogger) (interval : Int)
    (h : s.m_handle = some ⟨interval, false⟩) :
    threadproc fmt4 fmtU64 th cfg ticks s = s := by
  cases ticks with
  | nil => rfl
  | cons t rest => simp [threadproc, h]

theorem uploadMeasurement_ok {V : Type} (fmt4 fmtU64 : V → List Char) (th : CapThresholds)
    (cfg : SmloggerConfig) (url : String) (hurl : cfg.m_url = some url)
    (env : ProcessEnv) (s : Smlogger) (m : SmartMeter_Data V)
    (hsb : s.m_sb.WF)
    (hp : env.lockSend = 0 ∧ env.realloc = true ∧ env.malloc = true) :
    (uploadMeasurement fmt4 fmtU64 th cfg env s m).m_numMeasurements = s.m_numMeasurements ∧
    (uploadMeasurement fmt4 fmtU64 th cfg env s m).m_handle = s.m_handle ∧
    (uploadMeasurement fmt4 fmtU64 th cfg env s m).m_sb.WF ∧
    (uploadMeasurement fmt4 fmtU64 th cfg env s m).m_queue =
      (queue_enqueue th 0 s.m_queue
        (some (payloadText fmt4 fmtU64 cfg.m_token m ++ [NUL]))).1 ∧
    (uploadMeasurement fmt4 fmtU64 th cfg env s m).log =
      s.log ++ if s.m_queue.capacity ≤ s.m_queue.count then
        [.uploadQueueFull, .unableToUpload] else [] := by
  obtain ⟨hl, hr, hm⟩ := hp
  obtain ⟨hcopy, halloc⟩ := payload_copy fmt4 fmtU64 cfg.m_token m env.junk s.m_sb hsb
  have hfail := enqueue_fail_iff th s.m_queue
    (some (payloadText fmt4 fmtU64 cfg.m_token m ++ [NUL]))
  simp only [uploadMeasurement, hurl, hr, hm, hl, hcopy, uploader_send]
  refine ⟨trivial, trivial, halloc, ?_, ?_⟩
  · split_ifs <;> rfl
  · by_cases hfull : s.m_queue.capacity ≤ s.m_queue.count
    · rw [if_pos (hfail.2 hfull), if_pos hfull]
      simp
    · have h0 : ¬ (queue_enqueue th 0 s.m_queue
          (some (payloadText fmt4 fmtU64 cfg.m_token m ++ [NUL]))).2 = 0 :=
        fun h => hfull (hfail.1 h)
      rw [if_neg h0, if_neg hfull]
      simp

theorem processMeasurement_inv {V : Type} (fmt4 fmtU64 : V → List Char) (th : CapThresholds)
    (cfg : SmloggerConfig) (url : String) (b c : Nat) (interval : Int)
    (hcount : cfg.m_count = (c : Int)) (hurl : cfg.m_url = some url)
    (pre : List (ProcessEnv × SmartMeter_Data V)) (s : Smlogger)
    (p : ProcessEnv × SmartMeter_Data V)
    (hinv : SamplerInv fmt4 fmtU64 cfg b c interval pre s)
    (hp : p.1.lockSend = 0 ∧ p.1.realloc = true ∧ p.1.malloc = true) :
    SamplerInv fmt4 fmtU64 cfg b c interval (pre ++ [p])
      (processMeasurement fmt4 fmtU64 th cfg p.1 s p.2) := by
  obtain ⟨hn, hh, hwf, hcap, hcont, hlog1, hlog2, hsb⟩ := hinv
  obtain ⟨un, uh, usb, uq, ulog⟩ :=
    uploadMeasurement_ok fmt4 fmtU64 th cfg url hurl p.1 s p.2 hsb hp
  have hcnt : s.m_queue.count = min pre.length b := by
    rw [← contents_length, hcont]
    simp [Nat.min_comm]
  have hstop : ∀ r : Bool, (meter_stop (some ⟨interval, r⟩)).1 = some ⟨interval, false⟩ := by
    intro r
    cases r <;> rfl
  have hlen : (pre ++ [p]).length = pre.length + 1 := by simp
  have hnum : (processMeasurement fmt4 fmtU64 th cfg p.1 s p.2).m_numMeasurements
      = s.m_numMeasurements + 1 := by
    simp only [processMeasurement, checkDone, countMeasurement, un]
    split_ifs <;> rfl
  have hhandle : (processMeasurement fmt4 fmtU64 th cfg p.1 s p.2).m_handle
      = some ⟨interval, decide (pre.length + 1 < c)⟩ := by
    simp only [processMeasurement, checkDone, countMeasurement, un, uh, hcount, hn, hh]
    by_cases hlast : pre.length + 1 < c
    · have : ¬ ((c : Int) > 0 ∧ (pre.length : Int) + 1 ≥ (c : Int)) := by omega
      rw [if_neg this]
      have : pre.length < c := by omega
      simp [this, hlast, uh, hh]
    · by_cases hc0 : c = 0
      · subst hc0
        have : ¬ (((0 : Nat) : Int) > 0 ∧ (pre.length : Int) + 1 ≥ ((0 : Nat) : Int)) := by omega
        rw [if_neg this]
        simp [uh, hh]
      · have : ((c : Int) > 0 ∧ (pre.length : Int) + 1 ≥ (c : Int)) := by omega
        rw [if_pos this]
        simp only [hstop, hlast, decide_False]
  have hsb' : (processMeasurement fmt4 fmtU64 th cfg p.1 s p.2).m_sb.WF := by
    simp only [processMeasurement, checkDone, countMeasurement]
    split_ifs <;> exact usb
  have hqueue : (processMeasurement fmt4 fmtU64 th cfg p.1 s p.2).m_queue
      = (queue_enqueue th 0 s.m_queue
          (some (payloadText fmt4 fmtU64 cfg.m_token p.2 ++ [NUL]))).1 := by
    simp only [processMeasurement, checkDone, countMeasurement]
    split_ifs <;> exact uq
  have hlog : ∀ x : SmloggerLog, (x = .unableToUpload ∨ x = .uploadQueueFull) →
      (processMeasurement fmt4 fmtU64 th cfg p.1 s p.2).log.count x
      = s.log.count x + if s.m_queue.capacity ≤ s.m_queue.count then 1 else 0 := by
    intro x hx
    have hl : (processMeasurement fmt4 fmtU64 th cfg p.1 s p.2).log =
        (s.log ++ if s.m_queue.capacity ≤ s.m_queue.count then
          [.uploadQueueFull, .unableToUpload] else []) ++
        (if (s.m_numMeasurements + 1) % 60 = 0 then
          [.numMeasurements (s.m_numMeasurements + 1)
            (uploader_queueSize p.1.lockCount
              (uploadMeasurement fmt4 fmtU64 th cfg p.1 s p.2).m_queue)]
        else []) := by
      simp only [processMeasurement, checkDone, countMeasurement, un, ulog]
      split_ifs <;> rfl
    rw [hl]
    rcases hx with hx | hx <;> subst hx <;> split_ifs <;>
      simp [List.count_cons, List.count_append]
  refine ⟨?_, ?_, ?_, ?_, ?_, ?_, ?_, hsb'⟩
  · rw [hnum, hn, hlen]
    push_cast
    rfl
  · rw [hhandle, hlen]
  · rw [hqueue]
    by_cases hfull : s.m_queue.count < s.m_queue.capacity
    · exact (enqueue_contents th s.m_queue _ hwf hfull).1
    · rw [enqueue_fail_unchanged th 0 s.m_queue _
        ((enqueue_fail_iff th s.m_queue _).2 (by omega))]
      exact hwf
  · rw [hqueue]
    by_cases hfull : s.m_queue.count < s.m_queue.capacity
    · rw [enqueue_success th s.m_queue _ hfull]
      exact hcap
    · rw [enqueue_fail_unchanged th 0 s.m_queue _
        ((enqueue_fail_iff th s.m_queue _).2 (by omega))]
      exact hcap
  · rw [hqueue]
    by_cases hfull : s.m_queue.count < s.m_queue.capacity
    · rw [(enqueue_contents th s.m_queue _ hwf hfull).2, hcont]
      have hlt : pre.length < b := by
        rw [hcap, hcnt] at hfull
        omega
      rw [List.take_of_length_le (by omega), List.take_of_length_le (by rw [hlen]; omega)]
      simp
    · rw [enqueue_fail_unchanged th 0 s.m_queue _
        ((enqueue_fail_iff th s.m_queue _).2 (by omega)), hcont]
      have hge : b ≤ pre.length := by
        rw [hcap, hcnt] at hfull
        omega
      rw [List.take_append_of_le_length hge]
  · rw [hlog _ (Or.inl rfl), hlog1, hlen, hcap, hcnt]
    split_ifs <;> omega
  · rw [hlog _ (Or.inr rfl), hlog2, hlen, hcap, hcnt]
    split_ifs <;> omega

theorem successes_cons_none {V : Type} (env : ProcessEnv) (rest : List (Tick V)) :
    successes (⟨none, env⟩ :: rest) = successes rest := by
  simp [successes]

theorem successes_cons_some {V : Type} (m : SmartMeter_Data V) (env : ProcessEnv)
    (rest : List (Tick V)) :
    successes (⟨some m, env⟩ :: rest) = (env, m) :: successes rest := by
  simp [successes]

theorem successes_append {V : Type} (ticks more : List (Tick V)) :
    successes (ticks ++ more) = successes ticks ++ successes more := by
  simp [successes]

theorem threadproc_run {V : Type} (fmt4 fmtU64 : V → List Char) (th : CapThresholds)
    (cfg : SmloggerConfig) (url : String) (b c : Nat) (interval : Int)
    (hcount : cfg.m_count = (c : Int)) (hurl : cfg.m_url = some url) :
    ∀ (ticks : List (Tick V)) (pre : List (ProcessEnv × SmartMeter_Data V)) (s : Smlogger),
      SamplerInv fmt4 fmtU64 cfg b c interval pre s → pre.length < c →
      c - pre.length ≤ (successes ticks).length →
      (∀ p ∈ (successes ticks).take (c - pre.length),
        p.1.lockSend = 0 ∧ p.1.realloc = true ∧ p.1.malloc = true) →
      threadproc fmt4 fmtU64 th cfg ticks s =
        ((successes ticks).take (c - pre.length)).foldl
          (fun s p => processMeasurement fmt4 fmtU64 th cfg p.1 s p.2) s ∧
      SamplerInv fmt4 fmtU64 cfg b c interval
        (pre ++ (successes ticks).take (c - pre.length))
        (threadproc fmt4 fmtU64 th cfg ticks s) := by
  intro ticks
  induction ticks with
  | nil =>
    intro pre s _ hlt hlen _
    simp only [successes, List.filterMap_nil, List.length_nil] at hlen
    omega
  | cons t rest ih =>
    intro pre s hinv hlt hlen hok
    have hh : s.m_handle = some ⟨interval, true⟩ := by
      rw [hinv.2.1]
      simp [hlt]
    obtain ⟨measured, env⟩ := t
    cases measured with
    | none =>
      rw [successes_cons_none] at hlen hok ⊢
      have hstep : threadproc fmt4 fmtU64 th cfg (⟨none, env⟩ :: rest) s =
          threadproc fmt4 fmtU64 th cfg rest s := by
        simp [threadproc, hh, performMeasurement]
      rw [hstep]
      exact ih pre s hinv hlt hlen hok
    | some m =>
      rw [successes_cons_some] at hlen hok ⊢
      obtain ⟨k, hk⟩ : ∃ k, c - pre.length = k + 1 := ⟨c - pre.length - 1, by omega⟩
      rw [hk] at hok hlen ⊢
      rw [List.take_succ_cons] at hok ⊢
      have hstep : threadproc fmt4 fmtU64 th cfg (⟨some m, env⟩ :: rest) s =
          threadproc fmt4 fmtU64 th cfg rest
            (processMeasurement fmt4 fmtU64 th cfg env s m) := by
        simp [threadproc, hh, performMeasurement]
      have hinv' := processMeasurement_inv fmt4 fmtU64 th cfg url b c interval hcount hurl
        pre s (env, m) hinv (hok (env, m) (List.mem_cons_self _ _))
      have hlen' : (pre ++ [(env, m)]).length = pre.length + 1 := by simp
      rw [hstep, List.foldl_cons]
      by_cases hlast : pre.length + 1 < c
      · have hk' : c - (pre ++ [(env, m)]).length = k := by omega
        obtain ⟨h1, h2⟩ := ih (pre ++ [(env, m)])
          (processMeasurement fmt4 fmtU64 th cfg env s m) hinv' (by omega)
          (by rw [hk']; simpa using hlen)
          (by rw [hk']; exact fun p hp => hok p (List.mem_cons_of_mem _ hp))
        rw [hk'] at h1 h2
        refine ⟨h1, ?_⟩
        rw [List.append_assoc] at h2
        exact h2
      · have hk0 : k = 0 := by omega
        subst hk0
        have hstopped : (processMeasurement fmt4 fmtU64 th cfg env s m).m_handle =
            some ⟨interval, false⟩ := by
          rw [hinv'.2.1, hlen']
          simp [hlast]
        rw [threadproc_stopped fmt4 fmtU64 th cfg rest _ interval hstopped]
        exact ⟨rfl, hinv'⟩

/-! ### Measurement processing: the properties of the specification -/

/-- C15 (measurement count and queue-full drop): let the configured count be
`c > 0`, a URL be configured, the upload queue be freshly created with capacity
`b` and be left alone by the workers, and let the rounds of the sampler loop
contain at least `c` successful measurements, for the first `c` of which the
allocations and the lock acquisition of the callback succeed.  Then the loop
invokes `processMeasurement` for exactly the first `c` successful measurements
and stops: further rounds change nothing, `running` is cleared and
`m_numMeasurements = c`.  The queue then holds `min c b` payloads, those of the
first `min c b` successful measurements in their order (each the copied block:
the text of the payload followed by its `'\0'`), and each of the other
`c - min c b` measurements was refused at enqueue (one line
`Upload queue full` and one line `Unable to upload data` each).  A round whose
measurement fails leaves the state as it is. -/
theorem measurement_count_and_drop {V : Type} (fmt4 fmtU64 : V → List Char)
    (th : CapThresholds) (cfg : SmloggerConfig) (url : String) (b c : Nat)
    (buffer : Nat → Option (List Char)) (itemSize : Nat) (q : Queue (Option (List Char)))
    (interval : Int) (ticks : List (Tick V))
    (hc : 0 < c) (hcount : cfg.m_count = (c : Int)) (hurl : cfg.m_url = some url)
    (hq : queue_create true 0 (some buffer) b itemSize = some q)
    (hsucc : c ≤ (successes ticks).length)
    (hok : ∀ p ∈ (successes ticks).take c,
      p.1.lockSend = 0 ∧ p.1.realloc = true ∧ p.1.malloc = true) :
    threadproc fmt4 fmtU64 th cfg ticks (startState q interval) =
      ((successes ticks).take c).foldl
        (fun s p => processMeasurement fmt4 fmtU64 th cfg p.1 s p.2) (startState q interval) ∧
    (∀ more, threadproc fmt4 fmtU64 th cfg (ticks ++ more) (startState q interval) =
      threadproc fmt4 fmtU64 th cfg ticks (startState q interval)) ∧
    (threadproc fmt4 fmtU64 th cfg ticks (startState q interval)).m_handle =
      some ⟨interval, false⟩ ∧
    (threadproc fmt4 fmtU64 th cfg ticks (startState q interval)).m_numMeasurements = c ∧
    (threadproc fmt4 fmtU64 th cfg ticks (startState q interval)).m_queue.count = min c b ∧
    (threadproc fmt4 fmtU64 th cfg ticks (startState q interval)).m_queue.contents =
      ((successes ticks).take (min c b)).map
        (fun p => some (payloadText fmt4 fmtU64 cfg.m_token p.2 ++ [NUL])) ∧
    (threadproc fmt4 fmtU64 th cfg ticks (startState q interval)).log.count .uploadQueueFull =
      c - min c b ∧
    (threadproc fmt4 fmtU64 th cfg ticks (startState q interval)).log.count .unableToUpload =
      c - min c b ∧
    (∀ (s : Smlogger) (env : ProcessEnv),
      performMeasurement fmt4 fmtU64 th cfg s (⟨none, env⟩ : Tick V) = s) := by
  obtain ⟨q0, qh, qt, _, qc⟩ := queue_create_some hq
  have hstart : SamplerInv fmt4 fmtU64 cfg b c interval [] (startState q interval) := by
    refine ⟨rfl, ?_, ⟨?_, ?_, ?_⟩, qc, ?_, ?_, ?_, ?_⟩
    · simp [startState, hc]
    · simp [startState, q0]
    · simp [startState, qh]
    · simp [startState, qh, qt, q0]
    · simp [startState, Queue.contents, q0]
    · simp [startState]
    · simp [startState]
    · simp [startState, strbuilder_create, wf_iff]
  have hrun := threadproc_run fmt4 fmtU64 th cfg url b c interval hcount hurl
  obtain ⟨h1, h2⟩ := hrun ticks [] (startState q interval) hstart hc (by simpa using hsucc)
    (by simpa using hok)
  simp only [List.length_nil, Nat.sub_zero, List.nil_append] at h1 h2
  have hmore : ∀ more, threadproc fmt4 fmtU64 th cfg (ticks ++ more) (startState q interval) =
      threadproc fmt4 fmtU64 th cfg ticks (startState q interval) := by
    intro more
    have htake : (successes (ticks ++ more)).take c = (successes ticks).take c := by
      rw [successes_append, List.take_append_of_le_length hsucc]
    obtain ⟨h3, _⟩ := hrun (ticks ++ more) [] (startState q interval) hstart hc
      (by rw [successes_append]; simp only [List.length_nil, List.length_append]; omega)
      (by simpa [htake] using hok)
    simp only [List.length_nil, Nat.sub_zero] at h3
    rw [h3, htake, h1]
  obtain ⟨hn, hh, _, _, hcont, hl1, hl2, _⟩ := h2
  have hlen : ((successes ticks).take c).length = c := by
    rw [List.length_take]
    omega
  have hcont' : (threadproc fmt4 fmtU64 th cfg ticks (startState q interval)).m_queue.contents =
      ((successes ticks).take (min c b)).map
        (fun p => some (payloadText fmt4 fmtU64 cfg.m_token p.2 ++ [NUL])) := by
    rw [hcont, List.take_take, Nat.min_comm]
  refine ⟨h1, hmore, ?_, ?_, ?_, hcont', ?_, ?_, fun _ _ => rfl⟩
  · rw [hh, hlen]
    simp
  · rw [hn, hlen]
  · rw [← contents_length, hcont', List.length_map, List.length_take]
    omega
  · rw [hl2, hlen]
    omega
  · rw [hl1, hlen]
    omega

/-- Witness for C15: capacity `b = 2`, count `c = 5`, and seven rounds of which
the second fails: five measurements are counted, the payloads of the
measurements 1 and 2 are in the queue, and the measurements 3 to 5 were
refused. -/
theorem measurement_count_and_drop_witness :
    (threadproc fmt4Int fmtU64Int exactThresholds (sampleConfig "tok" 5) sampleTicks
      (startState (freshQueue 2) (-1))).m_numMeasurements = 5 ∧
    (threadproc fmt4Int fmtU64Int exactThresholds (sampleConfig "tok" 5) sampleTicks
      (startState (freshQueue 2) (-1))).m_queue.count = 2 ∧
    (threadproc fmt4Int fmtU64Int exactThresholds (sampleConfig "tok" 5) sampleTicks
      (startState (freshQueue 2) (-1))).m_queue.contents =
      [some (payloadText fmt4Int fmtU64Int (some "tok") (pipeData 1) ++ [NUL]),
       some (payloadText fmt4Int fmtU64Int (some "tok") (pipeData 2) ++ [NUL])] ∧
    (threadproc fmt4Int fmtU64Int exactThresholds (sampleConfig "tok" 5) sampleTicks
      (startState (freshQueue 2) (-1))).log.count .unableToUpload = 3 :=
  have h := measurement_count_and_drop fmt4Int fmtU64Int exactThresholds (sampleConfig "tok" 5)
    "http://test/" 2 5 (fun _ => none) 8 (freshQueue 2) (-1) sampleTicks (by decide) rfl rfl rfl
    (by decide) (by decide)
  ⟨h.2.2.2.1, h.2.2.2.2.1, h.2.2.2.2.2.1, h.2.2.2.2.2.2.2.1⟩

/-! ### Payload: the properties of the specification -/

set_option maxRecDepth 100000 in
theorem parseJson_samples :
    measurementMembers (parseJson
      "\x7b\"measurement\": \x7b\"a\": -1.5e3, \"b\": \"x\\ty\\u0041\"\x7d \x7d\n".toList) =
      some [("a", .number "-1.5e3"), ("b", .string "x\tyA")] ∧
    (parseJson "[1, [true, null], \x7b\x7d]".toList).isMalformed = false ∧
    (parseJson "[1,]".toList).isMalformed = true ∧
    (parseJson "\x7b\"a\": nan\x7d".toList).isMalformed = true ∧
    (parseJson "\"a\"b\"".toList).isMalformed = true := by
  decide

set_option maxRecDepth 100000 in
theorem builtPayload_tok :
    (builtPayload "tok" (pipeData 1)).map String.mk = some
      ("\x7b\"measurement\":\x7b\"powerAllPhases\": 60.0000," ++
        "\t\"powerL1\": 10.0000,\"powerL2\": 20.0000,\"powerL3\": 30.0000," ++
        "\"currentNeutral\": 0.0000,\"currentL1\": 0.0000," ++
        "\"currentL2\": 0.0000,\"currentL3\": 0.0000,\"voltageL1\": 0.0000," ++
        "\t\"voltageL2\": 0.0000,\"voltageL3\": 0.0000," ++
        "\"phaseAngleVoltageL2L1\": 0.0000,\"phaseAngleVoltageL3L1\": 0.0000," ++
        "\"phaseAngleCurrentVoltageL1\": 0.0000," ++
        "\"phaseAngleCurrentVoltageL2\": 0.0000," ++
        "\"phaseAngleCurrentVoltageL3\": 0.0000,\t\"createdOn\": 1," ++
        "\t\"smartMeterId\": 1,\"smartMeterToken\": \"tok\"\t\x7d\x7d") ∧
    (builtPayload "tok" (pipeData 1)).bind (fun p => measurementMembers (parseJson p)) = some
      [("powerAllPhases", .number "60.0000"), ("powerL1", .number "10.0000"),
       ("powerL2", .number "20.0000"), ("powerL3", .number "30.0000"),
       ("currentNeutral", .number "0.0000"), ("currentL1", .number "0.0000"),
       ("currentL2", .number "0.0000"), ("currentL3", .number "0.0000"),
       ("voltageL1", .number "0.0000"), ("voltageL2", .number "0.0000"),
       ("voltageL3", .number "0.0000"), ("phaseAngleVoltageL2L1", .number "0.0000"),
       ("phaseAngleVoltageL3L1", .number "0.0000"),
       ("phaseAngleCurrentVoltageL1", .number "0.0000"),
       ("phaseAngleCurrentVoltageL2", .number "0.0000"),
       ("phaseAngleCurrentVoltageL3", .number "0.0000"), ("createdOn", .number "1"),
       ("smartMeterId", .number "1"), ("smartMeterToken", .string "tok")] := by
  decide!

set_option maxRecDepth 100000 in
theorem builtPayload_quote :
    (builtPayload "a\"b" (pipeData 1)).map String.mk = some
      ("\x7b\"measurement\":\x7b\"powerAllPhases\": 60.0000," ++
        "\t\"powerL1\": 10.0000,\"powerL2\": 20.0000,\"powerL3\": 30.0000," ++
        "\"currentNeutral\": 0.0000,\"currentL1\": 0.0000," ++
        "\"currentL2\": 0.0000,\"currentL3\": 0.0000,\"voltageL1\": 0.0000," ++
        "\t\"voltageL2\": 0.0000,\"voltageL3\": 0.0000," ++
        "\"phaseAngleVoltageL2L1\": 0.0000,\"phaseAngleVoltageL3L1\": 0.0000," ++
        "\"phaseAngleCurrentVoltageL1\": 0.0000," ++
        "\"phaseAngleCurrentVoltageL2\": 0.0000," ++
        "\"phaseAngleCurrentVoltageL3\": 0.0000,\t\"createdOn\": 1," ++
        "\t\"smartMeterId\": 1,\"smartMeterToken\": \"a\"b\"\t\x7d\x7d") ∧
    (builtPayload "a\"b" (pipeData 1)).map (fun p => (parseJson p).isMalformed) = some true ∧
    (builtPayload "a\\b" (pipeData 1)).bind tokenRead = some (.string "a\x08") := by
  decide!

/-- C16 (JSON schema), refuted by evaluation.  For the token `tok` and the
measurement with timestamp 1 and powers 10, 20, 30 the payload that
`processMeasurement` enqueues is a JSON text: one object with the single key
`measurement`, whose value has the 19 keys in the documented order, with
`smartMeterId` 1 and `smartMeterToken` the string `tok`.  For the token `a"b`
the payload is not a JSON text: the token is copied between the quotation
marks as it is.  For the token `a\b` (with a backslash) the payload is a JSON
text in which `smartMeterToken` is the letter `a` followed by a backspace, not
the token. -/
theorem payload_not_always_json :
    (builtPayload "tok" (pipeData 1)).bind (fun p => measurementMembers (parseJson p)) = some
      [("powerAllPhases", .number "60.0000"), ("powerL1", .number "10.0000"),
       ("powerL2", .number "20.0000"), ("powerL3", .number "30.0000"),
       ("currentNeutral", .number "0.0000"), ("currentL1", .number "0.0000"),
       ("currentL2", .number "0.0000"), ("currentL3", .number "0.0000"),
       ("voltageL1", .number "0.0000"), ("voltageL2", .number "0.0000"),
       ("voltageL3", .number "0.0000"), ("phaseAngleVoltageL2L1", .number "0.0000"),
       ("phaseAngleVoltageL3L1", .number "0.0000"),
       ("phaseAngleCurrentVoltageL1", .number "0.0000"),
       ("phaseAngleCurrentVoltageL2", .number "0.0000"),
       ("phaseAngleCurrentVoltageL3", .number "0.0000"), ("createdOn", .number "1"),
       ("smartMeterId", .number "1"), ("smartMeterToken", .string "tok")] ∧
    (builtPayload "a\"b" (pipeData 1)).map String.mk = some
      ("\x7b\"measurement\":\x7b\"powerAllPhases\": 60.0000," ++
        "\t\"powerL1\": 10.0000,\"powerL2\": 20.0000,\"powerL3\": 30.0000," ++
        "\"currentNeutral\": 0.0000,\"currentL1\": 0.0000," ++
        "\"currentL2\": 0.0000,\"currentL3\": 0.0000,\"voltageL1\": 0.0000," ++
        "\t\"voltageL2\": 0.0000,\"voltageL3\": 0.0000," ++
        "\"phaseAngleVoltageL2L1\": 0.0000,\"phaseAngleVoltageL3L1\": 0.0000," ++
        "\"phaseAngleCurrentVoltageL1\": 0.0000," ++
        "\"phaseAngleCurrentVoltageL2\": 0.0000," ++
        "\"phaseAngleCurrentVoltageL3\": 0.0000,\t\"createdOn\": 1," ++
        "\t\"smartMeterId\": 1,\"smartMeterToken\": \"a\"b\"\t\x7d\x7d") ∧
    (builtPayload "a\"b" (pipeData 1)).map (fun p => (parseJson p).isMalformed) = some true ∧
    (builtPayload "a\\b" (pipeData 1)).bind tokenRead = some (.string "a\x08") :=
  ⟨builtPayload_tok.2, builtPayload_quote.1, builtPayload_quote.2.1, builtPayload_quote.2.2⟩

/-! ### Queue levels: the properties of the specification -/

theorem enqueueLevel_cases (th : CapThresholds) (count capacity level : Nat) :
    enqueueLevel th count capacity level = level ∨
    ∃ i, level ≤ i ∧ i < ARRAY_LENGTH_s_capLevels ∧ count = th.rise i capacity ∧
      enqueueLevel th count capacity level = i + 1 := by
  unfold enqueueLevel
  have key : ∀ (l : List Nat) (lv : Nat),
      (∀ i ∈ l, level ≤ i ∧ i < ARRAY_LENGTH_s_capLevels) →
      (lv = level ∨ ∃ i, level ≤ i ∧ i < ARRAY_LENGTH_s_capLevels ∧
        count = th.rise i capacity ∧ lv = i + 1) →
      (l.foldl (fun lv i => if count = th.rise i capacity then i + 1 else lv) lv = level ∨
        ∃ i, level ≤ i ∧ i < ARRAY_LENGTH_s_capLevels ∧ count = th.rise i capacity ∧
          l.foldl (fun lv i => if count = th.rise i capacity then i + 1 else lv) lv = i + 1) := by
    intro l
    induction l with
    | nil => intro lv _ h; exact h
    | cons a rest ih =>
      intro lv hl hlv
      rw [List.foldl_cons]
      apply ih _ (fun i hi => hl i (List.mem_cons_of_mem _ hi))
      by_cases hc : count = th.rise a capacity
      · rw [if_pos hc]
        exact Or.inr ⟨a, (hl a (List.mem_cons_self _ _)).1, (hl a (List.mem_cons_self _ _)).2,
          hc, rfl⟩
      · rw [if_neg hc]
        exact hlv
  apply key _ _ _ (Or.inl rfl)
  intro i hi
  rw [List.mem_range'_1] at hi
  omega

theorem enqueueLevel_ge (th : CapThresholds) (count capacity level : Nat) :
    level ≤ enqueueLevel th count capacity level := by
  rcases enqueueLevel_cases th count capacity level with h | ⟨i, hi, _, _, h⟩
  · rw [h]
  · rw [h]
    omega

theorem enqueueWarnings_ge (th : CapThresholds) (count capacity level : Nat) :
    ∀ k ∈ enqueueWarnings th count capacity level,
      level ≤ k ∧ k < ARRAY_LENGTH_s_capLevels := by
  intro k hk
  unfold enqueueWarnings at hk
  have := (List.mem_filter.1 hk).1
  rw [List.mem_range'_1] at this
  omega

theorem queueStep_level {α : Type} (th : CapThresholds) (s : Queue α × List (QueueEvent α))
    (op : QueueOp α) (h : s.1.level ≤ ARRAY_LENGTH_s_capLevels) :
    (queueStep th s op).1.level ≤ ARRAY_LENGTH_s_capLevels := by
  cases op with
  | enqueue e x =>
    simp only [queueStep, queue_enqueue]
    split_ifs
    · exact h
    · exact h
    · exact enqueueLevel_le th _ _ _ h
  | dequeue e x =>
    simp only [queueStep, queue_dequeue]
    split_ifs
    · exact h
    · exact h
    · exact Nat.le_trans (dequeueLevelLoop_le th _ _ _ _ _) h
  | count e => exact h
  | clear e =>
    simp only [queueStep, queue_clear]
    split_ifs <;> exact h

theorem foldl_queueStep_level {α : Type} (th : CapThresholds) (ops : List (QueueOp α))
    (s : Queue α × List (QueueEvent α)) (h : s.1.level ≤ ARRAY_LENGTH_s_capLevels) :
    (ops.foldl (queueStep th) s).1.level ≤ ARRAY_LENGTH_s_capLevels := by
  induction ops generalizing s with
  | nil => exact h
  | cons op rest ih =>
    rw [List.foldl_cons]
    exact ih _ (queueStep_level th s op h)

/-- C23 (level range): after any sequence of calls of `queue_enqueue`,
`queue_dequeue`, `queue_count` and `queue_clear`, with any results of the lock
acquisitions, on a freshly created queue, the capacity log level is at most 5,
for every value of the thresholds.  It is not negative, since the only
assignments to it are `level = i + 1` and `level = i` for loop indices
`i >= 0`. -/
theorem level_range {α : Type} (th : CapThresholds) (queueMem : Bool) (mutexError : Nat)
    (bufferMem : Option (Nat → α)) (capacity itemSize : Nat) (q : Queue α)
    (hq : queue_create queueMem mutexError bufferMem capacity itemSize = some q)
    (ops : List (QueueOp α)) :
    (0 : Int) ≤ ((queueRun th q ops).1.level : Int) ∧ (queueRun th q ops).1.level ≤ 5 := by
  refine ⟨Int.ofNat_nonneg _, ?_⟩
  apply foldl_queueStep_level
  rw [(queue_create_some hq).2.2.2.1]
  exact Nat.zero_le _

/-- Witness for C23: a queue of capacity four is filled, over-filled, partly
drained, cleared and filled again; the level ends at 4. -/
theorem level_range_witness :
    (queueRun exactThresholds (freshQueue 4)
      [.enqueue 0 none, .enqueue 0 none, .enqueue 0 none, .enqueue 0 none, .enqueue 0 none,
       .dequeue 0 none, .dequeue 0 none, .clear 0, .enqueue 0 none, .enqueue 0 none,
       .enqueue 0 none, .enqueue 0 none]).1.level = 4 ∧
    (queueRun exactThresholds (freshQueue 4)
      [.enqueue 0 none, .enqueue 0 none, .enqueue 0 none, .enqueue 0 none, .enqueue 0 none,
       .dequeue 0 none, .dequeue 0 none, .clear 0, .enqueue 0 none, .enqueue 0 none,
       .enqueue 0 none, .enqueue 0 none]).1.level ≤ 5 :=
  ⟨by decide,
    (level_range exactThresholds true 0 (some (fun _ => none)) 4 8 (freshQueue 4) rfl _).2⟩

theorem fill_warnings_ge {α : Type} (th : CapThresholds) (ops : List (QueueOp α)) :
    ∀ q : Queue α, (∀ op ∈ ops, op.isEnqueue = true) →
      ∀ w ∈ queueWarnings th q ops, ∃ i, w = .exceeds i ∧ q.level ≤ i := by
  induction ops with
  | nil => intro q _ w hw; simp [queueWarnings] at hw
  | cons op rest ih =>
    intro q hops w hw
    have hrest : ∀ o ∈ rest, o.isEnqueue = true :=
      fun o ho => hops o (List.mem_cons_of_mem _ ho)
    have hop := hops op (List.mem_cons_self _ _)
    cases op with
    | enqueue e x =>
      simp only [queueWarnings, queueOpWarnings, queueStep] at hw
      by_cases he : e ≠ 0
      · rw [if_pos he, enqueue_lock_failed th e q x he] at hw
        exact ih q hrest w (by simpa using hw)
      · have he0 : e = 0 := not_not.1 he
        subst he0
        rw [if_neg he] at hw
        by_cases hfull : q.count ≥ q.capacity
        · rw [if_pos hfull,
            enqueue_fail_unchanged th 0 q x ((enqueue_fail_iff th q x).2 hfull)] at hw
          exact ih q hrest w (by simpa using hw)
        · rw [if_neg hfull, enqueue_success th q x (by omega)] at hw
          rcases List.mem_append.1 hw with h | h
          · obtain ⟨k, hk, rfl⟩ := List.mem_map.1 h
            exact ⟨k, rfl, (enqueueWarnings_ge th _ _ _ k hk).1⟩
          · obtain ⟨i, hi, hle⟩ := ih _ hrest w h
            simp only at hle
            exact ⟨i, hi, Nat.le_trans (enqueueLevel_ge th _ _ _) hle⟩
    | dequeue e x => simp [QueueOp.isEnqueue] at hop
    | count e => simp [QueueOp.isEnqueue] at hop
    | clear e => simp [QueueOp.isEnqueue] at hop

/-- C28 (frame of `queue_clear`): when it acquires the lock, `queue_clear` sets
`count`, `head` and `tail` to 0; whatever the lock result, it leaves the
capacity, the item size, the capacity log level and the buffer as they are.
Hence the level after a clear is the level before it, and a following refill, a
run of `queue_enqueue` calls, logs only warnings "exceeds" for threshold indices
from that level on, none for the thresholds below it. -/
theorem queue_clear_frame {α : Type} (th : CapThresholds) (q : Queue α) (lockError : Nat)
    (refill : List (QueueOp α)) (hrefill : ∀ op ∈ refill, op.isEnqueue = true) :
    (queue_clear 0 q).count = 0 ∧ (queue_clear 0 q).head = 0 ∧ (queue_clear 0 q).tail = 0 ∧
    (queue_clear lockError q).capacity = q.capacity ∧
    (queue_clear lockError q).itemSize = q.itemSize ∧
    (queue_clear lockError q).level = q.level ∧
    (queue_clear lockError q).buffer = q.buffer ∧
    (∀ w ∈ queueWarnings th (queue_clear lockError q) refill,
      ∃ i, w = .exceeds i ∧ q.level ≤ i) ∧
    (∀ i, i < q.level → (queueWarnings th (queue_clear lockError q) refill).count
      (.exceeds i) = 0) := by
  have hlevel : (queue_clear lockError q).level = q.level := by
    unfold queue_clear
    split_ifs <;> rfl
  have hw := fill_warnings_ge th refill (queue_clear lockError q) hrefill
  rw [hlevel] at hw
  refine ⟨rfl, rfl, rfl, ?_, ?_, hlevel, ?_, hw, ?_⟩
  · unfold queue_clear
    split_ifs <;> rfl
  · unfold queue_clear
    split_ifs <;> rfl
  · unfold queue_clear
    split_ifs <;> rfl
  · intro i hi
    rw [List.count_eq_zero]
    intro hmem
    obtain ⟨k, hk, hle⟩ := hw _ hmem
    injection hk with hk
    omega

/-- Witness for C28: a queue of capacity 10 is filled to 4 items, which logs
the warnings for the thresholds 0 and 1 and leaves the level 2; after a clear
the level is still 2, and a refill to 7 items logs the warning for the
threshold 2 only. -/
theorem queue_clear_frame_witness :
    (queueRun exactThresholds (freshQueue 10)
      (List.replicate 4 (.enqueue 0 none))).1.level = 2 ∧
    (queue_clear 0 (queueRun exactThresholds (freshQueue 10)
      (List.replicate 4 (.enqueue 0 none))).1).level = 2 ∧
    queueWarnings exactThresholds
      (queue_clear 0 (queueRun exactThresholds (freshQueue 10)
        (List.replicate 4 (.enqueue 0 none))).1)
      (List.replicate 7 (.enqueue 0 none)) = [.exceeds 2] ∧
    (queueWarnings exactThresholds
      (queue_clear 0 (queueRun exactThresholds (freshQueue 10)
        (List.replicate 4 (.enqueue 0 none))).1)
      (List.replicate 7 (.enqueue 0 none))).count (.exceeds 0) = 0 :=
  ⟨by decide, by decide, by decide,
    (queue_clear_frame exactThresholds
      (queueRun exactThresholds (freshQueue 10) (List.replicate 4 (.enqueue 0 none))).1 0
      (List.replicate 7 (.enqueue 0 none)) (by decide)).2.2.2.2.2.2.2.2 0 (by decide)⟩

/-! ### Queue thresholds at the ends of the range -/

theorem rise_last_never {α : Type} (th : CapThresholds) (ops : List (QueueOp α)) :
    ∀ q : Queue α, th.rise 4 q.capacity = q.capacity →
      QueueWarning.exceeds 4 ∉ queueWarnings th q ops := by
  induction ops with
  | nil => intro q _; simp [queueWarnings]
  | cons op rest ih =>
    intro q hq hmem
    simp only [queueWarnings] at hmem
    rcases List.mem_append.1 hmem with h | h
    · cases op with
      | enqueue e x =>
        simp only [queueOpWarnings] at h
        split_ifs at h with h1 h2
        · simp at h
        · simp at h
        · obtain ⟨k, hk, hk4⟩ := List.mem_map.1 h
          injection hk4 with hk4
          subst hk4
          have := (enqueueWarnings_spec th q.count q.capacity q.level).2 4 hk
          omega
      | dequeue e x =>
        simp only [queueOpWarnings] at h
        split_ifs at h
        · simp at h
        · simp at h
        · obtain ⟨k, _, hk4⟩ := List.mem_map.1 h
          cases hk4
      | count e => simp [queueOpWarnings] at h
      | clear e => simp [queueOpWarnings] at h
    · exact ih _ (by rw [queueStep_capacity]; exact hq) h

theorem enqueue_passed {α : Type} (th : CapThresholds) (q : Queue α) (x : α)
    (hmono : ∀ i j, i ≤ j → j < ARRAY_LENGTH_s_capLevels →
      th.rise i q.capacity ≤ th.rise j q.capacity)
    (hinv : ∀ j, j < q.level → th.rise j q.capacity < q.count)
    (hlt : q.count < q.capacity) :
    ∀ j, j < (queue_enqueue th 0 q x).1.level →
      th.rise j (queue_enqueue th 0 q x).1.capacity < (queue_enqueue th 0 q x).1.count := by
  rw [enqueue_success th q x hlt]
  intro j hj
  simp only at hj ⊢
  rcases enqueueLevel_cases th q.count q.capacity q.level with h | ⟨i, _, hi5, hc, h⟩
  · rw [h] at hj
    have := hinv j hj
    omega
  · rw [h] at hj
    have := hmono j i (by omega) hi5
    omega

theorem fill_reaches {α : Type} (th : CapThresholds) (i : Nat)
    (hi : i < ARRAY_LENGTH_s_capLevels) (items : List α) :
    ∀ q : Queue α,
      (∀ a b, a ≤ b → b < ARRAY_LENGTH_s_capLevels →
        th.rise a q.capacity ≤ th.rise b q.capacity) →
      (∀ j, j < q.level → th.rise j q.capacity < q.count) →
      q.count ≤ th.rise i q.capacity → th.rise i q.capacity < q.count + items.length →
      q.count + items.length ≤ q.capacity →
      QueueWarning.exceeds i ∈ queueWarnings th q (items.map (QueueOp.enqueue 0)) := by
  induction items with
  | nil =>
    intro q _ _ h1 h2 _
    simp only [List.length_nil] at h2
    omega
  | cons x rest ih =>
    intro q hmono hinv h1 h2 h3
    simp only [List.length_cons] at h2 h3
    have hlt : q.count < q.capacity := by omega
    simp only [List.map_cons, queueWarnings, queueOpWarnings, queueStep]
    rw [if_neg (by simp), if_neg (by omega)]
    apply List.mem_append.2
    by_cases heq : q.count = th.rise i q.capacity
    · left
      apply List.mem_map.2
      refine ⟨i, ?_, rfl⟩
      unfold enqueueWarnings
      apply List.mem_filter.2
      refine ⟨?_, by simpa using heq⟩
      rw [List.mem_range'_1]
      have hle : q.level ≤ i := by
        by_contra hcon
        have := hinv i (by omega)
        omega
      omega
    · right
      have hcap : (queue_enqueue th 0 q x).1.capacity = q.capacity := by
        rw [enqueue_success th q x hlt]
      have hcnt : (queue_enqueue th 0 q x).1.count = q.count + 1 := by
        rw [enqueue_success th q x hlt]
      apply ih
      · rw [hcap]; exact hmono
      · exact enqueue_passed th q x hmono hinv hlt
      · rw [hcap, hcnt]; omega
      · rw [hcap, hcnt]; omega
      · rw [hcap, hcnt]; omega

theorem exactThresholds_rise_mono (capacity : Nat) :
    ∀ a b, a ≤ b → b < ARRAY_LENGTH_s_capLevels →
      exactThresholds.rise a capacity ≤ exactThresholds.rise b capacity := by
  intro a b hab hb
  have hb5 : b < 5 := hb
  simp only [exactThresholds]
  interval_cases b <;> interval_cases a <;>
    simp only [List.getD_cons_zero, List.getD_cons_succ] <;> omega

theorem fill_count {α : Type} (th : CapThresholds) (items : List α) :
    ∀ (q : Queue α) (log : List (QueueEvent α)), q.count + items.length ≤ q.capacity →
      ((items.map (QueueOp.enqueue 0)).foldl (queueStep th) (q, log)).1.count
        = q.count + items.length := by
  induction items with
  | nil => intro q log _; rfl
  | cons x rest ih =>
    intro q log hq
    simp only [List.length_cons] at hq
    simp only [List.map_cons, List.foldl_cons, queueStep]
    rw [enqueue_success th q x (by omega)]
    simp only
    rw [ih _ _ (by simp only; omega)]
    simp only [List.length_cons]
    omega

/-- C21 (upward crossing), refuted for the threshold of 99 percent.  With the
thresholds computed as the integer part of `(p + 0.01) * capacity`, for every
capacity of at least one the fill of a freshly created queue from empty to full
by `capacity` calls of `queue_enqueue` logs the warning "exceeds" exactly once
for each of the thresholds with the indices 0 to 3 (1, 25, 50 and 75 percent)
and never for the threshold with index 4 (99 percent): its value is the
capacity, and the loop is only reached with `count < capacity`.  No sequence
of calls whatever logs that warning. -/
theorem exceeds_99_never_logged {α : Type} (queueMem : Bool) (mutexError : Nat)
    (bufferMem : Option (Nat → α)) (capacity itemSize : Nat) (q : Queue α)
    (hq : queue_create queueMem mutexError bufferMem capacity itemSize = some q)
    (hcap : 1 ≤ capacity) (items : List α) (hlen : items.length = capacity)
    (ops : List (QueueOp α)) :
    (∀ i, i < 4 →
      (queueWarnings exactThresholds q (items.map (QueueOp.enqueue 0))).count
        (.exceeds i) = 1) ∧
    (queueWarnings exactThresholds q (items.map (QueueOp.enqueue 0))).count (.exceeds 4) = 0 ∧
    (queueRun exactThresholds q (items.map (QueueOp.enqueue 0))).1.count = capacity ∧
    exactThresholds.rise 4 capacity = capacity ∧
    (queueWarnings exactThresholds q ops).count (.exceeds 4) = 0 := by
  obtain ⟨q0, _, _, ql, qc⟩ := queue_create_some hq
  have hr4 : exactThresholds.rise 4 capacity = capacity := by
    simp only [exactThresholds, List.getD_cons_zero, List.getD_cons_succ]
    omega
  have hr4' : exactThresholds.rise 4 q.capacity = q.capacity := by rw [qc]; exact hr4
  have hfill : ∀ op ∈ items.map (QueueOp.enqueue (α := α) 0), op.isEnqueue = true := by
    intro op hop
    obtain ⟨x, _, rfl⟩ := List.mem_map.1 hop
    rfl
  refine ⟨?_, ?_, ?_, hr4, ?_⟩
  · intro i hi
    apply Nat.le_antisymm
    · exact List.nodup_iff_count_le_one.1 (fill_warnings exactThresholds _ q hfill).1 _
    · apply List.count_pos_iff.2
      apply fill_reaches exactThresholds i (by simp [ARRAY_LENGTH_s_capLevels]; omega) items
      · exact exactThresholds_rise_mono _
      · intro j hj
        rw [ql] at hj
        omega
      · rw [q0]
        exact Nat.zero_le _
      · rw [q0, qc, hlen]
        simp only [exactThresholds]
        interval_cases i <;> simp only [List.getD_cons_zero, List.getD_cons_succ] <;> omega
      · rw [q0, qc, hlen]
        omega
  · rw [List.count_eq_zero]
    exact rise_last_never exactThresholds _ _ hr4'
  · have := fill_count exactThresholds items q [] (by rw [q0, qc, hlen]; omega)
    simp only [queueRun]
    rw [this, hlen, q0]
    omega
  · rw [List.count_eq_zero]
    exact rise_last_never exactThresholds _ _ hr4'

/-- Witness for C21: a queue of capacity 100 and a fill of 100 items; the
warning for the threshold of 50 percent is logged once. -/
theorem exceeds_99_never_logged_witness :
    (queueWarnings exactThresholds (freshQueue 100)
      ((List.replicate 100 none).map (QueueOp.enqueue 0))).count (.exceeds 2) = 1 ∧
    (queueWarnings exactThresholds (freshQueue 100)
      ((List.replicate 100 none).map (QueueOp.enqueue 0))).count (.exceeds 4) = 0 ∧
    queueWarnings exactThresholds (freshQueue 4)
      [.enqueue 0 none, .enqueue 0 none, .enqueue 0 none, .enqueue 0 none, .enqueue 0 none] =
      [.exceeds 0, .exceeds 1, .exceeds 2, .exceeds 3] :=
  ⟨(exceeds_99_never_logged true 0 (some (fun _ => none)) 100 8 (freshQueue 100) rfl
      (by decide) (List.replicate 100 none) (by simp) []).1 2 (by decide),
    (exceeds_99_never_logged true 0 (some (fun _ => none)) 100 8 (freshQueue 100) rfl
      (by decide) (List.replicate 100 none) (by simp) []).2.1,
    by decide⟩

/-! ### Queue thresholds: the lower end -/

theorem dequeueLevelLoop_pos (th : CapThresholds) (count capacity : Nat)
    (h0 : count ≠ th.fall 0 capacity) (fuel : Nat) :
    ∀ i level, 1 ≤ level → 1 ≤ dequeueLevelLoop th count capacity fuel i level := by
  induction fuel with
  | zero => intro i level h; exact h
  | succ n ih =>
    intro i level h
    simp only [dequeueLevelLoop]
    by_cases hlt : i < level
    · rw [if_pos hlt]
      apply ih
      by_cases hc : count = th.fall i capacity
      · rw [if_pos hc]
        cases i with
        | zero => exact absurd hc h0
        | succ k => omega
      · rw [if_neg hc]
        exact h
    · rw [if_neg hlt]
      exact h

theorem queueStep_level_pos {α : Type} (th : CapThresholds)
    (s : Queue α × List (QueueEvent α)) (op : QueueOp α)
    (hf : th.fall 0 s.1.capacity = 0) (h : 1 ≤ s.1.level) :
    1 ≤ (queueStep th s op).1.level := by
  cases op with
  | enqueue e x =>
    simp only [queueStep, queue_enqueue]
    split_ifs
    · exact h
    · exact h
    · exact Nat.le_trans h (enqueueLevel_ge th _ _ _)
  | dequeue e x =>
    simp only [queueStep, queue_dequeue]
    split_ifs with h1 h2
    · exact h
    · exact h
    · exact dequeueLevelLoop_pos th _ _ (by rw [hf]; exact h2) _ _ _ h
  | count e => exact h
  | clear e =>
    simp only [queueStep, queue_clear]
    split_ifs <;> exact h

theorem first_threshold_stays {α : Type} (th : CapThresholds) (ops : List (QueueOp α)) :
    ∀ q : Queue α, th.fall 0 q.capacity = 0 → 1 ≤ q.level →
      1 ≤ (ops.foldl (queueStep th) (q, [])).1.level ∧
      QueueWarning.exceeds 0 ∉ queueWarnings th q ops := by
  induction ops with
  | nil => intro q _ h; exact ⟨h, by simp [queueWarnings]⟩
  | cons op rest ih =>
    intro q hf h
    have hstep := queueStep_level_pos th (q, []) op hf h
    have hcap : (queueStep th (q, []) op).1.capacity = q.capacity := queueStep_capacity th _ op
    obtain ⟨h1, h2⟩ := ih (queueStep th (q, []) op).1 (by rw [hcap]; exact hf) hstep
    refine ⟨?_, ?_⟩
    · rw [List.foldl_cons]
      have hfold : ∀ (l : List (QueueOp α)) (s t : Queue α × List (QueueEvent α)),
          s.1 = t.1 → (l.foldl (queueStep th) s).1 = (l.foldl (queueStep th) t).1 := by
        intro l
        induction l with
        | nil => intro s t hst; exact hst
        | cons o r ihr =>
          intro s t hst
          rw [List.foldl_cons, List.foldl_cons]
          apply ihr
          obtain ⟨s1, s2⟩ := s
          obtain ⟨t1, t2⟩ := t
          simp only at hst
          subst hst
          rw [queueStep_fst_log th s1 s2 o, queueStep_fst_log th s1 t2 o]
      rw [hfold rest (queueStep th (q, []) op) ((queueStep th (q, []) op).1, []) rfl]
      exact h1
    · intro hmem
      simp only [queueWarnings] at hmem
      rcases List.mem_append.1 hmem with hm | hm
      · cases op with
        | enqueue e x =>
          simp only [queueOpWarnings] at hm
          split_ifs at hm
          · simp at hm
          · simp at hm
          · obtain ⟨k, hk, hk0⟩ := List.mem_map.1 hm
            injection hk0 with hk0
            subst hk0
            have := (enqueueWarnings_ge th _ _ _ 0 hk).1
            omega
        | dequeue e x =>
          simp only [queueOpWarnings] at hm
          split_ifs at hm
          · simp at hm
          · simp at hm
          · obtain ⟨k, _, hk0⟩ := List.mem_map.1 hm
            cases hk0
        | count e => simp [queueOpWarnings] at hm
        | clear e => simp [queueOpWarnings] at hm
      · exact h2 hm

/-- C22 (downward crossing), refuted for the threshold of 1 percent.  Its lower
value `(0.01 - 0.01) * capacity` is 0, and the loop of `queue_dequeue` is only
reached with `count > 0`: once the level is above 0, it stays above 0 through
every sequence of calls, in particular through a drain to the empty queue, and
the warning "exceeds" for the threshold with index 0 is never logged again.
For a capacity of 100: three items are put in (one warning, level 1), taken
out again (level still 1) and put in again (no warning).  For a capacity of 4
the lower values of the thresholds 0 and 1 are both 0: after a fill and a drain
to empty the level is 2, and the next fill logs no warning for the thresholds
0 and 1. -/
theorem ratchet_never_resets_first {α : Type} (th : CapThresholds) (q : Queue α)
    (ops : List (QueueOp α)) (hfall : th.fall 0 q.capacity = 0) (hlevel : 0 < q.level) :
    0 < (queueRun th q ops).1.level ∧
    (queueWarnings th q ops).count (.exceeds 0) = 0 ∧
    (∀ capacity, exactThresholds.fall 0 capacity = 0) ∧
    (queueRun exactThresholds (freshQueue 100)
      [.enqueue 0 none, .enqueue 0 none, .enqueue 0 none,
       .dequeue 0 none, .dequeue 0 none, .dequeue 0 none]).1.count = 0 ∧
    (queueRun exactThresholds (freshQueue 100)
      [.enqueue 0 none, .enqueue 0 none, .enqueue 0 none,
       .dequeue 0 none, .dequeue 0 none, .dequeue 0 none]).1.level = 1 ∧
    queueWarnings exactThresholds (freshQueue 100)
      [.enqueue 0 none, .enqueue 0 none, .enqueue 0 none,
       .dequeue 0 none, .dequeue 0 none, .dequeue 0 none,
       .enqueue 0 none, .enqueue 0 none, .enqueue 0 none] = [.exceeds 0] ∧
    (queueRun exactThresholds (freshQueue 4)
      [.enqueue 0 none, .enqueue 0 none, .enqueue 0 none, .enqueue 0 none,
       .dequeue 0 none, .dequeue 0 none, .dequeue 0 none, .dequeue 0 none]).1.level = 2 ∧
    queueWarnings exactThresholds
      (queueRun exactThresholds (freshQueue 4)
        [.enqueue 0 none, .enqueue 0 none, .enqueue 0 none, .enqueue 0 none,
         .dequeue 0 none, .dequeue 0 none, .dequeue 0 none, .dequeue 0 none]).1
      [.enqueue 0 none, .enqueue 0 none, .enqueue 0 none, .enqueue 0 none] =
      [.exceeds 2, .exceeds 3] := by
  obtain ⟨h1, h2⟩ := first_threshold_stays th ops q hfall hlevel
  refine ⟨h1, List.count_eq_zero.2 h2, ?_, by decide, by decide, by decide, by decide,
    by decide⟩
  intro capacity
  simp [exactThresholds]

/-- Witness for C22: the queue of capacity 100 after three items were put in
and taken out, on which three items are put in again. -/
theorem ratchet_never_resets_first_witness :
    (queueWarnings exactThresholds
      (queueRun exactThresholds (freshQueue 100)
        [.enqueue 0 none, .enqueue 0 none, .enqueue 0 none,
         .dequeue 0 none, .dequeue 0 none, .dequeue 0 none]).1
      [.enqueue 0 none, .enqueue 0 none, .enqueue 0 none]).count (.exceeds 0) = 0 :=
  (ratchet_never_resets_first exactThresholds
    (queueRun exactThresholds (freshQueue 100)
      [.enqueue 0 none, .enqueue 0 none, .enqueue 0 none,
       .dequeue 0 none, .dequeue 0 none, .dequeue 0 none]).1
    [.enqueue 0 none, .enqueue 0 none, .enqueue 0 none] (by decide) (by decide)).2.1

/-! ### SML responses: the properties of the specification -/

/-- C30 (first response only): when no message before it is a GetProcParameter
response, `handleSmlFile` on a file that holds a message with a body tagged
GetProcParameterResponse returns what `handleProcParamResponse` returns for the
data of that body, whatever messages follow it.  Elements of the array that are
`NULL`, messages without a body and bodies with another tag are passed over.
When no message of the file is such a response, `handleSmlFile` returns 0 and
leaves the measurement as it is. -/
theorem handleSmlFile_first_response {V : Type} (scale : V → Int → V)
    (pre post : List (Option (sml_message V))) (body : sml_message_body V)
    (m : SmartMeter_Data V)
    (hpre : ∀ x ∈ pre, isProcParamResponse x = false)
    (hbody : bodyTag body = SML_MESSAGE_GET_PROC_PARAMETER_RESPONSE) :
    handleSmlFile scale ⟨pre ++ some ⟨some body⟩ :: post⟩ m =
      handleProcParamResponse scale body.data m ∧
    (∀ others : List (Option (sml_message V)),
      handleSmlFile scale ⟨pre ++ some ⟨some body⟩ :: others⟩ m =
        handleSmlFile scale ⟨pre ++ some ⟨some body⟩ :: post⟩ m) ∧
    handleSmlFile scale ⟨pre⟩ m = some (0, m) := by
  have key : ∀ tail : List (Option (sml_message V)),
      handleMessages scale (pre ++ tail) m = handleMessages scale tail m := by
    intro tail
    induction pre with
    | nil => rfl
    | cons x rest ih =>
      have hx := hpre x (List.mem_cons_self _ _)
      have hrest := fun y hy => hpre y (List.mem_cons_of_mem _ hy)
      cases x with
      | none =>
        simp only [List.cons_append, handleMessages]
        exact ih hrest
      | some message =>
        obtain ⟨mb⟩ := message
        cases mb with
        | none =>
          simp only [List.cons_append, handleMessages]
          exact ih hrest
        | some b =>
          simp only [isProcParamResponse, bodyTag, decide_eq_false_iff_not] at hx
          simp only [List.cons_append, handleMessages]
          rw [if_neg hx]
          exact ih hrest
  have hhit : ∀ tail : List (Option (sml_message V)),
      handleMessages scale (some ⟨some body⟩ :: tail) m =
        handleProcParamResponse scale body.data m := by
    intro tail
    simp only [bodyTag] at hbody
    simp only [handleMessages]
    rw [if_pos hbody]
  refine ⟨?_, ?_, ?_⟩
  · simp only [handleSmlFile]
    rw [key, hhit]
  · intro others
    simp only [handleSmlFile]
    rw [key, key, hhit, hhit]
  · have := key []
    simp only [List.append_nil] at this
    simp only [handleSmlFile]
    rw [this]
    rfl

/-- Witness for C30: a file with a `NULL` element, a message without body, a
message with another tag, the response with one period entry, and a second
response after it. -/
theorem handleSmlFile_first_response_witness :
    handleSmlFile (fun v _ => v)
      ⟨[none, some ⟨none⟩, some ⟨some ⟨some 0x101, none⟩⟩] ++
        some ⟨some ⟨some SML_MESSAGE_GET_PROC_PARAMETER_RESPONSE,
          some ⟨periodNode [0x01, 0x00, 0x23, 0x07, 0x00, 0xff] (230 : Int)⟩⟩⟩ ::
        [some ⟨some ⟨some SML_MESSAGE_GET_PROC_PARAMETER_RESPONSE,
          some ⟨periodNode [0x01, 0x00, 0x37, 0x07, 0x00, 0xff] 5⟩⟩⟩]⟩ ⟨fun _ => 0⟩ =
      handleProcParamResponse (fun v _ => v)
        (some ⟨periodNode [0x01, 0x00, 0x23, 0x07, 0x00, 0xff] (230 : Int)⟩) ⟨fun _ => 0⟩ :=
  (handleSmlFile_first_response (fun v _ => v)
    [none, some ⟨none⟩, some ⟨some ⟨some 0x101, none⟩⟩] _
    ⟨some SML_MESSAGE_GET_PROC_PARAMETER_RESPONSE,
      some ⟨periodNode [0x01, 0x00, 0x23, 0x07, 0x00, 0xff] (230 : Int)⟩⟩ ⟨fun _ => 0⟩
    (by decide) (by decide)).1

theorem lookupObis_listed :
    ∀ e ∈ obisTable.take 16, lookupObis (some e.obis) = .entry e ∧ e.obis.length = 6 := by
  decide

theorem slotOfTag_lookup (name : octet_string) (slot : Nat) (h : slotOfTag name = some slot) :
    name.length = 6 ∧ ∃ e, lookupObis (some name) = .entry e ∧ e.id = slot := by
  unfold slotOfTag at h
  cases hf : (obisTable.take 16).find? (fun e => e.obis = name) with
  | none => rw [hf] at h; simp at h
  | some e =>
    rw [hf] at h
    simp only [Option.map_some', Option.some.injEq] at h
    have hmem := List.mem_of_find?_eq_some hf
    have hp := List.find?_some hf
    simp only [decide_eq_true_eq] at hp
    obtain ⟨h1, h2⟩ := lookupObis_listed e hmem
    rw [← hp]
    exact ⟨h2, e, h1, h⟩

theorem handleParameterValue_listed {V : Type} (scale : V → Int → V)
    (ppv : Option (sml_proc_par_value V)) (m : SmartMeter_Data V)
    (h : entryListed ppv = true) :
    handleParameterValue scale ppv m =
      some (((designatedEntry scale ppv).toList.length : Int),
        applyStores (designatedEntry scale ppv).toList m) := by
  cases ppv with
  | none => rfl
  | some ppv =>
    obtain ⟨tag, period_entry⟩ := ppv
    cases tag with
    | none => rfl
    | some t =>
      by_cases ht : t = SML_PROC_PAR_VALUE_TAG_PERIOD_ENTRY
      · subst ht
        cases period_entry with
        | none => simp [entryListed] at h
        | some entry =>
          obtain ⟨obj_name, scaler, value⟩ := entry
          cases value with
          | none => rfl
          | some v =>
            cases obj_name with
            | none => rfl
            | some name =>
              simp only [entryListed, if_true, Bool.or_eq_true, decide_eq_true_eq] at h
              cases hs : slotOfTag name with
              | none =>
                rw [hs] at h
                simp only [Option.isSome_none, Bool.false_eq_true, or_false] at h
                simp only [handleParameterValue, if_true, handlePeriodEntry, lookupObis,
                  designatedEntry, hs]
                rw [if_pos (by simpa [sizeof_OBIS] using h)]
                rfl
              | some slot =>
                obtain ⟨hlen, e, he, hid⟩ := slotOfTag_lookup name slot hs
                simp only [handleParameterValue, if_true, handlePeriodEntry, he,
                  designatedEntry, hs, hid]
                rfl
      · have ht' : ¬ (some t = some SML_PROC_PAR_VALUE_TAG_PERIOD_ENTRY) := by
          intro hc
          exact ht (Option.some.inj hc)
        simp only [handleParameterValue, designatedEntry]
        rw [if_neg ht, if_neg ht']
        rfl

theorem applyStores_append {V : Type} (l₁ l₂ : List (Nat × V)) (m : SmartMeter_Data V) :
    applyStores (l₁ ++ l₂) m = applyStores l₂ (applyStores l₁ m) := by
  simp [applyStores, List.foldl_append]

mutual
theorem handleTree_listed {V : Type} (scale : V → Int → V) :
    ∀ (tree : sml_tree V) (m : SmartMeter_Data V), treeListed tree = true →
      handleTree scale tree m =
        some (((designated scale tree).length : Int), applyStores (designated scale tree) m)
  | .null, m, _ => rfl
  | .node parameter_value child_list, m, h => by
    simp only [treeListed, Bool.and_eq_true] at h
    simp only [handleTree, designated]
    rw [handleParameterValue_listed scale parameter_value m h.1]
    simp only
    rw [handleChildren_listed scale child_list _ _ h.2, applyStores_append]
    simp only [List.length_append]
    push_cast
    rfl
theorem handleChildren_listed {V : Type} (scale : V → Int → V) :
    ∀ (children : List (sml_tree V)) (ret : Int) (m : SmartMeter_Data V),
      childrenListed children = true →
      handleChildren scale children ret m =
        some (ret + ((designatedChildren scale children).length : Int),
          applyStores (designatedChildren scale children) m)
  | [], ret, m, _ => by
    simp [handleChildren, designatedChildren, applyStores]
  | child :: rest, ret, m, h => by
    simp only [childrenListed, Bool.and_eq_true] at h
    simp only [handleChildren, designatedChildren]
    rw [handleTree_listed scale child m h.1]
    simp only
    rw [handleChildren_listed scale rest _ _ h.2, applyStores_append]
    simp only [List.length_append]
    push_cast
    rw [Int.add_assoc]
end

theorem applyStores_val {V : Type} (stores : List (Nat × V)) :
    ∀ (m : SmartMeter_Data V) (i : Nat),
      (applyStores stores m).val i =
        match stores.reverse.find? (fun p => p.1 = i) with
        | some p => p.2
        | none => m.val i := by
  induction stores using List.reverseRecOn with
  | nil => intro m i; rfl
  | append_singleton l p ih =>
    intro m i
    rw [applyStores_append, List.reverse_append]
    simp only [applyStores, List.foldl_cons, List.foldl_nil, List.reverse_cons, List.reverse_nil,
      List.nil_append, List.singleton_append, List.find?_cons, SmartMeter_Data.store]
    by_cases hp : p.1 = i
    · simp [hp]
    · have hne : ¬ i = p.1 := fun hc => hp hc.symm
      simp only [hp, decide_False, if_neg hne]
      exact ih m i

/-- C24 (tree extraction), refuted for object names that the table does not
list.  On every tree in which each period entry with a value has an object name
that is `NULL`, longer than six octets or one of the sixteen listed tags,
`handleTree` returns the number of the nodes that designate a slot (period
entries with a value and a listed name) and stores for each of them, in
pre-order, the scaled value in its slot: every slot ends with the value of the
last node that designates it, or as it was.  For other names this fails: for
the three octets `01 00 23` the value is counted and stored in `POWER_L1`, for
six zero octets it is counted and stored in slot 0, which is `TIMESTAMP`, and
for the unlisted tag `01 00 01 08 00 FF` the lookup leaves the table and the
call has no defined result. -/
theorem handleTree_extraction {V : Type} (scale : V → Int → V) (tree : sml_tree V)
    (m : SmartMeter_Data V) (h : treeListed tree = true) :
    handleTree scale tree m =
      some (((designated scale tree).length : Int), applyStores (designated scale tree) m) ∧
    (∀ i, (applyStores (designated scale tree) m).val i =
      match (designated scale tree).reverse.find? (fun p => p.1 = i) with
      | some p => p.2
      | none => m.val i) ∧
    (∀ (sc : Int → Int → Int) (m₀ : SmartMeter_Data Int),
      designated sc (periodNode [0x01, 0x00, 0x23] 42) = [] ∧
      handleTree sc (periodNode [0x01, 0x00, 0x23] 42) m₀ = some (1, m₀.store POWER_L1 42) ∧
      designated sc (periodNode [0, 0, 0, 0, 0, 0] 42) = [] ∧
      handleTree sc (periodNode [0, 0, 0, 0, 0, 0] 42) m₀ = some (1, m₀.store TIMESTAMP 42) ∧
      designated sc (periodNode [0x01, 0x00, 0x01, 0x08, 0x00, 0xff] 42) = [] ∧
      handleTree sc (periodNode [0x01, 0x00, 0x01, 0x08, 0x00, 0xff] 42) m₀ = none) :=
  ⟨handleTree_listed scale tree m h, applyStores_val (designated scale tree) m,
    fun _ _ => ⟨rfl, rfl, rfl, rfl, rfl, rfl⟩⟩

/-- Witness for C24: a tree of two levels with three listed period entries, two
of them for `POWER_L1`: the count is 3, `POWER_L1` ends with the value 7 of the
later node and `POWER_L2` with 5. -/
theorem handleTree_extraction_witness :
    treeListed nestedTree = true ∧
    designated scaleInt nestedTree = [(POWER_L1, 2300), (POWER_L2, 5), (POWER_L1, 7)] ∧
    handleTree scaleInt nestedTree ⟨fun _ => 0⟩ =
      some (((designated scaleInt nestedTree).length : Int),
        applyStores (designated scaleInt nestedTree) ⟨fun _ => 0⟩) ∧
    (handleTree scaleInt nestedTree ⟨fun _ => 0⟩).map
      (fun r => (r.1, r.2.val POWER_L1, r.2.val POWER_L2, r.2.val POWER_L3)) =
      some (3, 7, 5, 0) :=
  ⟨by decide, by decide,
    (handleTree_extraction scaleInt nestedTree ⟨fun _ => 0⟩ (by decide)).1, by decide⟩

/-! ### The slice handed to the parser -/

/-- C27 (slice bounds), refuted for short responses.  When connecting and
sending succeed and `recv` delivers `n` bytes with `1 <= n <= 1500`,
`smartmeter_measure` calls the parser with offset 8 and length `n - 16` in the
arithmetic of `size_t`.  The slice lies inside the received bytes exactly when
`n >= 16`; for `n < 16` the subtraction wraps around and the length is
`2^64 - 16 + n`.  For a response of 10 bytes the length is
18446744073709551610. -/
theorem parse_slice_wraps {V : Type} (env : MeasureEnv V) (m_socket : Int) (n : Nat)
    (hconnect : (smartmeter_connect env.clientSocket m_socket).1 ≠ 0)
    (hsend : sendRequest env.written ≠ 0)
    (hrecv : env.received = (n : Int)) (h1 : 1 ≤ n) (hn : n ≤ MTU) :
    measureParseCall env m_socket = some (parseSlice n) ∧
    (parseSlice n).1 = 8 ∧
    ((parseSlice n).1 + (parseSlice n).2 ≤ n ↔ 16 ≤ n) ∧
    (16 ≤ n → (parseSlice n).2 = n - 16) ∧
    (n < 16 → (parseSlice n).2 = 2 ^ 64 - 16 + n ∧ n < (parseSlice n).2) ∧
    parseSlice 10 = (8, 18446744073709551610) := by
  have hM : SIZE_MAX + 1 = 18446744073709551616 := by decide
  have hsize : recvSize env.received = n := by
    rw [hrecv]
    unfold recvSize
    have hMi : ((SIZE_MAX : Int) + 1) = 18446744073709551616 := by decide
    rw [hMi]
    have hmtu : MTU = 1500 := rfl
    omega
  have hlen : (parseSlice n).2 = if 16 ≤ n then n - 16 else 18446744073709551616 - 16 + n := by
    simp only [parseSlice, hM]
    have hmtu : MTU = 1500 := rfl
    split_ifs <;> omega
  refine ⟨?_, rfl, ?_, ?_, ?_, by decide⟩
  · simp only [measureParseCall]
    rw [if_neg hconnect, if_neg hsend, if_neg (by rw [hrecv]; omega),
      if_neg (by rw [hrecv]; omega), hsize]
  · rw [hlen]
    simp only [parseSlice]
    split_ifs <;> omega
  · intro h16
    rw [hlen, if_pos h16]
  · intro h16
    rw [hlen, if_neg (by omega)]
    norm_num

/-- Witness for C27: a tick on which the meter answers with 10 bytes. -/
theorem parse_slice_wraps_witness :
    measureParseCall { okTick repeatedTree with received := 10 } INVALID_SOCKET =
      some (8, 18446744073709551610) ∧
    ¬ (8 + 18446744073709551610 ≤ 10) :=
  ⟨(parse_slice_wraps { okTick repeatedTree with received := 10 } INVALID_SOCKET 10
      (by decide) (by decide) rfl (by decide) (by decide)).1, by decide⟩

/-! ### Socket table: the properties of the specification -/

theorem setSfd_lookup (table : List SocketEntry) (sfd : Int) :
    ∀ k, lookupSocketEntry table sfd = some k → setSfd table k sfd = table := by
  induction table with
  | nil => intro k h; simp [lookupSocketEntry] at h
  | cons e rest ih =>
    intro k h
    simp only [lookupSocketEntry] at h
    by_cases he : e.sfd = sfd
    · rw [if_pos he] at h
      simp only [Option.some.injEq] at h
      subst h
      simp only [setSfd]
      rw [← he]
    · rw [if_neg he] at h
      cases hl : lookupSocketEntry rest sfd with
      | none => rw [hl] at h; simp at h
      | some j =>
        rw [hl] at h
        simp only [Option.map_some', Option.some.injEq] at h
        subst h
        simp only [setSfd]
        rw [ih j hl]

theorem removeSocketEntry_same (table : List SocketEntry) (sfd : Int) :
    removeSocketEntry table sfd = table := by
  unfold removeSocketEntry
  cases h : lookupSocketEntry table INVALID_SOCKET with
  | none => rfl
  | some k => exact setSfd_lookup table INVALID_SOCKET k h

/-- C25 (socket registry), refuted.  `removeSocketEntry` looks up
`INVALID_SOCKET` instead of the descriptor it is given, so it leaves the table
as it is, and so does `io_closeSocket`: the entry of a closed descriptor stays.
After `io_init`, the registration of the descriptor 5 and its closing, the
lookup of 5 still finds the entry with index 0; when the descriptor 5 is
registered again, the table holds two entries for it; and after sixteen
registrations, each followed by its closing, no entry carries
`INVALID_SOCKET` and a further registration fails. -/
theorem closeSocket_leaves_entry (st : IoState) (sfd : Int) :
    (io_closeSocket_table st sfd).1 = st ∧
    lookupSocketEntry (ioRun (io_init ioStatic)
      [.multiplexRead 5 (some "meter") (some 1), .closeSocket 5]).socketTable 5 = some 0 ∧
    descriptors (ioRun (io_init ioStatic)
      [.multiplexRead 5 (some "meter") (some 1), .closeSocket 5,
       .multiplexRead 5 (some "meter") (some 1)]) =
      [5, 5, -1, -1, -1, -1, -1, -1, -1, -1, -1, -1, -1, -1, -1, -1] ∧
    descriptors (ioRun (io_init ioStatic)
      ((List.range 16).flatMap (fun i =>
        [.multiplexRead (i + 3) none (some 1), .closeSocket (i + 3)]))) =
      [3, 4, 5, 6, 7, 8, 9, 10, 11, 12, 13, 14, 15, 16, 17, 18] ∧
    (io_multiplexRead (ioRun (io_init ioStatic)
      ((List.range 16).flatMap (fun i =>
        [.multiplexRead (i + 3) none (some 1), .closeSocket (i + 3)]))) 19 none (some 1)).2
      = 0 := by
  refine ⟨?_, by decide, by decide, by decide, by decide⟩
  unfold io_closeSocket_table
  split_ifs
  · simp only [removeSocketEntry_same]
  · rfl

/-! ### Command line: options without a value -/

theorem validateArgs_zero (args : List Argument) : validateArgs args 0 = 0 := by
  induction args with
  | nil => rfl
  | cons e rest ih =>
    simp only [validateArgs]
    split_ifs <;> exact ih

theorem parseArgv_missing (args : List Argument) (n : Nat) :
    ∀ (l : List String), l.length ≤ n → ∀ (table : List Argument) (ok : Int) (ord : Nat),
      (∀ p, lookupByPrefix table p = lookupByPrefix args p) →
      (∀ k, typeAt table k = typeAt args k) →
      (ok = 0 ∨ missingValue args l = true) →
      (parseArgv l (table, ok, ord)).2.1 = 0 := by
  induction n with
  | zero =>
    intro l hl table ok ord _ _ h
    have : l = [] := List.length_eq_zero.1 (by omega)
    subst this
    rcases h with h | h
    · simpa [parseArgv] using h
    · simp [missingValue] at h
  | succ n ih =>
    intro l hl table ok ord hp ht h
    have hset : ∀ k v, (∀ p, lookupByPrefix (setValue table k v) p = lookupByPrefix args p) ∧
        (∀ j, typeAt (setValue table k v) j = typeAt args j) := by
      intro k v
      exact ⟨fun p => by rw [lookupByPrefix_setValue, hp],
        fun j => by rw [typeAt_setValue, ht]⟩
    match l, hl, h with
    | [], _, h =>
      rcases h with h | h
      · simpa [parseArgv] using h
      · simp [missingValue] at h
    | [a], _, h =>
      simp only [parseArgv]
      cases hk : lookupByPrefix table a with
      | some k =>
        simp only
        by_cases hf : clearOptional (typeAt table k) = ARG_FLAG
        · rw [if_pos hf]
          rcases h with h | h
          · exact h
          · rw [hp] at hk
            rw [ht] at hf
            simp [missingValue, isValuedPrefix, hk, hf] at h
        · rw [if_neg hf]
      | none =>
        simp only
        rcases h with h | h
        · split_ifs <;> first | rfl | exact h
        · rw [hp] at hk
          simp [missingValue, isValuedPrefix, hk] at h
    | a :: v :: rest, hl, h =>
      simp only [List.length_cons] at hl
      simp only [parseArgv]
      cases hk : lookupByPrefix table a with
      | some k =>
        simp only
        by_cases hf : clearOptional (typeAt table k) = ARG_FLAG
        · rw [if_pos hf]
          apply ih (v :: rest) (by simp only [List.length_cons]; omega) _ _ _
            (hset k a).1 (hset k a).2
          rcases h with h | h
          · exact Or.inl h
          · rw [hp] at hk
            rw [ht] at hf
            simp only [missingValue, isValuedPrefix, hk, hf, ne_eq, not_true_eq_false,
              decide_False, Bool.false_and, Bool.false_or] at h
            exact Or.inr h
        · rw [if_neg hf]
          by_cases hv : (lookupByPrefix table v).isSome = true
          · rw [if_pos hv]
            exact ih (v :: rest) (by simp only [List.length_cons]; omega) _ _ _ hp ht
              (Or.inl rfl)
          · rw [if_neg hv]
            apply ih rest (by omega) _ _ _ (hset k v).1 (hset k v).2
            rcases h with h | h
            · exact Or.inl h
            · right
              rw [hp] at hv
              have hv' : (lookupByPrefix args v).isSome = false := by simpa using hv
              have hvn : lookupByPrefix args v = none := by
                cases hx : lookupByPrefix args v with
                | none => rfl
                | some j => rw [hx] at hv'; simp at hv'
              simp only [missingValue, hv', Bool.and_false, Bool.false_or] at h
              cases rest with
              | nil => simp [missingValue, isValuedPrefix, hvn] at h
              | cons w rest' =>
                simp only [missingValue, isValuedPrefix, hvn, Bool.false_and,
                  Bool.false_or] at h
                exact h
      | none =>
        simp only
        have hmv : ok = 0 ∨ missingValue args (v :: rest) = true := by
          rcases h with h | h
          · exact Or.inl h
          · rw [hp] at hk
            simp only [missingValue, isValuedPrefix, hk, Bool.false_and, Bool.false_or] at h
            exact Or.inr h
        split_ifs
        · exact ih (v :: rest) (by simp only [List.length_cons]; omega) _ _ _ hp ht
            (Or.inl rfl)
        · exact ih (v :: rest) (by simp only [List.length_cons]; omega) _ _ _
            (hset _ a).1 (hset _ a).2 hmv

/-- C29 (missing option value): let `p` be the prefix of a table entry that is
not a flag.  When `p` is the last argument, `args_parse` sets `ok` to 0 and
leaves the table as it is; when `p` is directly followed by an argument `v`
that is a known prefix, it sets `ok` to 0, leaves the table as it is and goes
on with `v` as the next argument to be looked at, so that `v` is parsed as an
option of its own.  Whenever this happens somewhere in the argument vector,
`args_parse` returns 0.  On the table of `smlogger`: for `-c` alone the result
is 0 with the table unchanged (count still `-1`), and for `-a -o` the result is
0, address is still `NULL` and the flag onboard is set. -/
theorem args_missing_value (args : List Argument) (p : String) (k : Nat)
    (hk : lookupByPrefix args p = some k)
    (hflag : clearOptional (typeAt args k) ≠ ARG_FLAG) :
    (∀ ok ord, parseArgv [p] (args, ok, ord) = (args, 0, ord)) ∧
    (∀ v rest ok ord, (lookupByPrefix args v).isSome = true →
      parseArgv (p :: v :: rest) (args, ok, ord) = parseArgv (v :: rest) (args, 0, ord)) ∧
    (∀ prog argv, missingValue args argv = true → (args_parse args (prog :: argv)).1 = 0) ∧
    (∀ prog before, (args_parse args (prog :: before ++ [p])).1 = 0) ∧
    (∀ prog before v after, (lookupByPrefix args v).isSome = true →
      (args_parse args (prog :: before ++ p :: v :: after)).1 = 0) ∧
    args_parse smloggerArgs ["smlogger", "-c"] = (0, smloggerArgs) ∧
    (args_parse smloggerArgs ["smlogger", "-a", "-o"]).1 = 0 ∧
    args_value (args_parse smloggerArgs ["smlogger", "-a", "-o"]).2 "address" = none ∧
    args_value (args_parse smloggerArgs ["smlogger", "-a", "-o"]).2 "onboard" = some "-o" := by
  have hvp : isValuedPrefix args p = true := by
    simp [isValuedPrefix, hk, hflag]
  have hfail : ∀ prog argv, missingValue args argv = true →
      (args_parse args (prog :: argv)).1 = 0 := by
    intro prog argv h
    simp only [args_parse, List.drop_succ_cons, List.drop_zero]
    rw [parseArgv_missing args argv.length argv (Nat.le_refl _) args 1 0 (fun _ => rfl)
      (fun _ => rfl) (Or.inr h)]
    exact validateArgs_zero _
  have hmiddle : ∀ (before : List String) (tail : List String),
      missingValue args (p :: tail) = true → missingValue args (before ++ p :: tail) = true := by
    intro before
    induction before with
    | nil => intro tail h; exact h
    | cons b rest ih =>
      intro tail h
      have := ih tail h
      cases hr : rest ++ p :: tail with
      | nil => simp at hr
      | cons x xs =>
        rw [hr] at this
        simp only [List.cons_append, hr, missingValue, this, Bool.or_true]
  refine ⟨?_, ?_, hfail, ?_, ?_, by decide, by decide, by decide, by decide⟩
  · intro ok ord
    simp only [parseArgv, hk]
    rw [if_neg hflag]
  · intro v rest ok ord hv
    simp only [parseArgv, hk]
    rw [if_neg hflag, if_pos hv]
  · intro prog before
    apply hfail
    apply hmiddle
    simp [missingValue, hvp]
  · intro prog before v after hv
    apply hfail
    apply hmiddle
    simp [missingValue, hvp, hv]

/-- Witness for C29: the prefix `-a` of the table of `smlogger`, followed by
the flag `-o`. -/
theorem args_missing_value_witness :
    parseArgv ["-a", "-o", "-q"] (smloggerArgs, 1, 0) =
      parseArgv ["-o", "-q"] (smloggerArgs, 0, 0) ∧
    (args_parse smloggerArgs ("smlogger" :: ["-u", "http://test/"] ++ ["-a"])).1 = 0 :=
  ⟨(args_missing_value smloggerArgs "-a" 3 (by decide) (by decide)).2.1 "-o" ["-q"] 1 0
      (by decide),
    (args_missing_value smloggerArgs "-a" 3 (by decide) (by decide)).2.2.2.1 "smlogger"
      ["-u", "http://test/"]⟩

/-! ### String builder: the properties of the specification -/

theorem builderRun_samples (junk : Nat → Char) :
    strbuilder_copy true
      (builderRun junk [.printf true "%s".toList "abc".toList, .reset]) = some ['a'] ∧
    strbuilder_length
      (builderRun junk [.printf true "%s".toList "abc".toList, .reset]) = 0 ∧
    currentString junk [.printf true "%s".toList "abc".toList, .reset] []
      strbuilder_create = [] ∧
    strbuilder_copy true
      (builderRun junk [.printf true "x".toList "x".toList,
        .printf false "%s".toList "0123456789012345678901234567890123456789".toList]) =
      some ['x', '0'] ∧
    currentString junk [.printf true "x".toList "x".toList,
        .printf false "%s".toList "0123456789012345678901234567890123456789".toList] []
      strbuilder_create = ['x'] ∧
    strbuilder_copy true
      (builderRun junk [.printf true "%s".toList "abc".toList, .reset,
        .printf true "%d".toList "7".toList]) = some ['7', NUL] := by
  refine ⟨rfl, rfl, rfl, rfl, rfl, rfl⟩

/-- C26 (string builder copy), refuted after a reset.  After every sequence of
calls of `strbuilder_printf`, `strbuilder_reset` and `strbuilder_pack` on a new
builder, the first `strbuilder_length` bytes of the buffer are the string under
construction (the texts appended since the last reset), and when the byte after
them is `'\0'`, as it is after every call of `strbuilder_printf` that succeeds,
`strbuilder_copy` returns `NULL` or that string with its `'\0'`.  But
`strbuilder_reset` only sets `len` to 0 and leaves the buffer as it is: after
the text `abc` and a reset, the string under construction is empty and
`strbuilder_length` is 0, while `strbuilder_copy` returns a block of one byte
that holds `a` and no `'\0'`.  Likewise after a call of `strbuilder_printf`
that fails in its second round, when the first round has written over the
`'\0'`. -/
theorem copy_after_reset (junk : Nat → Char) (ops : List BuilderOp) (malloc : Bool) :
    (builderRun junk ops).text = currentString junk ops [] strbuilder_create ∧
    strbuilder_length (builderRun junk ops) =
      (currentString junk ops [] strbuilder_create).length ∧
    ((builderRun junk ops).terminated = false ∨
      strbuilder_copy malloc (builderRun junk ops) = none ∨
      strbuilder_copy malloc (builderRun junk ops) =
        some (currentString junk ops [] strbuilder_create ++ [NUL])) ∧
    (∀ format text,
      (builderRun junk (ops ++ [.printf true format text])).terminated = true) ∧
    strbuilder_copy true
      (builderRun junk [.printf true "%s".toList "abc".toList, .reset]) = some ['a'] ∧
    cstring ['a'] = none ∧
    strbuilder_length
      (builderRun junk [.printf true "%s".toList "abc".toList, .reset]) = 0 ∧
    currentString junk [.printf true "%s".toList "abc".toList, .reset] []
      strbuilder_create = [] ∧
    (builderRun junk [.printf true "%s".toList "abc".toList, .reset]).terminated = false ∧
    strbuilder_copy true
      (builderRun junk [.printf true "x".toList "x".toList,
        .printf false "%s".toList "0123456789012345678901234567890123456789".toList]) =
      some ['x', '0'] ∧
    currentString junk [.printf true "x".toList "x".toList,
        .printf false "%s".toList "0123456789012345678901234567890123456789".toList] []
      strbuilder_create = ['x'] := by
  have hcreate : strbuilder_create.WF := by simp [wf_iff, strbuilder_create]
  obtain ⟨hwf, htext⟩ := builder_current junk ops strbuilder_create [] hcreate rfl
  have hs := builderRun_samples junk
  refine ⟨htext, ?_, ?_, ?_, hs.1, by decide, hs.2.1, hs.2.2.1, rfl, hs.2.2.2.1,
    hs.2.2.2.2.1⟩
  · rw [← htext]
    exact (text_length _ hwf).symm
  · by_cases ht : (builderRun junk ops).terminated = true
    · right
      rw [← htext]
      exact copy_terminated malloc _ ht
    · left
      simpa using ht
  · intro format text
    simp only [builderRun, List.foldl_append, List.foldl_cons, List.foldl_nil, builderStep]
    exact (strbuilder_printf_ok junk _ format text hwf).2.2.2.2.2.1

end Pylon
